import Mathlib

/-!
# Saturn Zen package reader: re-encoder, index resolver, export graph builder,
field bridge and property decoder; CityHash

A shallow embedding of `src/Readers/Impl/ZenPackageReader.cpp` and of the two public hash
functions of `src/Unreal/Hash/CityHash.cpp`.

* Byte buffers (`std::vector<uint8_t>`) are lists of `Fin 256`.
* Object handles (`UObjectPtr`, a shared pointer) are optional heap addresses;
  the empty handle is `none`.
* Operations whose C++ behaviour is undefined (reading past the end of a
  vector, going through an empty handle) return an explicit fault.
* A C++ exception that the reader does not catch (`std::out_of_range` from
  `std::stoi`) is an explicit error result.
* The summary fields reached through `reinterpret_cast` are 32-bit little-endian
  words; arithmetic on them is modulo `2^32`.
* Declarations that the source imports from other modules (summary layout, name
  table codec, object classes, the objects' own `Serialize`) are parameters or are
  modelled from the specification; each such definition says so.
-/

set_option autoImplicit false

namespace Saturn

/-! ## Byte buffers and little-endian 32-bit fields -/

/-- One `uint8_t`. -/
abbrev Byte := Fin 256

/-- Value of a little-endian byte string. -/
def readLE : List Byte → Nat
  | [] => 0
  | b :: bs => b.val + 256 * readLE bs

/-- The `w` low-order bytes of `v`, least significant first. -/
def writeLE : Nat → Nat → List Byte
  | 0, _ => []
  | w + 1, v => ⟨v % 256, Nat.mod_lt _ (by decide)⟩ :: writeLE w (v / 256)

/-- The 32-bit field stored at byte offset `off` of `buffer`. -/
def fieldAt (buffer : List Byte) (off : Nat) : Nat :=
  readLE ((buffer.drop off).take 4)

/-- Value of a 32-bit field after `Field -= Difference` (arithmetic modulo `2^32`). -/
def subWrap32 (old : Nat) (Difference : Int) : Nat :=
  (((old : Int) - Difference) % 4294967296).toNat

/-- The statement `Summary->Field -= Difference` for the 32-bit field that the
`reinterpret_cast` places at byte offset `off` of the buffer. -/
def subAssignField (buffer : List Byte) (off : Nat) (Difference : Int) : List Byte :=
  buffer.take off ++ writeLE 4 (subWrap32 (fieldAt buffer off) Difference) ++ buffer.drop (off + 4)

/-- Conversion of an integer to `int32_t` (two's complement wrap). -/
def toInt32 (x : Int) : Int :=
  (x + 2147483648) % 4294967296 - 2147483648

/-! ## Name table and summary layout -/

/-- The package name table: an ordered sequence of strings. -/
structure FNameMap where
  NameEntries : List String
  deriving DecidableEq, Repr

/-- Modelled from the spec: the declaration of `FZenPackageSummary` is not part of
the source tree. The layout is a parameter: the size of the fixed summary and the byte
offsets of the eight 32-bit fields that `SerializeAsByteArray` patches. -/
structure FZenPackageSummaryLayout where
  sizeofSummary : Nat
  HeaderSize : Nat
  ImportedPublicExportHashesOffset : Nat
  ImportMapOffset : Nat
  ExportMapOffset : Nat
  ExportBundleEntriesOffset : Nat
  DependencyBundleHeadersOffset : Nat
  DependencyBundleEntriesOffset : Nat
  ImportedPackageNamesOffset : Nat
  deriving DecidableEq, Repr

/-- Byte offsets of the patched fields, in the order the source patches them. -/
def FZenPackageSummaryLayout.patchedFields (L : FZenPackageSummaryLayout) : List Nat :=
  [L.HeaderSize, L.ImportedPublicExportHashesOffset, L.ImportMapOffset, L.ExportMapOffset,
   L.ExportBundleEntriesOffset, L.DependencyBundleHeadersOffset,
   L.DependencyBundleEntriesOffset, L.ImportedPackageNamesOffset]

/-- Two 32-bit fields at offsets `a` and `b` do not overlap. -/
def fieldsDisjoint (a b : Nat) : Prop := a + 4 ≤ b ∨ b + 4 ≤ a

instance (a b : Nat) : Decidable (fieldsDisjoint a b) := by
  unfold fieldsDisjoint; infer_instance

/-- A struct layout: every patched field lies inside the summary and no two overlap. -/
def FZenPackageSummaryLayout.WellFormed (L : FZenPackageSummaryLayout) : Prop :=
  (∀ o ∈ L.patchedFields, o + 4 ≤ L.sizeofSummary) ∧ L.patchedFields.Pairwise fieldsDisjoint

instance (L : FZenPackageSummaryLayout) : Decidable L.WellFormed := by
  unfold FZenPackageSummaryLayout.WellFormed; infer_instance

/-- Modelled from the spec: the header parser and `FNameMap::SaveToBuffer` are not part of
the source tree. `Load` is the name table that the secondary reader constructed from a byte
image holds; `SaveToBuffer` is the byte string that encoding a name table appends. -/
structure FNameMapCodec where
  Load : List Byte → FNameMap
  SaveToBuffer : FNameMap → List Byte

/-- Modelled from the spec: `FNameMap::GetNameMapByteDifference` is not part of the source
tree. Spec 4.5 step 1: `delta = encoded_length(current_name_table) -
encoded_length(original_name_table)`; the call site passes the original table first and the
current one second and stores the result in an `int32_t`. -/
def GetNameMapByteDifference (K : FNameMapCodec) (Original Current : FNameMap) : Int :=
  toInt32 (((K.SaveToBuffer Current).length : Int) - ((K.SaveToBuffer Original).length : Int))

/-- The eight `Summary->... -= Difference` statements. -/
def patchSummary (L : FZenPackageSummaryLayout) (buffer : List Byte) (Difference : Int) :
    List Byte :=
  L.patchedFields.foldl (fun b off => subAssignField b off Difference) buffer

/-- Embedding of `FZenPackageReader::SerializeAsByteArray`. `NameMap` is the reader's current
name table and `Original` the caller's vector. The result is the returned buffer together
with the contents of `Original` after the call (the vector is passed by reference and erased
from); `none` stands for a `memcpy` or `erase` that runs past the end of `Original`. -/
def SerializeAsByteArray (L : FZenPackageSummaryLayout) (K : FNameMapCodec)
    (NameMap : FNameMap) (Original : List Byte) : Option (List Byte × List Byte) :=
  let otherNameMap := K.Load Original
  let Difference := GetNameMapByteDifference K otherNameMap NameMap
  if Original.length < L.sizeofSummary then none
  else
    let buffer := Original.take L.sizeofSummary
    let buffer := buffer ++ K.SaveToBuffer NameMap
    let buffer := patchSummary L buffer Difference
    let OtherNameMap := K.SaveToBuffer otherNameMap
    if Original.length < L.sizeofSummary + OtherNameMap.length then none
    else
      let Original' := Original.drop (L.sizeofSummary + OtherNameMap.length)
      some (buffer ++ Original', Original')

/-! ### A concrete layout and codec used to evaluate the re-encoder -/

/-- A sample summary layout (52 bytes, the eight patched fields at 4 and 24..48). -/
def sampleLayout : FZenPackageSummaryLayout :=
  { sizeofSummary := 52, HeaderSize := 4, ImportedPublicExportHashesOffset := 24,
    ImportMapOffset := 28, ExportMapOffset := 32, ExportBundleEntriesOffset := 36,
    DependencyBundleHeadersOffset := 40, DependencyBundleEntriesOffset := 44,
    ImportedPackageNamesOffset := 48 }

/-- Sample encoder of one name: a length byte followed by the characters. -/
def sampleSaveName (s : String) : List Byte :=
  (Fin.ofNat s.length) :: s.data.map (fun c => Fin.ofNat c.toNat)

/-- Sample name table encoder: a count byte followed by the encoded names. -/
def sampleSave (nm : FNameMap) : List Byte :=
  (Fin.ofNat nm.NameEntries.length) :: (nm.NameEntries.map sampleSaveName).flatten

/-- Sample decoder of `n` names. -/
def sampleLoadNames : Nat → List Byte → List String
  | 0, _ => []
  | _ + 1, [] => []
  | n + 1, len :: rest =>
    String.mk ((rest.take len.val).map (fun b => Char.ofNat b.val)) ::
      sampleLoadNames n (rest.drop len.val)

/-- Sample header parser: the name table follows the 52-byte summary. -/
def sampleLoad (bytes : List Byte) : FNameMap :=
  match bytes.drop 52 with
  | [] => ⟨[]⟩
  | count :: rest => ⟨sampleLoadNames count.val rest⟩

/-- The sample codec. -/
def sampleCodec : FNameMapCodec := { Load := sampleLoad, SaveToBuffer := sampleSave }

/-- A sample image: a summary whose `HeaderSize` is 60 and whose other patched fields are 60,
the name table `["Ab"]`, and three payload bytes. -/
def sampleImage : List Byte :=
  [1, 0, 0, 0, 60, 0, 0, 0, 0, 0, 0, 0, 0, 0, 0, 0, 0, 0, 0, 0, 0, 0, 0, 0,
   60, 0, 0, 0, 60, 0, 0, 0, 60, 0, 0, 0, 60, 0, 0, 0, 60, 0, 0, 0, 60, 0, 0, 0, 60, 0, 0, 0] ++
  [1, 2, 65, 98] ++ [7, 8, 9]

/-- A sample image whose offsets address its payload: the 52-byte summary, the name table
`["Ab"]` at 52..55, and the payload at 56; `HeaderSize` and the seven offsets are 56. -/
def sectionImage : List Byte :=
  [1, 0, 0, 0, 56, 0, 0, 0, 0, 0, 0, 0, 0, 0, 0, 0, 0, 0, 0, 0, 0, 0, 0, 0,
   56, 0, 0, 0, 56, 0, 0, 0, 56, 0, 0, 0, 56, 0, 0, 0, 56, 0, 0, 0, 56, 0, 0, 0, 56, 0, 0, 0] ++
  [1, 2, 65, 98] ++ [7, 8, 9]


/-! ## Objects, handles and the process-wide registries -/

/-- Outcomes that are undefined behaviour in the C++ source, made explicit. -/
inductive Fault
  /-- `operator->` applied to an empty handle. -/
  | NullDereference
  /-- `operator[]` of a vector with an index that is not below its size. -/
  | OutOfBounds
  /-- The recursion budget of the model ran out (the C++ recursion does not return). -/
  | OutOfFuel
  deriving DecidableEq, Repr

/-- An object handle (`UObjectPtr`): the address of a shared object, or `none` when empty. -/
abbrev UObjectPtr := Option Nat

/-- Dynamic type of an object. -/
inductive EObjectKind
  | UObject
  | UStruct
  | UClass
  | UPackage
  | ULazyPackageObject
  deriving DecidableEq, Repr

/-- Modelled from the spec: the declaration of `FPackageObjectIndex` is not part of the
source tree. Spec 3: a discriminated reference with the variants Null, Export(local_index),
ScriptImport(global_id) and PackageImport(sub_index). -/
inductive FPackageObjectIndex
  | Null
  | Export (LocalIndex : Nat)
  | ScriptImport (GlobalId : Nat)
  | PackageImport (ImportedPackageIndex : Nat) (ImportedPublicExportHashIndex : Nat)
  deriving DecidableEq, Repr

namespace FPackageObjectIndex

def IsNull : FPackageObjectIndex → Bool
  | Null => true
  | _ => false

def IsExport : FPackageObjectIndex → Bool
  | Export _ => true
  | _ => false

def IsScriptImport : FPackageObjectIndex → Bool
  | ScriptImport _ => true
  | _ => false

def IsPackageImport : FPackageObjectIndex → Bool
  | PackageImport _ _ => true
  | _ => false

def IsImport (i : FPackageObjectIndex) : Bool :=
  i.IsScriptImport || i.IsPackageImport

def ToExport : FPackageObjectIndex → Nat
  | Export i => i
  | _ => 0

def GetImportedPackageIndex : FPackageObjectIndex → Nat
  | PackageImport p _ => p
  | _ => 0

end FPackageObjectIndex

/-- A name table reference: entry index and instance number. -/
structure FMappedName where
  Index : Nat
  Number : Nat := 0
  deriving DecidableEq, Repr

/-- Modelled from the spec: `FNameMap::GetName` is not part of the source tree. Spec 3: an
index that is not below the table length resolves to the empty string, any other index to
the table entry. -/
def FNameMap.GetName (nm : FNameMap) (m : FMappedName) : String :=
  nm.NameEntries.getD m.Index ""

/-- Modelled from the spec: the declaration of `FPackageIndex` is not part of the source
tree. Spec 4.6: the raw index read for an object reference is Null, an Export (with its
position in the export array) or an Import (with its position in the import table). -/
inductive FPackageIndex
  | Null
  | Export (Index : Nat)
  | Import (Index : Nat)
  deriving DecidableEq, Repr

namespace FPackageIndex

def IsNull : FPackageIndex → Bool
  | Null => true
  | _ => false

def IsExport : FPackageIndex → Bool
  | Export _ => true
  | _ => false

def IsImport : FPackageIndex → Bool
  | Import _ => true
  | _ => false

def ToExport : FPackageIndex → Nat
  | Export i => i
  | _ => 0

def ToImport : FPackageIndex → Nat
  | Import i => i
  | _ => 0

end FPackageIndex

/-- A decoded property value (`IPropValue`); its content belongs to the per-kind decoders. -/
structure IPropValue where
  Raw : Nat
  deriving DecidableEq, Repr

/-- Modelled from the spec: the declarations of `UObject`, `UStruct` and
`ULazyPackageObject` are not part of the source tree. The fields are the ones the reader
touches; `PackageId` is the id a `ULazyPackageObject` is constructed with, `Index` the
package index an object reference read attaches, `PropertyValues` the property list. -/
structure UObject where
  kind : EObjectKind := EObjectKind.UObject
  Name : String := ""
  Class : UObjectPtr := none
  Outer : UObjectPtr := none
  Super : UObjectPtr := none
  ObjectFlags : Nat := 0
  PackageId : Nat := 0
  Index : Option FPackageIndex := none
  PropertyValues : List (String × IPropValue) := []
  deriving DecidableEq, Repr

/-- Flag `RF_NeedLoad` (the enum is not part of the source tree; Unreal Engine values). -/
def RF_NeedLoad : Nat := 0x00000400
/-- Flag `RF_NeedPostLoad`. -/
def RF_NeedPostLoad : Nat := 0x00001000
/-- Flag `RF_NeedPostLoadSubobjects`. -/
def RF_NeedPostLoadSubobjects : Nat := 0x00002000
/-- Flag `RF_WasLoaded`. -/
def RF_WasLoaded : Nat := 0x00008000

/-- Method `UObject::SetFlags`: the given flags are added. -/
def UObject.SetFlags (o : UObject) (f : Nat) : UObject :=
  { o with ObjectFlags := o.ObjectFlags ||| f }

/-- Method `UObject::ClearFlags`: the given flags are removed (32-bit flag word). -/
def UObject.ClearFlags (o : UObject) (f : Nat) : UObject :=
  { o with ObjectFlags := o.ObjectFlags &&& (0xFFFFFFFF ^^^ f) }

/-- Whether an object of dynamic type `k` is an instance of `T`
(`UClass` derives from `UStruct`, every type derives from `UObject`). -/
def EObjectKind.isA (k T : EObjectKind) : Bool :=
  match T with
  | EObjectKind.UObject => true
  | EObjectKind.UStruct => k == EObjectKind.UStruct || k == EObjectKind.UClass
  | T => k == T

/-- One entry of the script-object registry. -/
structure FScriptObjectEntry where
  MappedName : FMappedName
  OuterIndex : FPackageObjectIndex
  deriving DecidableEq, Repr

/-- The global table of contents: script objects by global id, and their name table. -/
structure FGlobalToc where
  ScriptObjectByGlobalIdMap : List (FPackageObjectIndex × FScriptObjectEntry)
  NameMap : FNameMap
  deriving DecidableEq, Repr

/-- The shared context: the table of contents and the object-by-name registry. -/
structure GlobalContext where
  GlobalToc : FGlobalToc
  ObjectArray : List (String × UObjectPtr)
  deriving DecidableEq, Repr

/-- Operation `map::insert_or_assign` on an association list. -/
def insert_or_assign {κ υ : Type} [BEq κ] (m : List (κ × υ)) (k : κ) (v : υ) : List (κ × υ) :=
  (k, v) :: m.filter (fun e => !(e.1 == k))

/-- An export slot: the materializing object and its resolved template. -/
structure FExportObject where
  Object : UObjectPtr := none
  TemplateObject : UObjectPtr := none
  deriving DecidableEq, Repr

/-- One parsed export table entry. -/
structure FExportMapEntry where
  ObjectName : FMappedName
  OuterIndex : FPackageObjectIndex
  ClassIndex : FPackageObjectIndex
  SuperIndex : FPackageObjectIndex
  TemplateIndex : FPackageObjectIndex
  ObjectFlags : Nat
  deriving DecidableEq, Repr

/-- Command of an export bundle step. -/
inductive EExportCommandType
  | ExportCommandType_Create
  | ExportCommandType_Serialize
  | ExportCommandType_Count
  deriving DecidableEq, Repr

/-- One export bundle step. -/
structure FExportBundleEntry where
  LocalExportIndex : Nat
  CommandType : EExportCommandType
  deriving DecidableEq, Repr

/-- The parsed package header (the tables the reader uses). -/
structure FZenPackageHeader where
  ExportCount : Nat
  NameMap : FNameMap
  ExportMap : List FExportMapEntry
  ExportBundleEntries : List FExportBundleEntry
  ImportedPackageIds : List Nat
  ImportMap : List FPackageObjectIndex := []
  PackageName : String := ""
  deriving DecidableEq, Repr

/-- The caller-supplied target-object settings. -/
structure FExportState where
  TargetObjectName : String := ""
  TargetObject : UObjectPtr := none
  LoadTargetOnly : Bool := false
  deriving DecidableEq, Repr

/-- Status codes of the reader. -/
inductive EIoErrorCode
  | Ok
  | ReadError
  deriving DecidableEq, Repr

/-- The state a load works on: the shared objects (`heap`, with `next` the number of objects
allocated so far), the shared context as `Context.lock()` yields it (`none` when it has
expired), the export slot array `PackageData.Exports`, the status of `PackageData.Reader`,
and the package's own `Exports` list. -/
structure LoadState where
  heap : Nat → UObject
  next : Nat
  Context : Option GlobalContext
  Exports : List FExportObject
  Status : EIoErrorCode
  PackageExports : List UObjectPtr

/-- Allocation (`std::make_shared`): the state after a new object was placed at the next
free address `s.next`. -/
def LoadState.alloc (s : LoadState) (o : UObject) : LoadState :=
  { s with heap := Function.update s.heap s.next o, next := s.next + 1 }

/-- Store `o` at address `a`. -/
def LoadState.store (s : LoadState) (a : Nat) (o : UObject) : LoadState :=
  { s with heap := Function.update s.heap a o }

/-- Modelled from the spec: `TObjectPtr::As` is not part of the source tree. Spec 4.3 ("if
the object is a composite/struct kind"): the cast yields the same handle when the object is
an instance of `T` and the empty handle otherwise. -/
def As (T : EObjectKind) (s : LoadState) (p : UObjectPtr) : UObjectPtr :=
  match p with
  | none => none
  | some a => if (s.heap a).kind.isA T then some a else none

/-! ## Index resolver -/

/-- Embedding of `UZenPackage::CreateScriptObject<T>`. `fuel` bounds the depth of the
recursion along the outer chain; `T` is the dynamic type of a newly made object. -/
def CreateScriptObject : Nat → EObjectKind → GlobalContext → FPackageObjectIndex → LoadState →
    Except Fault (UObjectPtr × LoadState)
  | 0, _, _, _, _ => .error Fault.OutOfFuel
  | fuel + 1, T, Context, Index, s =>
    match Context.GlobalToc.ScriptObjectByGlobalIdMap.lookup Index with
    | none => .ok (none, s)
    | some ScriptObject =>
      let Name := Context.GlobalToc.NameMap.GetName ScriptObject.MappedName
      match Context.ObjectArray.lookup Name with
      | some Ret =>
        match Ret with
        | none => .error Fault.NullDereference
        | some r =>
          if (s.heap r).Outer.isNone && !ScriptObject.OuterIndex.IsNull then
            match CreateScriptObject fuel EObjectKind.UObject Context ScriptObject.OuterIndex s with
            | .error e => .error e
            | .ok (Outer, s1) =>
              let s2 := s1.store r { s1.heap r with Outer := Outer }
              .ok (As T s2 (some r), s2)
          else .ok (As T s (some r), s)
      | none =>
        let r := s.next
        let s0 := s.alloc { kind := T }
        let s1 := s0.store r { s0.heap r with Name := Name }
        if !ScriptObject.OuterIndex.IsNull then
          match CreateScriptObject fuel EObjectKind.UObject Context ScriptObject.OuterIndex s1 with
          | .error e => .error e
          | .ok (Outer, s2) =>
            let s3 := s2.store r { s2.heap r with Outer := Outer }
            let s4 := s3.store r ((s3.heap r).SetFlags RF_NeedLoad)
            .ok (some r, s4)
        else
          let s4 := s1.store r ((s1.heap r).SetFlags RF_NeedLoad)
          .ok (some r, s4)

/-- Embedding of `UZenPackage::IndexToObject<T>`: Null gives the empty handle, Export reads the
slot array, ScriptImport goes through `CreateScriptObject` and the object-by-name registry,
PackageImport gives a new `ULazyPackageObject`. -/
def IndexToObject (fuel : Nat) (T : EObjectKind) (Header : FZenPackageHeader)
    (Index : FPackageObjectIndex) (s : LoadState) : Except Fault (UObjectPtr × LoadState) :=
  if Index.IsNull then .ok (none, s)
  else if Index.IsExport then
    match s.Exports.get? Index.ToExport with
    | none => .error Fault.OutOfBounds
    | some slot => .ok (slot.Object, s)
  else if Index.IsImport then
    if Index.IsScriptImport then
      match s.Context with
      | none => .ok (none, s)
      | some ContextLock =>
        match CreateScriptObject fuel T ContextLock Index s with
        | .error e => .error e
        | .ok (Ret, s1) =>
          match Ret with
          | none => .error Fault.NullDereference
          | some r =>
            let Name := (s1.heap r).Name
            let s2 :=
              if (ContextLock.ObjectArray.lookup Name).isNone then
                { s1 with Context := some { ContextLock with
                    ObjectArray := insert_or_assign ContextLock.ObjectArray Name
                      (As EObjectKind.UObject s1 (some r)) } }
              else s1
            .ok (As EObjectKind.UObject s2 (some r), s2)
    else if Index.IsPackageImport then
      if Index.GetImportedPackageIndex ≥ Header.ImportedPackageIds.length then .ok (none, s)
      else
        let PackageId := Header.ImportedPackageIds.getD Index.GetImportedPackageIndex 0
        let s1 := s.alloc { kind := EObjectKind.ULazyPackageObject, PackageId := PackageId }
        .ok (some s.next, s1)
    else .ok (none, s)
  else .ok (none, s)

/-- The outer chain of `Index` in the script-object registry ends within `n` steps (at an
entry without outer, or at an id the registry does not know). -/
def outerChainEnds (toc : FGlobalToc) : Nat → FPackageObjectIndex → Bool
  | 0, _ => false
  | n + 1, Index =>
    match toc.ScriptObjectByGlobalIdMap.lookup Index with
    | none => true
    | some e => e.OuterIndex.IsNull || outerChainEnds toc n e.OuterIndex

/-- Every handle in the object-by-name registry is non-empty and refers to an allocated
object. -/
def RegistryOK (reg : List (String × UObjectPtr)) (next : Nat) : Prop :=
  ∀ name p, reg.lookup name = some p → ∃ r, p = some r ∧ r < next

/-- What `CreateScriptObject` leaves alone: the context, the export slots, the status, the
package's export list, and the name and dynamic type of every object allocated before the
call. -/
structure ScriptFrame (s s1 : LoadState) : Prop where
  next_le : s.next ≤ s1.next
  Context_eq : s1.Context = s.Context
  Exports_eq : s1.Exports = s.Exports
  Status_eq : s1.Status = s.Status
  PackageExports_eq : s1.PackageExports = s.PackageExports
  Name_eq : ∀ a, a < s.next → (s1.heap a).Name = (s.heap a).Name
  kind_eq : ∀ a, a < s.next → (s1.heap a).kind = (s.heap a).kind

/-! ## Export graph builder -/

/-- What an object's own field deserialization works on: the shared objects, the context and
the reader status. -/
structure ObjectMemory where
  heap : Nat → UObject
  next : Nat
  Context : Option GlobalContext
  Status : EIoErrorCode

/-- The part of the state visible to an object's field deserialization. -/
def LoadState.memory (s : LoadState) : ObjectMemory :=
  { heap := s.heap, next := s.next, Context := s.Context, Status := s.Status }

/-- The state with that part replaced. -/
def LoadState.withMemory (s : LoadState) (m : ObjectMemory) : LoadState :=
  { s with heap := m.heap, next := m.next, Context := m.Context, Status := m.Status }

/-- Modelled from the spec: `UObject::Serialize` is not part of the source tree. Spec 6: the
per-class field deserialization is an external collaborator, a parameter here; it is given
the address of the object and works on the shared objects, the context and the reader, not
on the export slot array (spec 5: the slot array, once sized, is fixed for the load). -/
abbrev SerializeFn := Nat → ObjectMemory → Except Fault ObjectMemory

/-- Lines 95-97 of `CreateExport`: set `Class` if unset. -/
def CreateExport_Class (fuel : Nat) (Header : FZenPackageHeader) (Export : FExportMapEntry)
    (o : Nat) (s : LoadState) : Except Fault LoadState :=
  if (s.heap o).Class.isNone then
    match IndexToObject fuel EObjectKind.UClass Header Export.ClassIndex s with
    | .error e => .error e
    | .ok (c, s1) => .ok (s1.store o { s1.heap o with Class := As EObjectKind.UClass s1 c })
  else .ok s

/-- Lines 99-101 of `CreateExport`: set `Outer` if unset; a Null outer index means the
package itself (`This()`). -/
def CreateExport_Outer (fuel : Nat) (This : Nat) (Header : FZenPackageHeader)
    (Export : FExportMapEntry) (o : Nat) (s : LoadState) : Except Fault LoadState :=
  if (s.heap o).Outer.isNone then
    if Export.OuterIndex.IsNull then .ok (s.store o { s.heap o with Outer := some This })
    else
      match IndexToObject fuel EObjectKind.UObject Header Export.OuterIndex s with
      | .error e => .error e
      | .ok (v, s1) => .ok (s1.store o { s1.heap o with Outer := v })
  else .ok s

/-- Lines 103-107 of `CreateExport`: for an object of struct kind, set `Super` if unset. -/
def CreateExport_Super (fuel : Nat) (Header : FZenPackageHeader) (Export : FExportMapEntry)
    (o : Nat) (s : LoadState) : Except Fault LoadState :=
  match As EObjectKind.UStruct s (some o) with
  | none => .ok s
  | some Struct =>
    if (s.heap Struct).Super.isNone then
      match IndexToObject fuel EObjectKind.UStruct Header Export.SuperIndex s with
      | .error e => .error e
      | .ok (v, s1) =>
        .ok (s1.store Struct { s1.heap Struct with Super := As EObjectKind.UStruct s1 v })
    else .ok s

/-- Lines 83-109 of `CreateExport`: bind the references to the slot's object and template
handles, resolve the template and wire the object. -/
def CreateExport_Wire (fuel : Nat) (This : Nat) (Header : FZenPackageHeader)
    (Export : FExportMapEntry) (ObjectName : String) (LocalExportIndex : Nat) (s : LoadState) :
    Except Fault LoadState :=
  match s.Exports.get? LocalExportIndex with
  | none => .error Fault.OutOfBounds
  | some _ =>
    match IndexToObject fuel EObjectKind.UObject Header Export.TemplateIndex s with
    | .error e => .error e
    | .ok (TemplateObject, s1) =>
      match s1.Exports.get? LocalExportIndex with
      | none => .error Fault.OutOfBounds
      | some slot =>
        let s2 := { s1 with
          Exports :=
            s1.Exports.set LocalExportIndex { slot with TemplateObject := TemplateObject } }
        if TemplateObject.isNone then .ok { s2 with Status := EIoErrorCode.ReadError }
        else
          match slot.Object with
          | none => .error Fault.NullDereference
          | some o =>
            let s3 := s2.store o { s2.heap o with Name := ObjectName }
            match CreateExport_Class fuel Header Export o s3 with
            | .error e => .error e
            | .ok s4 =>
              match CreateExport_Outer fuel This Header Export o s4 with
              | .error e => .error e
              | .ok s5 =>
                match CreateExport_Super fuel Header Export o s5 with
                | .error e => .error e
                | .ok s6 =>
                  .ok (s6.store o { s6.heap o with
                    ObjectFlags := Export.ObjectFlags ||| RF_NeedLoad ||| RF_NeedPostLoad |||
                      RF_NeedPostLoadSubobjects ||| RF_WasLoaded })

/-- Lines 83-97 of `CreateExport`, the part of the wiring that comes before the test of
`Outer` at line 99: the object held by the slot and the state in which line 99 is reached,
or `none` when the step returns before it (empty template). -/
def CreateExport_Wire_toOuter (fuel : Nat) (Header : FZenPackageHeader)
    (Export : FExportMapEntry) (ObjectName : String) (LocalExportIndex : Nat) (s : LoadState) :
    Except Fault (Option (Nat × LoadState)) :=
  match s.Exports.get? LocalExportIndex with
  | none => .error Fault.OutOfBounds
  | some _ =>
    match IndexToObject fuel EObjectKind.UObject Header Export.TemplateIndex s with
    | .error e => .error e
    | .ok (TemplateObject, s1) =>
      match s1.Exports.get? LocalExportIndex with
      | none => .error Fault.OutOfBounds
      | some slot =>
        let s2 := { s1 with
          Exports :=
            s1.Exports.set LocalExportIndex { slot with TemplateObject := TemplateObject } }
        if TemplateObject.isNone then .ok none
        else
          match slot.Object with
          | none => .error Fault.NullDereference
          | some o =>
            let s3 := s2.store o { s2.heap o with Name := ObjectName }
            match CreateExport_Class fuel Header Export o s3 with
            | .error e => .error e
            | .ok s4 => .ok (some (o, s4))

/-- Embedding of `UZenPackage::CreateExport`. `This` is the address of the package object. -/
def CreateExport (fuel : Nat) (This : Nat) (Header : FZenPackageHeader)
    (ExportState : FExportState) (LocalExportIndex : Nat) (s : LoadState) :
    Except Fault LoadState :=
  match Header.ExportMap.get? LocalExportIndex with
  | none => .error Fault.OutOfBounds
  | some Export =>
    let ObjectName := Header.NameMap.GetName Export.ObjectName
    if ObjectName = ExportState.TargetObjectName then
      match s.Exports.get? LocalExportIndex with
      | none => .error Fault.OutOfBounds
      | some slot =>
        CreateExport_Wire fuel This Header Export ObjectName LocalExportIndex
          { s with Exports :=
              s.Exports.set LocalExportIndex { slot with Object := ExportState.TargetObject } }
    else if ExportState.LoadTargetOnly then .ok s
    else CreateExport_Wire fuel This Header Export ObjectName LocalExportIndex s

/-- Embedding of `UZenPackage::TrySerializeExport`. The reference to `ExportMap[LocalExportIndex]`
is bound first, as in the source. -/
def TrySerializeExport (Serialize : SerializeFn) (Header : FZenPackageHeader)
    (ExportState : FExportState) (LocalExportIndex : Nat) (s : LoadState) :
    Except Fault (Option UObjectPtr × LoadState) :=
  match Header.ExportMap.get? LocalExportIndex with
  | none => .error Fault.OutOfBounds
  | some _ =>
    match s.Exports.get? LocalExportIndex with
    | none => .error Fault.OutOfBounds
    | some ExportObject =>
      if ExportState.LoadTargetOnly && ExportObject.Object != ExportState.TargetObject then
        .ok (none, s)
      else
        match ExportObject.Object with
        | none => .error Fault.NullDereference
        | some o =>
          let s1 := s.store o ((s.heap o).ClearFlags RF_NeedLoad)
          match Serialize o s1.memory with
          | .error e => .error e
          | .ok m => .ok (some (some o), s1.withMemory m)

/-- Operation `vector::resize`: keep the first `n` slots, pad with default (empty) slots. -/
def resizeExports (n : Nat) (Exports : List FExportObject) : List FExportObject :=
  Exports.take n ++ List.replicate (n - Exports.length) ({ } : FExportObject)

/-- Lines 39-43 of `ProcessExports`: every slot without an object gets a new `UObject`. -/
def allocateShells : List FExportObject → LoadState → List FExportObject × LoadState
  | [], s => ([], s)
  | slot :: rest, s =>
    if slot.Object.isNone then
      let r := allocateShells rest (s.alloc {})
      ({ slot with Object := some s.next } :: r.1, r.2)
    else
      let r := allocateShells rest s
      (slot :: r.1, r.2)

/-- Lines 48-65 of `ProcessExports`: the bundle steps, in file order. -/
def ProcessExportBundle (fuel : Nat) (Serialize : SerializeFn) (This : Nat)
    (Header : FZenPackageHeader) (ExportState : FExportState) :
    List FExportBundleEntry → LoadState → Except Fault LoadState
  | [], s => .ok s
  | ExportBundle :: rest, s =>
    match s.Exports.get? ExportBundle.LocalExportIndex with
    | none => .error Fault.OutOfBounds
    | some _ =>
      if ExportBundle.CommandType = EExportCommandType.ExportCommandType_Create then
        match CreateExport fuel This Header ExportState ExportBundle.LocalExportIndex s with
        | .error e => .error e
        | .ok s1 => ProcessExportBundle fuel Serialize This Header ExportState rest s1
      else if ExportBundle.CommandType ≠ EExportCommandType.ExportCommandType_Serialize then
        ProcessExportBundle fuel Serialize This Header ExportState rest s
      else
        match TrySerializeExport Serialize Header ExportState ExportBundle.LocalExportIndex s with
        | .error e => .error e
        | .ok (Export, s1) =>
          match Export with
          | some Object =>
            ProcessExportBundle fuel Serialize This Header ExportState rest
              { s1 with PackageExports := s1.PackageExports ++ [Object] }
          | none => ProcessExportBundle fuel Serialize This Header ExportState rest s1

/-- Embedding of `UZenPackage::ProcessExports`: size the slot array, give every empty slot a new
object, then run the bundle steps. -/
def ProcessExports (fuel : Nat) (Serialize : SerializeFn) (This : Nat)
    (Header : FZenPackageHeader) (ExportState : FExportState) (s : LoadState) :
    Except Fault LoadState :=
  let r := allocateShells (resizeExports Header.ExportCount s.Exports) s
  ProcessExportBundle fuel Serialize This Header ExportState Header.ExportBundleEntries
    { r.2 with Exports := r.1 }

/-- The slot array has exactly `n` slots and every slot holds a non-empty object handle. -/
def SlotsFilled (n : Nat) (Exports : List FExportObject) : Prop :=
  Exports.length = n ∧ ∀ slot ∈ Exports, slot.Object ≠ none

instance (n : Nat) (Exports : List FExportObject) : Decidable (SlotsFilled n Exports) := by
  unfold SlotsFilled; infer_instance

/-- An index whose resolution involves no script-object registry: Null, an Export below `n`,
or a PackageImport. -/
def FPackageObjectIndex.resolvesLocally (n : Nat) : FPackageObjectIndex → Bool
  | FPackageObjectIndex.Null => true
  | FPackageObjectIndex.Export i => decide (i < n)
  | FPackageObjectIndex.ScriptImport _ => false
  | FPackageObjectIndex.PackageImport _ _ => true

/-- All four object indices of an export entry resolve locally. -/
def FExportMapEntry.resolvesLocally (n : Nat) (e : FExportMapEntry) : Bool :=
  e.TemplateIndex.resolvesLocally n && e.ClassIndex.resolvesLocally n &&
    e.OuterIndex.resolvesLocally n && e.SuperIndex.resolvesLocally n

/-- The state in which line 86 of `CreateExport` resolves the template when the export
carries the target name: slot `i` holds the caller-supplied target object (lines 76-78). -/
def substituteTarget (ExportState : FExportState) (i : Nat) (s : LoadState) : LoadState :=
  match s.Exports.get? i with
  | none => s
  | some slot =>
    { s with Exports := s.Exports.set i { slot with Object := ExportState.TargetObject } }

/-! ## Field bridge: object references -/

/-- The statement `Object->Index = std::make_shared<FPackageIndex>(Index)`: it goes through
the handle, so an empty handle is a null dereference. -/
def setObjectIndex (Object : UObjectPtr) (Index : FPackageIndex) (s : LoadState) :
    Except Fault LoadState :=
  match Object with
  | none => .error Fault.NullDereference
  | some o => .ok (s.store o { s.heap o with Index := some Index })

/-- Embedding of `operator<<(FZenPackageReader& Ar, UObjectPtr& Object)`. `Index` is the
package index that `Ar << Index` decoded from the stream, `Object` the destination handle
before the read; the result is the destination handle after the read. `Ar.PackageData` is the
package data of the state and `Ar.Status` its reader status. -/
def operator_shl_UObjectPtr (fuel : Nat) (Header : FZenPackageHeader) (Index : FPackageIndex)
    (Object : UObjectPtr) (s : LoadState) : Except Fault (UObjectPtr × LoadState) :=
  if Index.IsNull then
    match setObjectIndex none Index s with
    | .error e => .error e
    | .ok s1 => .ok (none, s1)
  else if Index.IsExport then
    let ExportIndex := Index.ToExport
    if ExportIndex < s.Exports.length then
      match s.Exports.get? ExportIndex with
      | none => .error Fault.OutOfBounds
      | some slot =>
        match setObjectIndex slot.Object Index s with
        | .error e => .error e
        | .ok s1 => .ok (slot.Object, s1)
    else .ok (Object, { s with Status := EIoErrorCode.ReadError })
  else if Index.IsImport && decide (Index.ToImport < Header.ImportMap.length) then
    match Header.ImportMap.get? Index.ToImport with
    | none => .error Fault.OutOfBounds
    | some Import =>
      match IndexToObject fuel EObjectKind.UObject Header Import s with
      | .error e => .error e
      | .ok (Resolved, s1) =>
        match setObjectIndex Resolved Index s1 with
        | .error e => .error e
        | .ok s2 => .ok (Resolved, s2)
  else .ok (Object, { s with Status := EIoErrorCode.ReadError })

/-! ## Field bridge: names -/

/-- Exceptions of the C++ standard library that the reader does not catch. -/
inductive StdException
  /-- `std::out_of_range`, thrown by `std::stoi` when the value does not fit in `int`. -/
  | out_of_range
  deriving DecidableEq, Repr

/-- Test `std::isdigit` on a character: true for `'0'` to `'9'`. -/
def isdigit (c : Char) : Bool := c.isDigit

/-- Search `std::string::rfind(char)`: the position of the last occurrence of `c`, or `none`
for `npos`. -/
def rfind : List Char → Char → Option Nat
  | [], _ => none
  | x :: xs, c =>
    match rfind xs c with
    | some p => some (p + 1)
    | none => if x = c then some 0 else none

/-- Decimal value of a string of digits. -/
def decimalValue (cs : List Char) : Nat :=
  cs.foldl (fun acc c => 10 * acc + (c.toNat - 48)) 0

/-- Conversion `std::stoi` applied to a non-empty string of decimal digits (the only use in
the source): its decimal value, or `std::out_of_range` when that exceeds the largest `int`. -/
def stoi (cs : List Char) : Except StdException Int :=
  if decimalValue cs ≤ 2147483647 then .ok (decimalValue cs : Int)
  else .error StdException.out_of_range

/-- Embedding of `endsWithNumber(const std::string& str, int& number)`. The result is the
returned boolean together with the value of `number` after the call. -/
def endsWithNumber (str : String) (number : Int) : Except StdException (Bool × Int) :=
  if str.data.isEmpty || !(str.data.getLast?.any isdigit) then .ok (false, number)
  else
    match rfind str.data '_' with
    | none => .ok (false, number)
    | some pos =>
      if pos = str.data.length - 1 then .ok (false, number)
      else
        let numberStr := str.data.drop (pos + 1)
        if numberStr.isEmpty || !(numberStr.all isdigit) then .ok (false, number)
        else
          match stoi numberStr with
          | .error e => .error e
          | .ok v => .ok (true, v)

/-- The suffix rule in the words of the specification: the name contains an underscore and
the part `digits` after its last underscore is a non-empty run of decimal digits. -/
def HasNumberSuffix (str : String) (digits : List Char) : Prop :=
  ∃ pre : List Char, str.data = pre ++ '_' :: digits ∧ digits ≠ [] ∧
    ∀ c ∈ digits, isdigit c = true

/-- Conversion of a wide string to `std::string` through the iterator-pair constructor
(`std::string(nameW.begin(), nameW.end())`, lines 394 and 428): each wide character is
converted to `char`, which keeps its low 8 bits. -/
def narrow (w : String) : String :=
  ⟨w.data.map (fun c => Char.ofNat (c.toNat % 256))⟩

/-- The loop of `operator>>` over the name table: the position of the first entry whose
narrowed string equals `Name`, counted from `index`, or the position past the last entry. -/
def scanNameMap : List String → String → Nat → Nat
  | [], _, index => index
  | nameW :: rest, Name, index =>
    if narrow nameW = Name then index else scanNameMap rest Name (index + 1)

/-- Embedding of `operator>>(FZenPackageReader& Ar, FName& Name)`: the pair `(index, number)`
that the two final writes put on the stream. -/
def operator_shr_FName (NameMap : FNameMap) (Name : String) : Except StdException (Int × Int) :=
  match endsWithNumber Name 0 with
  | .error e => .error e
  | .ok (recognized, number) =>
    let number := if recognized then number - 1 else number
    let index := scanNameMap NameMap.NameEntries Name 0
    .ok ((index : Int), number)

/-- Embedding of `operator<<(FZenPackageReader& Ar, FName& Name)`: the name that the pair
`(NameIndex, Number)` read from the stream resolves to in the package's name table. -/
def operator_shl_FName (NameMap : FNameMap) (NameIndex Number : Nat) : String :=
  narrow (NameMap.GetName { Index := NameIndex, Number := Number })

/-! ## Property decoder -/

/-- A schema-declared property: its name and the kind that selects its decoder. -/
structure FProperty where
  Name : String
  Kind : Nat
  deriving DecidableEq, Repr

/-- Modelled from the spec: the declaration of `FUnversionedHeader` is not part of the source
tree. Spec 3: two parallel bit vectors, one bit per schema-declared property slot in
declaration order, "has value" and "has non-zero value". -/
structure FUnversionedHeader where
  HasValue : List Bool
  NonZero : List Bool
  deriving DecidableEq, Repr

/-- Modelled from the spec: `FUnversionedHeader::HasValues`, the header reports some value. -/
def FUnversionedHeader.HasValues (header : FUnversionedHeader) : Bool :=
  header.HasValue.any id

/-- Modelled from the spec: `FUnversionedHeader::HasNonZeroValues`, the header flags some slot
as non-zero. -/
def FUnversionedHeader.HasNonZeroValues (header : FUnversionedHeader) : Bool :=
  header.NonZero.any id

/-- Modelled from the spec: `FUnversionedIterator` is not part of the source tree. Spec 3 and
4.4: it visits, in declaration order, the schema slots that the header marks as having a
value; each visited slot comes with its property and its non-zero bit (`IsNonZero`). -/
def FUnversionedIterator (header : FUnversionedHeader) (Schema : List FProperty) :
    List (FProperty × Bool) :=
  ((Schema.zip (header.HasValue.zip header.NonZero)).filter (fun x => x.2.1)).map
    (fun x => (x.1, x.2.2))

/-- Modelled from the spec: `FUnversionedHeader::Load` and the per-kind `FProperty::Serialize`
are not part of the source tree (spec 6: external collaborators). Both work on the reader,
whose state is `ρ`: `Load` gives the parse status, the header and the reader after the
header; `Serialize` gives the decoded value (or the empty pointer) and the reader after the
property. -/
structure FPropertyCodec (ρ : Type) where
  Load : ρ → EIoErrorCode × FUnversionedHeader × ρ
  Serialize : FProperty → ρ → Option IPropValue × ρ

/-- Lines 234-246 of `LoadProperties`: the loop over the slots the iterator visits. The result
is the reader after the loop, the objects, and the properties whose decoder was invoked, in
call order. -/
def LoadProperties_loop {ρ : Type} (C : FPropertyCodec ρ) (Object : UObjectPtr) :
    List (FProperty × Bool) → ρ → (Nat → UObject) → List FProperty →
      Except Fault (ρ × (Nat → UObject) × List FProperty)
  | [], Ar, heap, calls => .ok (Ar, heap, calls)
  | (Property, IsNonZero) :: rest, Ar, heap, calls =>
    if !IsNonZero then LoadProperties_loop C Object rest Ar heap calls
    else
      match (C.Serialize Property Ar).1 with
      | none => LoadProperties_loop C Object rest (C.Serialize Property Ar).2 heap (calls ++ [Property])
      | some Value =>
        match Object with
        | none => .error Fault.NullDereference
        | some o =>
          LoadProperties_loop C Object rest (C.Serialize Property Ar).2
            (Function.update heap o
              { heap o with PropertyValues := (heap o).PropertyValues ++ [(Property.Name, Value)] })
            (calls ++ [Property])

/-- Embedding of `FZenPackageReader::LoadProperties(Struct, Object)`. `Schema` is the list of
properties that `Struct` declares, `Ar` the reader. The result is the reader after the call,
the objects, and the properties whose decoder was invoked. -/
def LoadProperties {ρ : Type} (C : FPropertyCodec ρ) (Schema : List FProperty)
    (Object : UObjectPtr) (Ar : ρ) (heap : Nat → UObject) :
    Except Fault (ρ × (Nat → UObject) × List FProperty) :=
  if (C.Load Ar).1 ≠ EIoErrorCode.Ok then .ok ((C.Load Ar).2.2, heap, [])
  else if !(C.Load Ar).2.1.HasNonZeroValues || !(C.Load Ar).2.1.HasValues then
    .ok ((C.Load Ar).2.2, heap, [])
  else
    LoadProperties_loop C Object (FUnversionedIterator (C.Load Ar).2.1 Schema) (C.Load Ar).2.2
      heap []

/-- The slots to decode in the words of the specification: the slots visited by the iterator
whose non-zero bit is set, in schema declaration order. -/
def nonZeroSlots (header : FUnversionedHeader) (Schema : List FProperty) : List FProperty :=
  ((FUnversionedIterator header Schema).filter (fun x => x.2)).map (fun x => x.1)

/-- Decoding a list of properties one after the other: each property with the result of its
decoder, and the reader after the last one. -/
def decodeAll {ρ : Type} (C : FPropertyCodec ρ) :
    List FProperty → ρ → List (FProperty × Option IPropValue) × ρ
  | [], Ar => ([], Ar)
  | Property :: rest, Ar =>
    (((Property, (C.Serialize Property Ar).1)) :: (decodeAll C rest (C.Serialize Property Ar).2).1,
      (decodeAll C rest (C.Serialize Property Ar).2).2)

/-- The entries to store in the words of the specification: the non-empty decoded results,
keyed by property name, in order. -/
def storedEntries (results : List (FProperty × Option IPropValue)) :
    List (String × IPropValue) :=
  results.filterMap (fun r => r.2.map (fun v => (r.1.Name, v)))

/-! ### Concrete states used to evaluate the resolver -/

/-- An empty header. -/
def emptyHeader : FZenPackageHeader :=
  { ExportCount := 0, NameMap := ⟨[]⟩, ExportMap := [], ExportBundleEntries := [],
    ImportedPackageIds := [] }

/-- A context whose registry knows script object 7 (named `"Engine"`, no outer) and script
object 8 (named `"Actor"`, outer 7); no object is registered by name yet. -/
def sampleContext : GlobalContext :=
  { GlobalToc :=
      { ScriptObjectByGlobalIdMap :=
          [(FPackageObjectIndex.ScriptImport 7, ⟨⟨0, 0⟩, FPackageObjectIndex.Null⟩),
           (FPackageObjectIndex.ScriptImport 8, ⟨⟨1, 0⟩, FPackageObjectIndex.ScriptImport 7⟩)],
        NameMap := ⟨["Engine", "Actor"]⟩ },
    ObjectArray := [] }

/-- A state with one allocated object (address 0) held by the single export slot and a live
context. -/
def sampleState : LoadState :=
  { heap := fun _ => {}, next := 1, Context := some sampleContext,
    Exports := [{ Object := some 0 }], Status := EIoErrorCode.Ok, PackageExports := [] }

/-- A header with one export named `"A"` whose template index is Null, created and then
serialized. -/
def oneExportHeader : FZenPackageHeader :=
  { ExportCount := 1, NameMap := ⟨["A"]⟩,
    ExportMap := [{ ObjectName := ⟨0, 0⟩, OuterIndex := FPackageObjectIndex.Null,
                    ClassIndex := FPackageObjectIndex.Null,
                    SuperIndex := FPackageObjectIndex.Null,
                    TemplateIndex := FPackageObjectIndex.Null, ObjectFlags := 0 }],
    ExportBundleEntries :=
      [⟨0, EExportCommandType.ExportCommandType_Create⟩,
       ⟨0, EExportCommandType.ExportCommandType_Serialize⟩],
    ImportedPackageIds := [] }

/-- The same header with the Serialize step before the Create step. -/
def oneExportHeaderSerializeFirst : FZenPackageHeader :=
  { oneExportHeader with
    ExportBundleEntries :=
      [⟨0, EExportCommandType.ExportCommandType_Serialize⟩,
       ⟨0, EExportCommandType.ExportCommandType_Create⟩] }

/-- The same header with a template that resolves (an imported package). -/
def oneExportHeaderWithTemplate : FZenPackageHeader :=
  { oneExportHeader with
    ExportMap := [{ ObjectName := ⟨0, 0⟩, OuterIndex := FPackageObjectIndex.Null,
                    ClassIndex := FPackageObjectIndex.Null,
                    SuperIndex := FPackageObjectIndex.Null,
                    TemplateIndex := FPackageObjectIndex.PackageImport 0 0, ObjectFlags := 1 }],
    ImportedPackageIds := [42] }

/-- Target-object settings that name export `"A"` but supply no object. -/
def targetWithoutObject : FExportState :=
  { TargetObjectName := "A", TargetObject := none, LoadTargetOnly := false }

/-- A field deserialization that does nothing. -/
def noSerialize : SerializeFn := fun _ m => .ok m

/-- A fresh load: the package object is the only allocated object (address 0), no export
slots yet. -/
def freshState : LoadState :=
  { heap := fun _ => {}, next := 1, Context := some sampleContext, Exports := [],
    Status := EIoErrorCode.Ok, PackageExports := [] }

/-- Target-object settings that restrict the load to an object named `"B"`. -/
def targetOnlyB : FExportState :=
  { TargetObjectName := "B", TargetObject := none, LoadTargetOnly := true }

/-- A state in which object 1 is a caller-made object carrying flag `0x2`, and the single
export slot holds a shell at address 2. -/
def stateWithFlaggedTarget : LoadState :=
  { heap := fun a => if a = 1 then { ObjectFlags := 2 } else {}, next := 3,
    Context := some sampleContext, Exports := [{ Object := some 2 }],
    Status := EIoErrorCode.Ok, PackageExports := [] }

/-- Target-object settings that substitute object 1 for the export named `"A"`. -/
def targetIsObject1 : FExportState :=
  { TargetObjectName := "A", TargetObject := some 1, LoadTargetOnly := false }

/-- A field deserialization that always fails; used to show that a call did not happen. -/
def failingSerialize : SerializeFn := fun _ _ => .error Fault.NullDereference

/-- A context whose registry knows script objects 7 (`"Engine"`, no outer), 8 (`"Actor"`,
outer 7) and 9 (`"Pawn"`, outer 7); no object is registered by name yet. -/
def sharedOuterContext : GlobalContext :=
  { GlobalToc :=
      { ScriptObjectByGlobalIdMap :=
          [(FPackageObjectIndex.ScriptImport 7, ⟨⟨0, 0⟩, FPackageObjectIndex.Null⟩),
           (FPackageObjectIndex.ScriptImport 8, ⟨⟨1, 0⟩, FPackageObjectIndex.ScriptImport 7⟩),
           (FPackageObjectIndex.ScriptImport 9, ⟨⟨2, 0⟩, FPackageObjectIndex.ScriptImport 7⟩)],
        NameMap := ⟨["Engine", "Actor", "Pawn"]⟩ },
    ObjectArray := [] }

/-- The sample state with that context. -/
def sharedOuterState : LoadState :=
  { sampleState with Context := some sharedOuterContext }

/-- A header with one export slot and an import map of one entry. -/
def oneImportHeader : FZenPackageHeader :=
  { oneExportHeader with ImportMap := [FPackageObjectIndex.Null] }

/-- The sample state after an empty target object was substituted into its only slot. -/
def emptySlotState : LoadState :=
  substituteTarget targetWithoutObject 0 sampleState

/-- A sample schema of three properties. -/
def sampleSchema : List FProperty :=
  [⟨"Health", 1⟩, ⟨"Unused", 0⟩, ⟨"Speed", 1⟩]

/-- A sample property codec over a reader position: the header takes two bytes and is given
as a parameter; a property of kind 0 decodes to the empty pointer, any other kind to a value
made from the position, and each decoder advances the position by one. -/
def sampleProperties (header : FUnversionedHeader) : FPropertyCodec Nat :=
  { Load := fun pos => (EIoErrorCode.Ok, header, pos + 2),
    Serialize := fun p pos => (if p.Kind = 0 then none else some ⟨pos⟩, pos + 1) }

/-- A header that gives every slot a value, all of them zero. -/
def allZeroHeader : FUnversionedHeader :=
  { HasValue := [true, true, true], NonZero := [false, false, false] }

/-- A header that gives every slot a value; the first two are flagged non-zero, the third is
not. -/
def mixedHeader : FUnversionedHeader :=
  { HasValue := [true, true, true], NonZero := [true, true, false] }

/-! ## Further sample data -/

/-- A sample image whose remainder is itself an image: the summary and name table of
`sampleImage` followed by all of `sampleImage`, so that the re-encoder can be run a second
time on what the first call leaves in the caller's vector. -/
def doubleImage : List Byte :=
  sampleImage.take 56 ++ sampleImage

/-! ## The package's export list in the words of the specification -/

/-- The export at local index `i` carries the target name. -/
def carriesTargetName (Header : FZenPackageHeader) (ExportState : FExportState) (i : Nat) :
    Bool :=
  (Header.ExportMap.get? i).any
    (fun e => decide (Header.NameMap.GetName e.ObjectName = ExportState.TargetObjectName))

/-- The objects of the Serialize steps that the target-only restriction does not skip, in
bundle order. `objs` are the object handles the export slots hold before the first step; a
Create step of the export that carries the target name puts the caller's target object into
its slot, a Serialize step is skipped when the load is restricted to the target and its slot
holds another handle, and steps with any other command are passed over. -/
def serializedObjects (Header : FZenPackageHeader) (ExportState : FExportState) :
    List FExportBundleEntry → List UObjectPtr → List UObjectPtr
  | [], _ => []
  | step :: rest, objs =>
    if step.CommandType = EExportCommandType.ExportCommandType_Create then
      serializedObjects Header ExportState rest
        (if carriesTargetName Header ExportState step.LocalExportIndex
          then objs.set step.LocalExportIndex ExportState.TargetObject else objs)
    else if step.CommandType = EExportCommandType.ExportCommandType_Serialize then
      (match objs.get? step.LocalExportIndex with
        | none => []
        | some Object =>
          if ExportState.LoadTargetOnly && Object != ExportState.TargetObject then []
          else [Object])
        ++ serializedObjects Header ExportState rest objs
    else serializedObjects Header ExportState rest objs

/-- A header with two exports `"A"` and `"B"` (templates in imported package 0) and the
bundle Create(0), Create(1), Serialize(1), Serialize(0). -/
def twoExportHeader : FZenPackageHeader :=
  { ExportCount := 2, NameMap := ⟨["A", "B"]⟩,
    ExportMap :=
      [{ ObjectName := ⟨0, 0⟩, OuterIndex := FPackageObjectIndex.Null,
         ClassIndex := FPackageObjectIndex.Null, SuperIndex := FPackageObjectIndex.Null,
         TemplateIndex := FPackageObjectIndex.PackageImport 0 0, ObjectFlags := 1 },
       { ObjectName := ⟨1, 0⟩, OuterIndex := FPackageObjectIndex.Export 0,
         ClassIndex := FPackageObjectIndex.Null, SuperIndex := FPackageObjectIndex.Null,
         TemplateIndex := FPackageObjectIndex.PackageImport 0 0, ObjectFlags := 0 }],
    ExportBundleEntries :=
      [⟨0, EExportCommandType.ExportCommandType_Create⟩,
       ⟨1, EExportCommandType.ExportCommandType_Create⟩,
       ⟨1, EExportCommandType.ExportCommandType_Serialize⟩,
       ⟨0, EExportCommandType.ExportCommandType_Serialize⟩],
    ImportedPackageIds := [77] }

/-! ## What a Create step leaves alone on the export object -/

/-- The object-by-name registry of the live context does not hold object `a`. -/
def NotRegistered (s : LoadState) (a : Nat) : Prop :=
  ∀ ctx, s.Context = some ctx → ∀ name, ctx.ObjectArray.lookup name ≠ some (some a)

/-- What resolving an index, or storing to other fields, leaves alone on object `a`: a `Class`
that is set, an `Outer` that is set, and an unset `Outer` too when the registry does not hold
the object (the registry attaches an outer to a registered object that has none, lines
141-143). -/
structure FieldFrame (s s1 : LoadState) (a : Nat) : Prop where
  next_le : s.next ≤ s1.next
  Class_eq : (s1.heap a).Class = (s.heap a).Class
  Outer_set : (s.heap a).Outer ≠ none → (s1.heap a).Outer = (s.heap a).Outer
  Outer_free : NotRegistered s a → (s1.heap a).Outer = (s.heap a).Outer
  NotRegistered_mono : NotRegistered s a → NotRegistered s1 a

/-- A context in which object 1 is registered under the name `"Actor"`; script object 8
(`"Actor"`) has the outer 7 (`"Engine"`), which is not registered. -/
def registeredActorContext : GlobalContext :=
  { sampleContext with ObjectArray := [("Actor", some 1)] }

/-- A state in which object 1 is the registered `"Actor"` object, without outer, and the
single export slot holds a shell at address 2; object 0 is the package. -/
def registeredTargetState : LoadState :=
  { heap := fun a => if a = 1 then { Name := "Actor" } else {}, next := 3,
    Context := some registeredActorContext, Exports := [{ Object := some 2 }],
    Status := EIoErrorCode.Ok, PackageExports := [] }

/-- A header with one export named `"A"` whose template is script import 8 and whose outer
index is Null. -/
def oneExportHeaderScriptTemplate : FZenPackageHeader :=
  { oneExportHeader with
    ExportMap := [{ ObjectName := ⟨0, 0⟩, OuterIndex := FPackageObjectIndex.Null,
                    ClassIndex := FPackageObjectIndex.Null,
                    SuperIndex := FPackageObjectIndex.Null,
                    TemplateIndex := FPackageObjectIndex.ScriptImport 8, ObjectFlags := 0 }] }

/-- A state with two allocated shells (addresses 1 and 2) held by two export slots; object 0
is the package. -/
def twoSlotState : LoadState :=
  { heap := fun _ => {}, next := 3, Context := some sampleContext,
    Exports := [{ Object := some 1 }, { Object := some 2 }], Status := EIoErrorCode.Ok,
    PackageExports := [] }

/-! ## The reader and `MakePackage` -/

/-- The members of `FZenPackageReader` that `MakePackage` and the status accessors touch: the
reader's own status, the parsed header, and the package data made by `MakePackage` (`none`
before the first call). The package data holds the slot array, the package's export list and
its own `Reader` member, a copy of the reader, whose status is the `Status` of the
`LoadState`. -/
structure FZenPackageReader where
  Status : EIoErrorCode
  PackageHeader : FZenPackageHeader
  PackageData : Option LoadState := none

/-- Embedding of `FZenPackageReader::GetStatus`. -/
def FZenPackageReader.GetStatus (reader : FZenPackageReader) : EIoErrorCode := reader.Status

/-- Embedding of `FZenPackageReader::IsOk`. -/
def FZenPackageReader.IsOk (reader : FZenPackageReader) : Bool :=
  decide (reader.Status = EIoErrorCode.Ok)

/-- Embedding of `FZenPackageReader::MakePackage`. `heap` and `next` are the objects that
exist before the call. The package object is allocated with the package name
(`UZenPackage::UZenPackage`); the package data gets an empty slot array and, by
`PackageData->Reader = *this`, a copy of the reader, so the status the pass works on starts as
the reader's status and is a member of the copy; the `Seek` of the copy moves its position
only. The result is the returned package handle and the reader after the call. -/
def FZenPackageReader.MakePackage (fuel : Nat) (Serialize : SerializeFn)
    (reader : FZenPackageReader) (Context : Option GlobalContext) (ExportState : FExportState)
    (heap : Nat → UObject) (next : Nat) : Except Fault (UObjectPtr × FZenPackageReader) :=
  let Package := next
  let PackageData : LoadState :=
    { heap := Function.update heap next
        { kind := EObjectKind.UPackage, Name := reader.PackageHeader.PackageName },
      next := next + 1, Context := Context, Exports := [], Status := reader.Status,
      PackageExports := [] }
  match ProcessExports fuel Serialize Package reader.PackageHeader ExportState PackageData with
  | .error e => .error e
  | .ok PackageData1 =>
    .ok (As EObjectKind.UPackage PackageData1 (some Package),
      { reader with PackageData := some PackageData1 })

/-- A reader with status `Ok` over the one-export header whose template index is Null. -/
def sampleReader : FZenPackageReader :=
  { Status := EIoErrorCode.Ok, PackageHeader := oneExportHeader }

/-! ## Registries on which the dedup law fails -/

/-- A context whose script object 7 (`"Engine"`) names itself as its outer; no object is
registered by name. -/
def cyclicContext : GlobalContext :=
  { GlobalToc :=
      { ScriptObjectByGlobalIdMap :=
          [(FPackageObjectIndex.ScriptImport 7, ⟨⟨0, 0⟩, FPackageObjectIndex.ScriptImport 7⟩)],
        NameMap := ⟨["Engine"]⟩ },
    ObjectArray := [] }

/-- The sample state with the cyclic context. -/
def cyclicState : LoadState :=
  { sampleState with Context := some cyclicContext }

/-- The sample state with a context whose object-by-name registry holds the empty handle
under the name `"Actor"`. -/
def emptyHandleState : LoadState :=
  { sampleState with Context := some { sampleContext with ObjectArray := [("Actor", none)] } }

/-! ## CityHash (`src/Unreal/Hash/CityHash.cpp`)

The buffer is a list of bytes and a `const char*` into it is an integer offset from its
start. Every read of the buffer goes through `Fetch32`, `Fetch64` or `charAt`, and each of
them records the load it makes: a hash function returns its value together with the list of
its loads, in the order made (the loads of one expression are listed left to right). A load
outside the buffer is a fault, which ends the call. Arithmetic on `uint32_t` and `uint64_t`
is modulo `2^32` and `2^64`. The two public functions also return the number of iterations
their block loop made, a counter that the source does not have. -/

/-- A load: the offset of its first byte from the start of the buffer, and its width in
bytes. -/
abbrev Load := Int × Nat

/-- A computation that reads the buffer: a fault, or its value together with the loads it
made, in the order made. -/
def Loads (α : Type) : Type := Except Fault (α × List Load)

/-- A value computed without a load. -/
def Loads.pure {α : Type} (a : α) : Loads α := .ok (a, [])

/-- The loads `t`, made earlier, put in front of those of a computation. -/
def Loads.prepend {β : Type} (t : List Load) : Loads β → Loads β
  | .error e => .error e
  | .ok (b, t1) => .ok (b, t ++ t1)

/-- Sequencing: the loads of the first computation, then those of the second. -/
def Loads.bind {α β : Type} : Loads α → (α → Loads β) → Loads β
  | .error e, _ => .error e
  | .ok (a, t), f => Loads.prepend t (f a)

instance : Monad Loads where
  pure := Loads.pure
  bind := Loads.bind

/-- Reduction to `uint32_t`. -/
def u32 (x : Nat) : Nat := x % 4294967296

/-- Reduction to `uint64_t`. -/
def u64 (x : Nat) : Nat := x % 18446744073709551616

/-- Subtraction on `uint32_t` (wraps below zero). -/
def sub32 (a b : Nat) : Nat := (a % 4294967296 + 4294967296 - b % 4294967296) % 4294967296

/-- Load `UNALIGNED_LOAD64` through `Fetch64` (little-endian host): the 8 bytes at offset `p`. -/
def Fetch64 (s : List Byte) (p : Int) : Loads Nat :=
  if 0 ≤ p ∧ p + 8 ≤ (s.length : Int) then .ok (readLE ((s.drop p.toNat).take 8), [(p, 8)])
  else .error Fault.OutOfBounds

/-- Load `UNALIGNED_LOAD32` through `Fetch32` (little-endian host): the 4 bytes at offset `p`. -/
def Fetch32 (s : List Byte) (p : Int) : Loads Nat :=
  if 0 ≤ p ∧ p + 4 ≤ (s.length : Int) then .ok (readLE ((s.drop p.toNat).take 4), [(p, 4)])
  else .error Fault.OutOfBounds

/-- The byte read `s[i]`. -/
def charAt (s : List Byte) (p : Int) : Loads Nat :=
  if 0 ≤ p ∧ p < (s.length : Int) then .ok ((s.getD p.toNat 0).val, [(p, 1)])
  else .error Fault.OutOfBounds

/-- Constant `k0`. -/
def k0 : Nat := 0xc3a5c85c97cb3127
/-- Constant `k1`. -/
def k1 : Nat := 0xb492b66fbe98f273
/-- Constant `k2`. -/
def k2 : Nat := 0x9ae16a3b2f90404f
/-- Constant `c1`. -/
def c1 : Nat := 0xcc9e2d51
/-- Constant `c2`. -/
def c2 : Nat := 0x1b873593

/-- Byte swap `bswap_32` (a platform macro): the four bytes in reverse order. -/
def bswap_32 (x : Nat) : Nat := readLE (writeLE 4 x).reverse

/-- Byte swap `bswap_64` (a platform macro): the eight bytes in reverse order. -/
def bswap_64 (x : Nat) : Nat := readLE (writeLE 8 x).reverse

/-- Embedding of `fmix`. -/
def fmix (h : Nat) : Nat :=
  let h := h ^^^ (h >>> 16)
  let h := u32 (h * 0x85ebca6b)
  let h := h ^^^ (h >>> 13)
  let h := u32 (h * 0xc2b2ae35)
  h ^^^ (h >>> 16)

/-- Embedding of `Rotate32`. -/
def Rotate32 (val : Nat) (shift : Nat) : Nat :=
  if shift = 0 then val else (val >>> shift) ||| u32 (val <<< (32 - shift))

/-- Embedding of `Mur`. -/
def Mur (a h : Nat) : Nat :=
  let a := u32 (a * c1)
  let a := Rotate32 a 17
  let a := u32 (a * c2)
  let h := h ^^^ a
  let h := Rotate32 h 19
  u32 (h * 5 + 0xe6546b64)

/-- Embedding of `Hash32Len13to24`. -/
def Hash32Len13to24 (s : List Byte) (len : Nat) : Loads Nat := do
  let a ← Fetch32 s ((0 : Int) - 4 + ((len >>> 1 : Nat) : Int))
  let b ← Fetch32 s (0 + 4)
  let c ← Fetch32 s (0 + (len : Int) - 8)
  let d ← Fetch32 s ((0 : Int) + ((len >>> 1 : Nat) : Int))
  let e ← Fetch32 s 0
  let f ← Fetch32 s (0 + (len : Int) - 4)
  let h := len
  pure (fmix (Mur f (Mur e (Mur d (Mur c (Mur b (Mur a h)))))))

/-- Conversion of a `char` to `signed char` and then to `uint32_t`. -/
def signedChar32 (v : Nat) : Nat := if v < 128 then v else v + 4294967296 - 256

/-- Embedding of `Hash32Len0to4`; the `for` loop over `i < len` is a fold. -/
def Hash32Len0to4 (s : List Byte) (len : Nat) : Loads Nat := do
  let bc ← (List.range len).foldlM
    (fun (bc : Nat × Nat) (i : Nat) => do
      let v ← charAt s (i : Int)
      let b := u32 (bc.1 * c1 + signedChar32 v)
      pure (b, bc.2 ^^^ b))
    ((0 : Nat), (9 : Nat))
  pure (fmix (Mur bc.1 (Mur len bc.2)))

/-- Embedding of `Hash32Len5to12`. -/
def Hash32Len5to12 (s : List Byte) (len : Nat) : Loads Nat := do
  let a := len
  let b := u32 (len * 5)
  let c := 9
  let d := b
  let a := u32 (a + (← Fetch32 s 0))
  let b := u32 (b + (← Fetch32 s (0 + (len : Int) - 4)))
  let c := u32 (c + (← Fetch32 s ((0 : Int) + (((len >>> 1) &&& 4 : Nat) : Int))))
  pure (fmix (Mur c (Mur b (Mur a d))))

/-- The `do ... while (--iters != 0)` loop of `CityHash32`. `p` is the offset of the moving
pointer `s`, `count` the number of iterations made so far. The result is `h`, `g`, `f` and the
number of iterations. -/
def CityHash32_loop (s : List Byte) :
    Nat → Int → Nat → Nat → Nat → Nat → Nat → Loads (Nat × Nat × Nat × Nat)
  | 0, _, _, _, _, _, _ => (.error Fault.OutOfFuel : Loads (Nat × Nat × Nat × Nat))
  | fuel + 1, p, iters, h, g, f, count => do
    let a0 := u32 (Rotate32 (u32 ((← Fetch32 s p) * c1)) 17 * c2)
    let a1 ← Fetch32 s (p + 4)
    let a2 := u32 (Rotate32 (u32 ((← Fetch32 s (p + 8)) * c1)) 17 * c2)
    let a3 := u32 (Rotate32 (u32 ((← Fetch32 s (p + 12)) * c1)) 17 * c2)
    let a4 ← Fetch32 s (p + 16)
    let h := h ^^^ a0
    let h := Rotate32 h 18
    let h := u32 (h * 5 + 0xe6546b64)
    let f := u32 (f + a1)
    let f := Rotate32 f 19
    let f := u32 (f * c1)
    let g := u32 (g + a2)
    let g := Rotate32 g 18
    let g := u32 (g * 5 + 0xe6546b64)
    let h := h ^^^ u32 (a3 + a1)
    let h := Rotate32 h 19
    let h := u32 (h * 5 + 0xe6546b64)
    let g := g ^^^ a4
    let g := u32 (bswap_32 g * 5)
    let h := u32 (h + u32 (a4 * 5))
    let h := bswap_32 h
    let f := u32 (f + a0)
    -- PERMUTE3(f, h, g): the new f is g, the new h is f, the new g is h
    let iters := sub32 iters 1
    if iters ≠ 0 then CityHash32_loop s fuel (p + 20) iters f h g (count + 1)
    else pure (f, h, g, count + 1)

/-- Embedding of `CityHash32`. The result is the hash and the number of iterations of the
block loop (0 for `len <= 24`). A `uint32_t` counter leaves the loop after at most `2^32`
iterations, which is the fuel. -/
def CityHash32 (s : List Byte) (len : Nat) : Loads (Nat × Nat) :=
  if len ≤ 24 then
    if len ≤ 12 then
      if len ≤ 4 then do
        let h ← Hash32Len0to4 s len
        pure (h, 0)
      else do
        let h ← Hash32Len5to12 s len
        pure (h, 0)
    else do
      let h ← Hash32Len13to24 s len
      pure (h, 0)
  else do
    let h := len
    let g := u32 (c1 * len)
    let f := g
    let a0 := u32 (Rotate32 (u32 ((← Fetch32 s (0 + (len : Int) - 4)) * c1)) 17 * c2)
    let a1 := u32 (Rotate32 (u32 ((← Fetch32 s (0 + (len : Int) - 8)) * c1)) 17 * c2)
    let a2 := u32 (Rotate32 (u32 ((← Fetch32 s (0 + (len : Int) - 16)) * c1)) 17 * c2)
    let a3 := u32 (Rotate32 (u32 ((← Fetch32 s (0 + (len : Int) - 12)) * c1)) 17 * c2)
    let a4 := u32 (Rotate32 (u32 ((← Fetch32 s (0 + (len : Int) - 20)) * c1)) 17 * c2)
    let h := h ^^^ a0
    let h := Rotate32 h 19
    let h := u32 (h * 5 + 0xe6546b64)
    let h := h ^^^ a2
    let h := Rotate32 h 19
    let h := u32 (h * 5 + 0xe6546b64)
    let g := g ^^^ a1
    let g := Rotate32 g 19
    let g := u32 (g * 5 + 0xe6546b64)
    let g := g ^^^ a3
    let g := Rotate32 g 19
    let g := u32 (g * 5 + 0xe6546b64)
    let f := u32 (f + a4)
    let f := Rotate32 f 19
    let f := u32 (f * 5 + 0xe6546b64)
    let iters := sub32 len 1 / 20
    let r ← CityHash32_loop s 4294967296 0 iters h g f 0
    let h := r.1
    let g := r.2.1
    let f := r.2.2.1
    let g := u32 (Rotate32 g 11 * c1)
    let g := u32 (Rotate32 g 17 * c1)
    let f := u32 (Rotate32 f 11 * c1)
    let f := u32 (Rotate32 f 17 * c1)
    let h := Rotate32 (u32 (h + g)) 19
    let h := u32 (h * 5 + 0xe6546b64)
    let h := u32 (Rotate32 h 17 * c1)
    let h := Rotate32 (u32 (h + f)) 19
    let h := u32 (h * 5 + 0xe6546b64)
    let h := u32 (Rotate32 h 17 * c1)
    pure (h, r.2.2.2)

/-- Embedding of `Rotate`. -/
def Rotate (val : Nat) (shift : Nat) : Nat :=
  if shift = 0 then val else (val >>> shift) ||| u64 (val <<< (64 - shift))

/-- Embedding of `ShiftMix`. -/
def ShiftMix (val : Nat) : Nat := val ^^^ (val >>> 47)

/-- Embedding of `HashLen16(u, v, mul)`. -/
def HashLen16_mul (u v mul : Nat) : Nat :=
  let a := u64 ((u ^^^ v) * mul)
  let a := a ^^^ (a >>> 47)
  let b := u64 ((v ^^^ a) * mul)
  let b := b ^^^ (b >>> 47)
  u64 (b * mul)

/-- Embedding of `HashLen0to16`. -/
def HashLen0to16 (s : List Byte) (len : Nat) : Loads Nat :=
  if len ≥ 8 then do
    let mul := u64 (k2 + u32 (len * 2))
    let a := u64 ((← Fetch64 s 0) + k2)
    let b ← Fetch64 s (0 + (len : Int) - 8)
    let c := u64 (u64 (Rotate b 37 * mul) + a)
    let d := u64 (u64 (Rotate a 25 + b) * mul)
    pure (HashLen16_mul c d mul)
  else if len ≥ 4 then do
    let mul := u64 (k2 + u32 (len * 2))
    let a ← Fetch32 s 0
    let b ← Fetch32 s (0 + (len : Int) - 4)
    pure (HashLen16_mul (u64 (len + u64 (a <<< 3))) b mul)
  else if len > 0 then do
    let a ← charAt s 0
    let b ← charAt s ((len >>> 1 : Nat) : Int)
    let c ← charAt s ((len : Int) - 1)
    let y := u32 (a + u32 (b <<< 8))
    let z := u32 (len + u32 (c <<< 2))
    pure (u64 (ShiftMix (u64 (y * k2) ^^^ u64 (z * k0)) * k2))
  else pure k2

/-- Embedding of `HashLen17to32`. -/
def HashLen17to32 (s : List Byte) (len : Nat) : Loads Nat := do
  let mul := u64 (k2 + u32 (len * 2))
  let a := u64 ((← Fetch64 s 0) * k1)
  let b ← Fetch64 s (0 + 8)
  let c := u64 ((← Fetch64 s (0 + (len : Int) - 8)) * mul)
  let d := u64 ((← Fetch64 s (0 + (len : Int) - 16)) * k2)
  pure (HashLen16_mul (u64 (u64 (Rotate (u64 (a + b)) 43 + Rotate c 30) + d))
    (u64 (u64 (a + Rotate (u64 (b + k2)) 18) + c)) mul)

/-- Embedding of `WeakHashLen32WithSeeds(w, x, y, z, a, b)`. `Uint128_64` is declared in
`CityHash.h`, which is not part of the source tree; its two words are the pair `(lo, hi)`, in
the order of the braced initializer. -/
def WeakHashLen32WithSeeds_words (w x y z a b : Nat) : Nat × Nat :=
  let a := u64 (a + w)
  let b := Rotate (u64 (u64 (b + a) + z)) 21
  let c := a
  let a := u64 (a + x)
  let a := u64 (a + y)
  let b := u64 (b + Rotate a 44)
  (u64 (a + z), u64 (b + c))

/-- Embedding of `WeakHashLen32WithSeeds(s, a, b)`: the four 8-byte loads at `p`, `p + 8`,
`p + 16` and `p + 24`. -/
def WeakHashLen32WithSeeds (s : List Byte) (p : Int) (a b : Nat) : Loads (Nat × Nat) := do
  let w ← Fetch64 s p
  let x ← Fetch64 s (p + 8)
  let y ← Fetch64 s (p + 16)
  let z ← Fetch64 s (p + 24)
  pure (WeakHashLen32WithSeeds_words w x y z a b)

/-- Embedding of `HashLen33to64`. -/
def HashLen33to64 (s : List Byte) (len : Nat) : Loads Nat := do
  let mul := u64 (k2 + u32 (len * 2))
  let a := u64 ((← Fetch64 s 0) * k2)
  let b ← Fetch64 s (0 + 8)
  let c ← Fetch64 s (0 + (len : Int) - 24)
  let d ← Fetch64 s (0 + (len : Int) - 32)
  let e := u64 ((← Fetch64 s (0 + 16)) * k2)
  let f := u64 ((← Fetch64 s (0 + 24)) * 9)
  let g ← Fetch64 s (0 + (len : Int) - 8)
  let h := u64 ((← Fetch64 s (0 + (len : Int) - 16)) * mul)
  let u := u64 (Rotate (u64 (a + g)) 43 + u64 (u64 (Rotate b 30 + c) * 9))
  let v := u64 (u64 ((u64 (a + g) ^^^ d) + f) + 1)
  let w := u64 (bswap_64 (u64 (u64 (u + v) * mul)) + h)
  let x := u64 (Rotate (u64 (e + f)) 42 + c)
  let y := u64 (u64 (bswap_64 (u64 (u64 (v + w) * mul)) + g) * mul)
  let z := u64 (u64 (e + f) + c)
  let a := u64 (bswap_64 (u64 (u64 (u64 (x + z) * mul) + y)) + b)
  let b := u64 (ShiftMix (u64 (u64 (u64 (u64 (z + a) * mul) + d) + h)) * mul)
  pure (u64 (b + x))

/-- The state of the block loop of `CityHash64`. -/
structure CityHash64State where
  x : Nat
  y : Nat
  z : Nat
  v : Nat × Nat
  w : Nat × Nat

/-- The `do ... while (len != 0)` loop of `CityHash64`. `p` is the offset of the moving
pointer `s`, `len` the remaining length counter, `count` the number of iterations made so
far. -/
def CityHash64_loop (s : List Byte) :
    Nat → Int → Nat → CityHash64State → Nat → Loads (CityHash64State × Nat)
  | 0, _, _, _, _ => (.error Fault.OutOfFuel : Loads (CityHash64State × Nat))
  | fuel + 1, p, len, st, count => do
    let x := u64 (Rotate (u64 (u64 (u64 (st.x + st.y) + st.v.1) + (← Fetch64 s (p + 8)))) 37 * k1)
    let y := u64 (Rotate (u64 (u64 (st.y + st.v.2) + (← Fetch64 s (p + 48)))) 42 * k1)
    let x := x ^^^ st.w.2
    let y := u64 (y + u64 (st.v.1 + (← Fetch64 s (p + 40))))
    let z := u64 (Rotate (u64 (st.z + st.w.1)) 33 * k1)
    let v ← WeakHashLen32WithSeeds s p (u64 (st.v.2 * k1)) (u64 (x + st.w.1))
    let w ← WeakHashLen32WithSeeds s (p + 32) (u64 (z + st.w.2))
      (u64 (y + (← Fetch64 s (p + 16))))
    -- SwapValues(z, x)
    let len := sub32 len 64
    if len ≠ 0 then CityHash64_loop s fuel (p + 64) len ⟨z, y, x, v, w⟩ (count + 1)
    else pure (⟨z, y, x, v, w⟩, count + 1)

/-- Embedding of `CityHash64`. `CityHash128to64` is declared in `CityHash.h`, which is not
part of the source tree, and is a parameter. The result is the hash and the number of
iterations of the block loop (0 for `len <= 64`). -/
def CityHash64 (CityHash128to64 : Nat → Nat → Nat) (s : List Byte) (len : Nat) :
    Loads (Nat × Nat) :=
  if len ≤ 32 then
    if len ≤ 16 then do
      let h ← HashLen0to16 s len
      pure (h, 0)
    else do
      let h ← HashLen17to32 s len
      pure (h, 0)
  else if len ≤ 64 then do
    let h ← HashLen33to64 s len
    pure (h, 0)
  else do
    let x ← Fetch64 s (0 + (len : Int) - 40)
    let y := u64 ((← Fetch64 s (0 + (len : Int) - 16)) + (← Fetch64 s (0 + (len : Int) - 56)))
    let z := CityHash128to64 (u64 ((← Fetch64 s (0 + (len : Int) - 48)) + len))
      (← Fetch64 s (0 + (len : Int) - 24))
    let v ← WeakHashLen32WithSeeds s (0 + (len : Int) - 64) len z
    let w ← WeakHashLen32WithSeeds s (0 + (len : Int) - 32) (u64 (y + k1)) x
    let x := u64 (u64 (x * k1) + (← Fetch64 s 0))
    let len := sub32 len 1 &&& 4294967232
    let r ← CityHash64_loop s 4294967296 0 len ⟨x, y, z, v, w⟩ 0
    let st := r.1
    pure (CityHash128to64
        (u64 (u64 (CityHash128to64 st.v.1 st.w.1 + u64 (ShiftMix st.y * k1)) + st.z))
        (u64 (CityHash128to64 st.v.2 st.w.2 + st.x)),
      r.2)

/-- A sample instance of `CityHash128to64` for evaluating `CityHash64`: the function of the
published CityHash (`Hash128to64`, multiplier `0x9ddfea08eb382d69`). -/
def sampleCityHash128to64 (lo hi : Nat) : Nat :=
  let kMul := 0x9ddfea08eb382d69
  let a := u64 ((lo ^^^ hi) * kMul)
  let a := a ^^^ (a >>> 47)
  let b := u64 ((hi ^^^ a) * kMul)
  let b := b ^^^ (b >>> 47)
  u64 (b * kMul)

/-- A sample buffer of `n` bytes: byte `i` is `37 * i + 201` modulo 256. -/
def sampleBuffer (n : Nat) : List Byte :=
  (List.range n).map (fun i => Fin.ofNat (37 * i + 201))
/-! # Theorems -/

/-! ## Lemmas on little-endian fields -/

theorem length_writeLE (w v : Nat) : (writeLE w v).length = w := by
  induction w generalizing v with
  | zero => rfl
  | succ w ih => simp [writeLE, ih]

theorem readLE_lt (bs : List Byte) : readLE bs < 256 ^ bs.length := by
  induction bs with
  | nil => simp [readLE]
  | cons b bs ih =>
    have hb := b.isLt
    simp only [readLE, List.length_cons, pow_succ]
    omega

theorem readLE_writeLE (w v : Nat) : readLE (writeLE w v) = v % 256 ^ w := by
  induction w generalizing v with
  | zero => simp [writeLE, readLE, Nat.mod_one]
  | succ w ih =>
    simp only [writeLE, readLE, ih, pow_succ]
    rw [Nat.mul_comm (256 ^ w) 256, Nat.mod_mul]

theorem writeLE_readLE (bs : List Byte) : writeLE bs.length (readLE bs) = bs := by
  induction bs with
  | nil => rfl
  | cons b bs ih =>
    have hb := b.isLt
    simp only [List.length_cons, writeLE, readLE]
    congr 1
    · apply Fin.ext
      simp only
      omega
    · have h : (b.val + 256 * readLE bs) / 256 = readLE bs := by omega
      rw [h, ih]

theorem subWrap32_lt (old : Nat) (d : Int) : subWrap32 old d < 4294967296 := by
  unfold subWrap32
  omega

theorem subWrap32_zero (old : Nat) (h : old < 4294967296) : subWrap32 old 0 = old := by
  unfold subWrap32
  omega

theorem subWrap32_toInt32 (old : Nat) (x : Int) : subWrap32 old (toInt32 x) = subWrap32 old x := by
  unfold subWrap32 toInt32
  omega

theorem length_take_drop4 (buf : List Byte) (off : Nat) (h : off + 4 ≤ buf.length) :
    ((buf.drop off).take 4).length = 4 := by
  simp only [List.length_take, List.length_drop]
  omega

theorem fieldAt_lt (buf : List Byte) (off : Nat) : fieldAt buf off < 4294967296 := by
  unfold fieldAt
  have h := readLE_lt ((buf.drop off).take 4)
  have h2 : ((buf.drop off).take 4).length ≤ 4 := by simp [List.length_take]
  calc readLE ((buf.drop off).take 4) < 256 ^ ((buf.drop off).take 4).length := h
    _ ≤ 256 ^ 4 := Nat.pow_le_pow_right (by decide) h2
    _ = 4294967296 := by norm_num

theorem length_subAssignField (buf : List Byte) (off : Nat) (d : Int)
    (h : off + 4 ≤ buf.length) : (subAssignField buf off d).length = buf.length := by
  simp only [subAssignField, List.length_append, List.length_take, length_writeLE,
    List.length_drop]
  omega

theorem subAssignField_zero (buf : List Byte) (off : Nat) (h : off + 4 ≤ buf.length) :
    subAssignField buf off 0 = buf := by
  unfold subAssignField
  rw [subWrap32_zero _ (fieldAt_lt buf off)]
  have h4 := length_take_drop4 buf off h
  have := writeLE_readLE ((buf.drop off).take 4)
  rw [h4] at this
  unfold fieldAt
  rw [this, List.append_assoc]
  have h5 : buf.drop (off + 4) = (buf.drop off).drop 4 := by
    rw [List.drop_drop]
  rw [h5, List.take_append_drop, List.take_append_drop]

theorem subAssignField_append (a b : List Byte) (off : Nat) (d : Int)
    (h : off + 4 ≤ a.length) :
    subAssignField (a ++ b) off d = subAssignField a off d ++ b := by
  have h1 : (a ++ b).take off = a.take off := by
    rw [List.take_append_of_le_length (by omega)]
  have h2 : (a ++ b).drop (off + 4) = a.drop (off + 4) ++ b := by
    rw [List.drop_append_of_le_length h]
  have h3 : ((a ++ b).drop off).take 4 = (a.drop off).take 4 := by
    rw [List.drop_append_of_le_length (by omega), List.take_append_of_le_length]
    simp only [List.length_drop]
    omega
  simp only [subAssignField, fieldAt, h1, h2, h3, List.append_assoc]

theorem getElem?_subAssignField_outside (buf : List Byte) (off : Nat) (d : Int) (j : Nat)
    (h : off + 4 ≤ buf.length) (hj : j < off ∨ off + 4 ≤ j) :
    (subAssignField buf off d)[j]? = buf[j]? := by
  unfold subAssignField
  rw [List.append_assoc]
  have hto : (buf.take off).length = off := by
    rw [List.length_take]; omega
  rcases hj with hj | hj
  · rw [List.getElem?_append_left (by omega), List.getElem?_take_of_lt hj]
  · rw [List.getElem?_append_right (by omega), hto,
      List.getElem?_append_right (by rw [length_writeLE]; omega), length_writeLE,
      List.getElem?_drop]
    congr 1
    omega

theorem fieldAt_congr (a b : List Byte) (off : Nat)
    (h : ∀ j, off ≤ j → j < off + 4 → a[j]? = b[j]?) : fieldAt a off = fieldAt b off := by
  unfold fieldAt
  congr 1
  apply List.ext_getElem?
  intro i
  by_cases hi : i < 4
  · rw [List.getElem?_take_of_lt hi, List.getElem?_take_of_lt hi, List.getElem?_drop,
      List.getElem?_drop]
    exact h _ (by omega) (by omega)
  · rw [List.getElem?_eq_none (by simp only [List.length_take]; omega),
      List.getElem?_eq_none (by simp only [List.length_take]; omega)]

theorem fieldAt_subAssignField_same (buf : List Byte) (off : Nat) (d : Int)
    (h : off + 4 ≤ buf.length) :
    fieldAt (subAssignField buf off d) off = subWrap32 (fieldAt buf off) d := by
  have hto : (buf.take off).length = off := by
    rw [List.length_take]; omega
  have h1 : fieldAt (subAssignField buf off d) off
      = readLE (writeLE 4 (subWrap32 (fieldAt buf off) d)) := by
    unfold fieldAt subAssignField
    rw [List.append_assoc, List.drop_append_of_le_length (by omega)]
    have : (buf.take off).drop off = [] := by
      apply List.drop_eq_nil_of_le; omega
    rw [this, List.nil_append, List.take_append_of_le_length (by rw [length_writeLE])]
    rw [List.take_of_length_le (by rw [length_writeLE])]
    rfl
  rw [h1, readLE_writeLE]
  have := subWrap32_lt (fieldAt buf off) d
  apply Nat.mod_eq_of_lt
  norm_num
  exact this

theorem fieldAt_subAssignField_other (buf : List Byte) (off o : Nat) (d : Int)
    (h : off + 4 ≤ buf.length) (hd : fieldsDisjoint off o) :
    fieldAt (subAssignField buf off d) o = fieldAt buf o := by
  apply fieldAt_congr
  intro j h1 h2
  apply getElem?_subAssignField_outside _ _ _ _ h
  unfold fieldsDisjoint at hd
  omega

/-! ### The sequence of patches -/

theorem length_foldl_patch (offs : List Nat) (buf : List Byte) (d : Int)
    (hfit : ∀ o ∈ offs, o + 4 ≤ buf.length) :
    (offs.foldl (fun b off => subAssignField b off d) buf).length = buf.length := by
  induction offs generalizing buf with
  | nil => rfl
  | cons o offs ih =>
    have ho := hfit o (List.mem_cons_self _ _)
    have hl := length_subAssignField buf o d ho
    simp only [List.foldl_cons]
    rw [ih, hl]
    intro o2 ho2
    rw [hl]
    exact hfit o2 (List.mem_cons_of_mem _ ho2)

theorem getElem?_foldl_patch_outside (offs : List Nat) (buf : List Byte) (d : Int) (j : Nat)
    (hfit : ∀ o ∈ offs, o + 4 ≤ buf.length) (hj : ∀ o ∈ offs, j < o ∨ o + 4 ≤ j) :
    (offs.foldl (fun b off => subAssignField b off d) buf)[j]? = buf[j]? := by
  induction offs generalizing buf with
  | nil => rfl
  | cons o offs ih =>
    have ho := hfit o (List.mem_cons_self _ _)
    have hl := length_subAssignField buf o d ho
    simp only [List.foldl_cons]
    rw [ih, getElem?_subAssignField_outside buf o d j ho (hj o (List.mem_cons_self _ _))]
    · intro o2 ho2
      rw [hl]
      exact hfit o2 (List.mem_cons_of_mem _ ho2)
    · intro o2 ho2
      exact hj o2 (List.mem_cons_of_mem _ ho2)

theorem fieldAt_foldl_patch_not_mem (offs : List Nat) (buf : List Byte) (d : Int) (o : Nat)
    (hfit : ∀ o2 ∈ offs, o2 + 4 ≤ buf.length) (hdis : ∀ o2 ∈ offs, fieldsDisjoint o2 o) :
    fieldAt (offs.foldl (fun b off => subAssignField b off d) buf) o = fieldAt buf o := by
  apply fieldAt_congr
  intro j h1 h2
  apply getElem?_foldl_patch_outside _ _ _ _ hfit
  intro o2 ho2
  have := hdis o2 ho2
  unfold fieldsDisjoint at this
  omega

theorem fieldAt_foldl_patch_mem (offs : List Nat) (buf : List Byte) (d : Int) (o : Nat)
    (hfit : ∀ o2 ∈ offs, o2 + 4 ≤ buf.length) (hpw : offs.Pairwise fieldsDisjoint)
    (ho : o ∈ offs) :
    fieldAt (offs.foldl (fun b off => subAssignField b off d) buf) o
      = subWrap32 (fieldAt buf o) d := by
  induction offs generalizing buf with
  | nil => cases ho
  | cons o1 offs ih =>
    have ho1 := hfit o1 (List.mem_cons_self _ _)
    have hl := length_subAssignField buf o1 d ho1
    have hfit2 : ∀ o2 ∈ offs, o2 + 4 ≤ (subAssignField buf o1 d).length := by
      intro o2 ho2
      rw [hl]
      exact hfit o2 (List.mem_cons_of_mem _ ho2)
    rw [List.pairwise_cons] at hpw
    simp only [List.foldl_cons]
    by_cases hmem : o ∈ offs
    · rw [ih _ hfit2 hpw.2 hmem, fieldAt_subAssignField_other buf o1 o d ho1 (hpw.1 o hmem)]
    · have heq : o = o1 := by
        rcases List.mem_cons.mp ho with h | h
        · exact h
        · exact absurd h hmem
      subst heq
      rw [fieldAt_foldl_patch_not_mem offs _ d o hfit2, fieldAt_subAssignField_same buf o d ho1]
      intro o2 ho2
      have := hpw.1 o2 ho2
      unfold fieldsDisjoint at this ⊢
      omega

theorem foldl_patch_append (offs : List Nat) (a b : List Byte) (d : Int)
    (hfit : ∀ o ∈ offs, o + 4 ≤ a.length) :
    offs.foldl (fun x off => subAssignField x off d) (a ++ b)
      = offs.foldl (fun x off => subAssignField x off d) a ++ b := by
  induction offs generalizing a with
  | nil => rfl
  | cons o offs ih =>
    have ho := hfit o (List.mem_cons_self _ _)
    simp only [List.foldl_cons]
    rw [subAssignField_append a b o d ho, ih]
    intro o2 ho2
    rw [length_subAssignField a o d ho]
    exact hfit o2 (List.mem_cons_of_mem _ ho2)

theorem foldl_patch_zero (offs : List Nat) (buf : List Byte)
    (hfit : ∀ o ∈ offs, o + 4 ≤ buf.length) :
    offs.foldl (fun b off => subAssignField b off 0) buf = buf := by
  induction offs generalizing buf with
  | nil => rfl
  | cons o offs ih =>
    have ho := hfit o (List.mem_cons_self _ _)
    simp only [List.foldl_cons]
    rw [subAssignField_zero buf o ho]
    exact ih buf (fun o2 ho2 => hfit o2 (List.mem_cons_of_mem _ ho2))

/-! ## The re-encoder (`SerializeAsByteArray`) -/

theorem GetNameMapByteDifference_self (K : FNameMapCodec) (nm : FNameMap) :
    GetNameMapByteDifference K nm nm = 0 := by
  unfold GetNameMapByteDifference toInt32
  omega

theorem length_patchSummary (L : FZenPackageSummaryLayout) (buf : List Byte) (d : Int)
    (hL : L.WellFormed) (hlen : L.sizeofSummary ≤ buf.length) :
    (patchSummary L buf d).length = buf.length := by
  unfold patchSummary
  apply length_foldl_patch
  intro o ho
  have := hL.1 o ho
  omega

theorem SerializeAsByteArray_eq (L : FZenPackageSummaryLayout) (K : FNameMapCodec)
    (NameMap : FNameMap) (Original : List Byte) (hL : L.WellFormed)
    (hlen : L.sizeofSummary + (K.SaveToBuffer (K.Load Original)).length ≤ Original.length) :
    SerializeAsByteArray L K NameMap Original
      = some (patchSummary L (Original.take L.sizeofSummary)
                (GetNameMapByteDifference K (K.Load Original) NameMap)
              ++ K.SaveToBuffer NameMap
              ++ Original.drop (L.sizeofSummary + (K.SaveToBuffer (K.Load Original)).length),
              Original.drop (L.sizeofSummary + (K.SaveToBuffer (K.Load Original)).length)) := by
  have h1 : ¬ Original.length < L.sizeofSummary := by omega
  have h2 : ¬ Original.length < L.sizeofSummary + (K.SaveToBuffer (K.Load Original)).length := by
    omega
  have htake : (Original.take L.sizeofSummary).length = L.sizeofSummary := by
    rw [List.length_take]; omega
  unfold SerializeAsByteArray
  simp only [h1, h2, if_false]
  unfold patchSummary
  rw [foldl_patch_append]
  intro o ho
  have := hL.1 o ho
  omega

/-- C1: when the name-table bytes of the original image are the encoding of its own parsed
name table and the current name table is that parsed table, the byte difference is 0 and
`SerializeAsByteArray` returns exactly the original bytes. -/
theorem SerializeAsByteArray_unmodified (L : FZenPackageSummaryLayout) (K : FNameMapCodec)
    (Original : List Byte) (hL : L.WellFormed) (hlen : L.sizeofSummary ≤ Original.length)
    (hnm : (Original.drop L.sizeofSummary).take (K.SaveToBuffer (K.Load Original)).length
        = K.SaveToBuffer (K.Load Original)) :
    GetNameMapByteDifference K (K.Load Original) (K.Load Original) = 0 ∧
    (SerializeAsByteArray L K (K.Load Original) Original).map Prod.fst = some Original := by
  refine ⟨GetNameMapByteDifference_self K _, ?_⟩
  have hl : L.sizeofSummary + (K.SaveToBuffer (K.Load Original)).length ≤ Original.length := by
    have := congrArg List.length hnm
    simp only [List.length_take, List.length_drop] at this
    omega
  have htake : (Original.take L.sizeofSummary).length = L.sizeofSummary := by
    rw [List.length_take]; omega
  rw [SerializeAsByteArray_eq L K _ Original hL hl, GetNameMapByteDifference_self]
  simp only [Option.map_some']
  congr 1
  unfold patchSummary
  rw [foldl_patch_zero]
  · have hsplit : Original.take L.sizeofSummary
        ++ ((Original.drop L.sizeofSummary).take (K.SaveToBuffer (K.Load Original)).length
          ++ (Original.drop L.sizeofSummary).drop (K.SaveToBuffer (K.Load Original)).length)
        = Original := by
      rw [List.take_append_drop, List.take_append_drop]
    rw [hnm, List.drop_drop] at hsplit
    rw [List.append_assoc]
    exact hsplit
  · intro o ho
    have := hL.1 o ho
    omega

/-- Witness for C1 on the sample image. -/
theorem SerializeAsByteArray_unmodified_witness :
    (SerializeAsByteArray sampleLayout sampleCodec (sampleCodec.Load sampleImage)
      sampleImage).map Prod.fst = some sampleImage :=
  (SerializeAsByteArray_unmodified sampleLayout sampleCodec sampleImage (by decide) (by decide)
    (by decide)).2

/-- C3: the output is the patched fixed-size summary, followed by the encoding of the current
name table, followed by the original bytes that come after the original name table; its
length is the original length plus the encoded length of the current table minus the encoded
length of the original table. -/
theorem SerializeAsByteArray_concat (L : FZenPackageSummaryLayout) (K : FNameMapCodec)
    (NameMap : FNameMap) (Original : List Byte) (hL : L.WellFormed)
    (hlen : L.sizeofSummary + (K.SaveToBuffer (K.Load Original)).length ≤ Original.length) :
    ∃ summary : List Byte,
      summary = patchSummary L (Original.take L.sizeofSummary)
        (GetNameMapByteDifference K (K.Load Original) NameMap) ∧
      summary.length = L.sizeofSummary ∧
      ∃ out : List Byte,
        (SerializeAsByteArray L K NameMap Original).map Prod.fst = some out ∧
        out = summary ++ K.SaveToBuffer NameMap
          ++ Original.drop (L.sizeofSummary + (K.SaveToBuffer (K.Load Original)).length) ∧
        (out.length : Int) = (Original.length : Int) + ((K.SaveToBuffer NameMap).length : Int)
          - ((K.SaveToBuffer (K.Load Original)).length : Int) := by
  have htake : (Original.take L.sizeofSummary).length = L.sizeofSummary := by
    rw [List.length_take]; omega
  have hs := length_patchSummary L (Original.take L.sizeofSummary)
    (GetNameMapByteDifference K (K.Load Original) NameMap) hL (by omega)
  refine ⟨_, rfl, by rw [hs, htake], _, ?_, rfl, ?_⟩
  · rw [SerializeAsByteArray_eq L K NameMap Original hL hlen]
    rfl
  · simp only [List.length_append, hs, htake, List.length_drop]
    omega

/-- Witness for C3 on the sample image with the name `"Cde"` added. -/
theorem SerializeAsByteArray_concat_witness :
    ∃ summary : List Byte,
      summary = patchSummary sampleLayout (sampleImage.take 52)
        (GetNameMapByteDifference sampleCodec (sampleCodec.Load sampleImage) ⟨["Ab", "Cde"]⟩) ∧
      summary.length = 52 ∧
      ∃ out : List Byte,
        (SerializeAsByteArray sampleLayout sampleCodec ⟨["Ab", "Cde"]⟩ sampleImage).map Prod.fst
          = some out ∧
        out = summary ++ sampleCodec.SaveToBuffer ⟨["Ab", "Cde"]⟩
          ++ sampleImage.drop (52 + (sampleCodec.SaveToBuffer (sampleCodec.Load sampleImage)).length) ∧
        (out.length : Int) = (sampleImage.length : Int)
          + ((sampleCodec.SaveToBuffer ⟨["Ab", "Cde"]⟩).length : Int)
          - ((sampleCodec.SaveToBuffer (sampleCodec.Load sampleImage)).length : Int) :=
  SerializeAsByteArray_concat sampleLayout sampleCodec ⟨["Ab", "Cde"]⟩ sampleImage
    (by decide) (by decide)

theorem fieldAt_append_left (a b : List Byte) (o : Nat) (h : o + 4 ≤ a.length) :
    fieldAt (a ++ b) o = fieldAt a o := by
  apply fieldAt_congr
  intro j _ h2
  rw [List.getElem?_append_left (by omega)]

theorem fieldAt_take (buf : List Byte) (n o : Nat) (h : o + 4 ≤ n) :
    fieldAt (buf.take n) o = fieldAt buf o := by
  apply fieldAt_congr
  intro j _ h2
  rw [List.getElem?_take_of_lt (by omega)]

/-- The eight patches of lines 312-319: for every current name table, each of the eight patched
summary fields of the output equals its original value minus the byte difference
`GetNameMapByteDifference(original, current)`, the same amount for all eight; with the byte
difference worded as in specification 4.5 that is minus
`encoded_length(current) - encoded_length(original)`, modulo `2^32`. Every summary byte
outside those fields is copied verbatim. -/
theorem SerializeAsByteArray_fields_shift (L : FZenPackageSummaryLayout) (K : FNameMapCodec)
    (NameMap : FNameMap) (Original : List Byte) (hL : L.WellFormed)
    (hlen : L.sizeofSummary + (K.SaveToBuffer (K.Load Original)).length ≤ Original.length) :
    ∃ out : List Byte,
      (SerializeAsByteArray L K NameMap Original).map Prod.fst = some out ∧
      (∀ o ∈ L.patchedFields,
        fieldAt out o
          = subWrap32 (fieldAt Original o)
              (GetNameMapByteDifference K (K.Load Original) NameMap) ∧
        (fieldAt out o : Int)
          = ((fieldAt Original o : Int) - (((K.SaveToBuffer NameMap).length : Int)
              - ((K.SaveToBuffer (K.Load Original)).length : Int))) % 4294967296) ∧
      (∀ j, j < L.sizeofSummary → (∀ o ∈ L.patchedFields, j < o ∨ o + 4 ≤ j) →
        out[j]? = Original[j]?) := by
  have htake : (Original.take L.sizeofSummary).length = L.sizeofSummary := by
    rw [List.length_take]; omega
  have hfit : ∀ o ∈ L.patchedFields, o + 4 ≤ (Original.take L.sizeofSummary).length := by
    intro o ho
    have := hL.1 o ho
    omega
  have hs := length_patchSummary L (Original.take L.sizeofSummary)
    (GetNameMapByteDifference K (K.Load Original) NameMap) hL (by omega)
  refine ⟨_, by rw [SerializeAsByteArray_eq L K NameMap Original hL hlen]; rfl, ?_, ?_⟩
  · intro o ho
    have ho4 := hL.1 o ho
    rw [List.append_assoc, fieldAt_append_left _ _ _ (by rw [hs, htake]; exact ho4)]
    unfold patchSummary
    rw [fieldAt_foldl_patch_mem _ _ _ o hfit hL.2 ho, fieldAt_take _ _ _ ho4]
    refine ⟨rfl, ?_⟩
    unfold GetNameMapByteDifference
    rw [subWrap32_toInt32]
    unfold subWrap32
    omega
  · intro j hj hout
    rw [List.append_assoc, List.getElem?_append_left (by rw [hs, htake]; exact hj)]
    unfold patchSummary
    rw [getElem?_foldl_patch_outside _ _ _ j hfit hout, List.getElem?_take_of_lt hj]

/-- The eight patches on the sample image with the name `"Cde"` added. -/
theorem SerializeAsByteArray_fields_shift_witness :
    ∃ out : List Byte,
      (SerializeAsByteArray sampleLayout sampleCodec ⟨["Ab", "Cde"]⟩ sampleImage).map Prod.fst
        = some out ∧
      (∀ o ∈ sampleLayout.patchedFields,
        fieldAt out o
          = subWrap32 (fieldAt sampleImage o)
              (GetNameMapByteDifference sampleCodec (sampleCodec.Load sampleImage)
                ⟨["Ab", "Cde"]⟩) ∧
        (fieldAt out o : Int)
          = ((fieldAt sampleImage o : Int)
              - (((sampleCodec.SaveToBuffer ⟨["Ab", "Cde"]⟩).length : Int)
              - ((sampleCodec.SaveToBuffer (sampleCodec.Load sampleImage)).length : Int)))
            % 4294967296) ∧
      (∀ j, j < sampleLayout.sizeofSummary →
        (∀ o ∈ sampleLayout.patchedFields, j < o ∨ o + 4 ≤ j) → out[j]? = sampleImage[j]?) :=
  SerializeAsByteArray_fields_shift sampleLayout sampleCodec ⟨["Ab", "Cde"]⟩ sampleImage
    (by decide) (by decide)
/-! ## The index resolver (`IndexToObject`) -/

theorem IndexToObject_Null_eq (fuel : Nat) (T : EObjectKind) (Header : FZenPackageHeader)
    (s : LoadState) :
    IndexToObject fuel T Header FPackageObjectIndex.Null s = .ok (none, s) := by
  rfl

/-- C4: resolving a Null index returns the Empty handle and leaves the whole state (objects,
registries, export slots, status) as it was, for every header, slot array and registry. -/
theorem IndexToObject_Null_returns_empty (fuel : Nat) (T : EObjectKind)
    (Header : FZenPackageHeader) (s : LoadState) :
    IndexToObject fuel T Header FPackageObjectIndex.Null s = .ok (none, s) := by
  rfl

theorem IndexToObject_Export_eq (fuel : Nat) (T : EObjectKind) (Header : FZenPackageHeader)
    (i : Nat) (s : LoadState) :
    IndexToObject fuel T Header (FPackageObjectIndex.Export i) s
      = match s.Exports.get? i with
        | none => .error Fault.OutOfBounds
        | some slot => .ok (slot.Object, s) := by
  rfl

/-- C5: for `Export(i)` with `i` below the number of slots, `IndexToObject` returns the handle
stored in slot `i` and leaves the state, in particular the slot array, as it was; a second
call in the resulting state returns the same handle. -/
theorem IndexToObject_Export_stable (fuel : Nat) (T : EObjectKind)
    (Header : FZenPackageHeader) (i : Nat) (s : LoadState) (h : i < s.Exports.length) :
    ∃ s1 : LoadState,
      IndexToObject fuel T Header (FPackageObjectIndex.Export i) s = .ok (s.Exports[i].Object, s1) ∧
      s1.Exports = s.Exports ∧ s1 = s ∧
      IndexToObject fuel T Header (FPackageObjectIndex.Export i) s1
        = .ok (s.Exports[i].Object, s1) := by
  have hget : s.Exports.get? i = some s.Exports[i] := by
    rw [List.get?_eq_getElem?]
    exact List.getElem?_eq_getElem h
  have h1 : IndexToObject fuel T Header (FPackageObjectIndex.Export i) s
      = .ok (s.Exports[i].Object, s) := by
    rw [IndexToObject_Export_eq, hget]
  exact ⟨s, h1, rfl, rfl, h1⟩

/-- Witness for C5: slot 0 of the sample state. -/
theorem IndexToObject_Export_stable_witness :
    ∃ s1 : LoadState,
      IndexToObject 1 EObjectKind.UObject emptyHeader (FPackageObjectIndex.Export 0) sampleState
        = .ok (some 0, s1) ∧
      s1.Exports = sampleState.Exports ∧ s1 = sampleState ∧
      IndexToObject 1 EObjectKind.UObject emptyHeader (FPackageObjectIndex.Export 0) s1
        = .ok (some 0, s1) :=
  IndexToObject_Export_stable 1 EObjectKind.UObject emptyHeader 0 sampleState (by decide)

theorem IndexToObject_Export_out_of_range (fuel : Nat) (T : EObjectKind)
    (Header : FZenPackageHeader) (i : Nat) (s : LoadState) (h : s.Exports.length ≤ i) :
    IndexToObject fuel T Header (FPackageObjectIndex.Export i) s = .error Fault.OutOfBounds := by
  have hget : s.Exports.get? i = none := by
    rw [List.get?_eq_getElem?]
    exact List.getElem?_eq_none h
  rw [IndexToObject_Export_eq, hget]

/-- C6 (code evaluated at the failing input): with one export slot, resolving `Export(1)`
indexes the slot array past its end; the result is not the Empty handle. -/
theorem IndexToObject_Export_past_end :
    sampleState.Exports.length = 1 ∧
    IndexToObject 1 EObjectKind.UObject emptyHeader (FPackageObjectIndex.Export 1) sampleState
      = .error Fault.OutOfBounds ∧
    IndexToObject 1 EObjectKind.UObject emptyHeader (FPackageObjectIndex.Export 1) sampleState
      ≠ .ok (none, sampleState) := by
  refine ⟨rfl, rfl, ?_⟩
  intro h
  cases h

theorem IndexToObject_PackageImport_eq (fuel : Nat) (T : EObjectKind)
    (Header : FZenPackageHeader) (sub hashIndex : Nat) (s : LoadState) :
    IndexToObject fuel T Header (FPackageObjectIndex.PackageImport sub hashIndex) s
      = if Header.ImportedPackageIds.length ≤ sub then .ok (none, s)
        else .ok (some s.next, s.alloc
          { kind := EObjectKind.ULazyPackageObject,
            PackageId := Header.ImportedPackageIds.getD sub 0 }) := by
  simp only [IndexToObject, FPackageObjectIndex.IsNull, FPackageObjectIndex.IsExport,
    FPackageObjectIndex.IsImport, FPackageObjectIndex.IsScriptImport,
    FPackageObjectIndex.IsPackageImport, FPackageObjectIndex.GetImportedPackageIndex,
    ge_iff_le, if_false, Bool.false_or, if_true, Bool.false_eq_true]

/-- C7: for `PackageImport(sub)`, when `sub` is not below the length of `ImportedPackageIds`
the result is Empty and the state is unchanged; otherwise the result is a newly allocated
`ULazyPackageObject` carrying `ImportedPackageIds[sub]`, and the export slots, the context
(hence the object registry), the status and all existing objects are unchanged. -/
theorem IndexToObject_PackageImport_deferred (fuel : Nat) (T : EObjectKind)
    (Header : FZenPackageHeader) (sub hashIndex : Nat) (s : LoadState) :
    (Header.ImportedPackageIds.length ≤ sub →
      IndexToObject fuel T Header (FPackageObjectIndex.PackageImport sub hashIndex) s
        = .ok (none, s)) ∧
    (∀ h : sub < Header.ImportedPackageIds.length,
      ∃ s1 : LoadState,
        IndexToObject fuel T Header (FPackageObjectIndex.PackageImport sub hashIndex) s
          = .ok (some s.next, s1) ∧
        (s1.heap s.next).kind = EObjectKind.ULazyPackageObject ∧
        (s1.heap s.next).PackageId = Header.ImportedPackageIds[sub] ∧
        s1.next = s.next + 1 ∧
        (∀ a, a ≠ s.next → s1.heap a = s.heap a) ∧
        s1.Exports = s.Exports ∧ s1.Context = s.Context ∧ s1.Status = s.Status ∧
        s1.PackageExports = s.PackageExports) := by
  constructor
  · intro h
    rw [IndexToObject_PackageImport_eq, if_pos h]
  · intro h
    have hn : ¬ Header.ImportedPackageIds.length ≤ sub := by omega
    refine ⟨s.alloc
      { kind := EObjectKind.ULazyPackageObject,
        PackageId := Header.ImportedPackageIds.getD sub 0 }, ?_, ?_, ?_, ?_, ?_, ?_, ?_, ?_, ?_⟩
    · rw [IndexToObject_PackageImport_eq, if_neg hn]
    · simp [LoadState.alloc]
    · simp [LoadState.alloc, List.getD_eq_getElem?_getD, List.getElem?_eq_getElem h]
    · rfl
    · intro a ha
      simp [LoadState.alloc, Function.update_noteq ha]
    · rfl
    · rfl
    · rfl
    · rfl

theorem IndexToObject_ScriptImport_eq (fuel : Nat) (T : EObjectKind) (Header : FZenPackageHeader)
    (id : Nat) (s : LoadState) :
    IndexToObject fuel T Header (FPackageObjectIndex.ScriptImport id) s
      = match s.Context with
        | none => .ok (none, s)
        | some ContextLock =>
          match CreateScriptObject fuel T ContextLock (FPackageObjectIndex.ScriptImport id) s with
          | .error e => .error e
          | .ok (Ret, s1) =>
            match Ret with
            | none => .error Fault.NullDereference
            | some r =>
              let Name := (s1.heap r).Name
              let s2 :=
                if (ContextLock.ObjectArray.lookup Name).isNone then
                  { s1 with Context := some { ContextLock with
                      ObjectArray := insert_or_assign ContextLock.ObjectArray Name
                        (As EObjectKind.UObject s1 (some r)) } }
                else s1
              .ok (As EObjectKind.UObject s2 (some r), s2) := by
  rfl

theorem CreateScriptObject_missing (fuel : Nat) (T : EObjectKind) (Context : GlobalContext)
    (Index : FPackageObjectIndex) (s : LoadState)
    (h : Context.GlobalToc.ScriptObjectByGlobalIdMap.lookup Index = none) :
    CreateScriptObject (fuel + 1) T Context Index s = .ok (none, s) := by
  simp only [CreateScriptObject, h]

theorem IndexToObject_ScriptImport_missing (fuel : Nat) (T : EObjectKind)
    (Header : FZenPackageHeader) (id : Nat) (s : LoadState) (Context : GlobalContext)
    (hctx : s.Context = some Context)
    (h : Context.GlobalToc.ScriptObjectByGlobalIdMap.lookup (FPackageObjectIndex.ScriptImport id)
      = none) :
    IndexToObject (fuel + 1) T Header (FPackageObjectIndex.ScriptImport id) s
      = .error Fault.NullDereference := by
  rw [IndexToObject_ScriptImport_eq, hctx]
  simp only [CreateScriptObject_missing fuel T Context _ s h]

/-- C8 (code evaluated at the failing input): script import 9 is absent from the registry of
the sample context; `CreateScriptObject` returns the empty handle and `IndexToObject` then
reads the name through it, so the result is a null dereference rather than Empty. -/
theorem IndexToObject_ScriptImport_absent_faults :
    sampleState.Context = some sampleContext ∧
    sampleContext.GlobalToc.ScriptObjectByGlobalIdMap.lookup (FPackageObjectIndex.ScriptImport 9)
      = none ∧
    CreateScriptObject 5 EObjectKind.UObject sampleContext (FPackageObjectIndex.ScriptImport 9)
      sampleState = .ok (none, sampleState) ∧
    IndexToObject 5 EObjectKind.UObject emptyHeader (FPackageObjectIndex.ScriptImport 9) sampleState
      = .error Fault.NullDereference ∧
    IndexToObject 5 EObjectKind.UObject emptyHeader (FPackageObjectIndex.ScriptImport 9) sampleState
      ≠ .ok (none, sampleState) := by
  refine ⟨rfl, by decide, rfl, rfl, ?_⟩
  intro h
  cases h
/-! ## Script imports (`CreateScriptObject`) -/

theorem As_UObject (s : LoadState) (r : Nat) : As EObjectKind.UObject s (some r) = some r := by
  simp [As, EObjectKind.isA]

theorem isA_self (k : EObjectKind) : k.isA k = true := by
  cases k <;> simp [EObjectKind.isA]

theorem As_of_isA (T : EObjectKind) (s : LoadState) (r : Nat) (h : (s.heap r).kind.isA T = true) :
    As T s (some r) = some r := by
  simp [As, h]

theorem ScriptFrame.refl (s : LoadState) : ScriptFrame s s :=
  ⟨Nat.le_refl _, rfl, rfl, rfl, rfl, fun _ _ => rfl, fun _ _ => rfl⟩

theorem ScriptFrame.trans {s s1 s2 : LoadState} (h1 : ScriptFrame s s1) (h2 : ScriptFrame s1 s2) :
    ScriptFrame s s2 where
  next_le := Nat.le_trans h1.next_le h2.next_le
  Context_eq := h2.Context_eq.trans h1.Context_eq
  Exports_eq := h2.Exports_eq.trans h1.Exports_eq
  Status_eq := h2.Status_eq.trans h1.Status_eq
  PackageExports_eq := h2.PackageExports_eq.trans h1.PackageExports_eq
  Name_eq := fun a ha =>
    (h2.Name_eq a (Nat.lt_of_lt_of_le ha h1.next_le)).trans (h1.Name_eq a ha)
  kind_eq := fun a ha =>
    (h2.kind_eq a (Nat.lt_of_lt_of_le ha h1.next_le)).trans (h1.kind_eq a ha)

/-- Overwriting an object by one with the same name and dynamic type. -/
theorem ScriptFrame.store (s : LoadState) (r : Nat) (o : UObject)
    (hN : o.Name = (s.heap r).Name) (hk : o.kind = (s.heap r).kind) :
    ScriptFrame s (s.store r o) where
  next_le := Nat.le_refl _
  Context_eq := rfl
  Exports_eq := rfl
  Status_eq := rfl
  PackageExports_eq := rfl
  Name_eq := fun a _ => by
    by_cases h : a = r
    · subst h; simp [LoadState.store, hN]
    · simp [LoadState.store, Function.update_noteq h]
  kind_eq := fun a _ => by
    by_cases h : a = r
    · subst h; simp [LoadState.store, hk]
    · simp [LoadState.store, Function.update_noteq h]

/-- Allocating a new object and giving it a name. -/
theorem ScriptFrame.alloc_store (s : LoadState) (o o1 : UObject) :
    ScriptFrame s ((s.alloc o).store s.next o1) where
  next_le := Nat.le_succ _
  Context_eq := rfl
  Exports_eq := rfl
  Status_eq := rfl
  PackageExports_eq := rfl
  Name_eq := fun a ha => by
    have h : a ≠ s.next := Nat.ne_of_lt ha
    simp [LoadState.store, LoadState.alloc, Function.update_noteq h]
  kind_eq := fun a ha => by
    have h : a ≠ s.next := Nat.ne_of_lt ha
    simp [LoadState.store, LoadState.alloc, Function.update_noteq h]

theorem RegistryOK.mono {reg : List (String × UObjectPtr)} {n m : Nat} (h : RegistryOK reg n)
    (hnm : n ≤ m) : RegistryOK reg m := by
  intro name p hp
  obtain ⟨r, hr, hlt⟩ := h name p hp
  exact ⟨r, hr, Nat.lt_of_lt_of_le hlt hnm⟩

@[simp] theorem heap_store_same (s : LoadState) (r : Nat) (o : UObject) :
    (s.store r o).heap r = o := by
  simp [LoadState.store]

@[simp] theorem next_store (s : LoadState) (r : Nat) (o : UObject) :
    (s.store r o).next = s.next := rfl

@[simp] theorem next_alloc (s : LoadState) (o : UObject) : (s.alloc o).next = s.next + 1 := rfl

/-- Behaviour of `CreateScriptObject` when the outer chain of `Index` ends within `fuel` steps
and the registry holds only non-empty, allocated handles: the call returns; an id the
registry does not know gives the empty handle; a name already registered gives the registered
object cast to `T`; otherwise a new object of type `T` with that name is allocated. -/
theorem CreateScriptObject_spec (Context : GlobalContext) :
    ∀ (fuel : Nat) (T : EObjectKind) (Index : FPackageObjectIndex) (s : LoadState),
      outerChainEnds Context.GlobalToc fuel Index = true →
      RegistryOK Context.ObjectArray s.next →
      ∃ p s1, CreateScriptObject fuel T Context Index s = .ok (p, s1) ∧ ScriptFrame s s1 ∧
        (Context.GlobalToc.ScriptObjectByGlobalIdMap.lookup Index = none → p = none) ∧
        (∀ e, Context.GlobalToc.ScriptObjectByGlobalIdMap.lookup Index = some e →
          (∀ r, Context.ObjectArray.lookup (Context.GlobalToc.NameMap.GetName e.MappedName)
              = some (some r) → p = As T s1 (some r)) ∧
          (Context.ObjectArray.lookup (Context.GlobalToc.NameMap.GetName e.MappedName) = none →
            p = some s.next ∧ s.next < s1.next ∧
            (s1.heap s.next).Name = Context.GlobalToc.NameMap.GetName e.MappedName ∧
            (s1.heap s.next).kind = T)) := by
  intro fuel
  induction fuel with
  | zero =>
    intro T Index s hch
    simp [outerChainEnds] at hch
  | succ n ih =>
    intro T Index s hch hreg
    cases hl : Context.GlobalToc.ScriptObjectByGlobalIdMap.lookup Index with
    | none =>
      refine ⟨none, s, ?_, ScriptFrame.refl s, fun _ => rfl, ?_⟩
      · simp only [CreateScriptObject, hl]
      · intro e he
        cases he
    | some e =>
      simp only [outerChainEnds, hl, Bool.or_eq_true] at hch
      cases hr : Context.ObjectArray.lookup (Context.GlobalToc.NameMap.GetName e.MappedName) with
      | none =>
        by_cases hnull : e.OuterIndex.IsNull = true
        · generalize hX : CreateScriptObject (n + 1) T Context Index s = res
          simp only [CreateScriptObject, hl, hr, hnull, Bool.not_true, Bool.false_eq_true,
            if_false] at hX
          subst hX
          refine ⟨_, _, rfl, ?_, ?_, ?_⟩
          · exact (ScriptFrame.alloc_store s _ _).trans
              (ScriptFrame.store _ _ _ (by simp [UObject.SetFlags]) (by simp [UObject.SetFlags]))
          · intro h
            cases h
          · intro e1 he1
            cases he1
            refine ⟨fun r h => ?_, fun _ => ⟨rfl, ?_, ?_, ?_⟩⟩
            · rw [hr] at h
              cases h
            · simp
            · simp [UObject.SetFlags]
            · simp [UObject.SetFlags, LoadState.alloc]
        · have hch1 : outerChainEnds Context.GlobalToc n e.OuterIndex = true := by
            rcases hch with h | h
            · exact absurd h hnull
            · exact h
          obtain ⟨p1, s2, hrec, hfr, -, -⟩ := ih EObjectKind.UObject e.OuterIndex
            ((s.alloc { kind := T }).store s.next
              { (s.alloc { kind := T }).heap s.next with
                Name := Context.GlobalToc.NameMap.GetName e.MappedName })
            hch1 (hreg.mono (Nat.le_succ _))
          generalize hX : CreateScriptObject (n + 1) T Context Index s = res
          simp only [CreateScriptObject, hl, hr, hnull, Bool.not_false, if_true, hrec] at hX
          subst hX
          have hlt : s.next < s2.next := Nat.lt_of_lt_of_le (Nat.lt_succ_self _) hfr.next_le
          have hN := hfr.Name_eq s.next (Nat.lt_succ_self _)
          have hk := hfr.kind_eq s.next (Nat.lt_succ_self _)
          simp only [heap_store_same] at hN hk
          refine ⟨_, _, rfl, ?_, ?_, ?_⟩
          · exact ((ScriptFrame.alloc_store s _ _).trans hfr).trans
              ((ScriptFrame.store _ _ _ (by rfl) (by rfl)).trans
                (ScriptFrame.store _ _ _ (by rfl) (by rfl)))
          · intro h
            cases h
          · intro e1 he1
            cases he1
            refine ⟨fun r h => ?_, fun _ => ⟨rfl, ?_, ?_, ?_⟩⟩
            · rw [hr] at h
              cases h
            · simpa using hlt
            · simpa [UObject.SetFlags] using hN
            · simpa [UObject.SetFlags, LoadState.alloc] using hk
      | some q =>
        obtain ⟨r, hq, hrlt⟩ := hreg _ q hr
        subst hq
        by_cases hcond : ((s.heap r).Outer.isNone && !e.OuterIndex.IsNull) = true
        · have hnull : e.OuterIndex.IsNull = false := by
            simp only [Bool.and_eq_true, Bool.not_eq_true'] at hcond
            exact hcond.2
          have hch1 : outerChainEnds Context.GlobalToc n e.OuterIndex = true := by
            rcases hch with h | h
            · rw [hnull] at h
              cases h
            · exact h
          obtain ⟨p1, s2, hrec, hfr, -, -⟩ := ih EObjectKind.UObject e.OuterIndex s hch1 hreg
          generalize hX : CreateScriptObject (n + 1) T Context Index s = res
          simp only [CreateScriptObject, hl, hr, hcond, if_true, hrec] at hX
          subst hX
          refine ⟨_, _, rfl, hfr.trans (ScriptFrame.store _ _ _ (by rfl) (by rfl)), ?_, ?_⟩
          · intro h
            cases h
          · intro e1 he1
            cases he1
            refine ⟨fun r1 h => ?_, fun h => ?_⟩
            · rw [hr] at h
              cases h
              rfl
            · rw [hr] at h
              cases h
        · generalize hX : CreateScriptObject (n + 1) T Context Index s = res
          simp only [CreateScriptObject, hl, hr, hcond, if_false, Bool.false_eq_true] at hX
          subst hX
          refine ⟨_, _, rfl, ScriptFrame.refl s, ?_, ?_⟩
          · intro h
            cases h
          · intro e1 he1
            cases he1
            refine ⟨fun r1 h => ?_, fun h => ?_⟩
            · rw [hr] at h
              cases h
              rfl
            · rw [hr] at h
              cases h

theorem lookup_filter_ne {κ υ : Type} [BEq κ] [LawfulBEq κ] (m : List (κ × υ)) (k k1 : κ)
    (h : k1 ≠ k) : (m.filter (fun e => !(e.1 == k))).lookup k1 = m.lookup k1 := by
  induction m with
  | nil => rfl
  | cons x m ih =>
    obtain ⟨a, b⟩ := x
    by_cases hak : a = k
    · subst hak
      have h1 : (k1 == a) = false := by simpa using h
      simp [List.filter, List.lookup, h1, ih]
    · have h2 : (a == k) = false := by simpa using hak
      simp only [List.filter, h2, Bool.not_false, List.lookup]
      rw [ih]

theorem lookup_insert_or_assign_self {κ υ : Type} [BEq κ] [LawfulBEq κ] (m : List (κ × υ))
    (k : κ) (v : υ) : (insert_or_assign m k v).lookup k = some v := by
  simp [insert_or_assign, List.lookup]

theorem lookup_insert_or_assign_ne {κ υ : Type} [BEq κ] [LawfulBEq κ] (m : List (κ × υ))
    (k k1 : κ) (v : υ) (h : k1 ≠ k) : (insert_or_assign m k v).lookup k1 = m.lookup k1 := by
  have h1 : (k1 == k) = false := by simpa using h
  simp only [insert_or_assign, List.lookup, h1]
  exact lookup_filter_ne m k k1 h

/-- Resolution of a script import that the registry knows, in a well-formed live context:
the call returns a non-empty handle, the object is afterwards registered under the script
object's name, and a handle already registered under that name is the one returned. -/
theorem IndexToObject_ScriptImport_spec (fuel : Nat) (T : EObjectKind)
    (Header : FZenPackageHeader) (id : Nat) (s : LoadState) (Context : GlobalContext)
    (e : FScriptObjectEntry) (hctx : s.Context = some Context)
    (hid : Context.GlobalToc.ScriptObjectByGlobalIdMap.lookup (FPackageObjectIndex.ScriptImport id)
      = some e)
    (hch : outerChainEnds Context.GlobalToc fuel (FPackageObjectIndex.ScriptImport id) = true)
    (hreg : RegistryOK Context.ObjectArray s.next)
    (hkind : ∀ r0, Context.ObjectArray.lookup (Context.GlobalToc.NameMap.GetName e.MappedName)
      = some (some r0) → (s.heap r0).kind.isA T = true) :
    ∃ r s1 Context1,
      IndexToObject fuel T Header (FPackageObjectIndex.ScriptImport id) s = .ok (some r, s1) ∧
      s1.Context = some Context1 ∧ Context1.GlobalToc = Context.GlobalToc ∧
      Context1.ObjectArray.lookup (Context.GlobalToc.NameMap.GetName e.MappedName)
        = some (some r) ∧
      RegistryOK Context1.ObjectArray s1.next ∧
      (s1.heap r).kind.isA T = true ∧
      (∀ r0, Context.ObjectArray.lookup (Context.GlobalToc.NameMap.GetName e.MappedName)
        = some (some r0) → r = r0) ∧
      (Context.ObjectArray.lookup (Context.GlobalToc.NameMap.GetName e.MappedName) = none →
        (s1.heap r).Name = Context.GlobalToc.NameMap.GetName e.MappedName) ∧
      s1.Exports = s.Exports ∧ s1.Status = s.Status := by
  obtain ⟨p, s1, hrec, hfr, -, hsome⟩ :=
    CreateScriptObject_spec Context fuel T (FPackageObjectIndex.ScriptImport id) s hch hreg
  obtain ⟨hold, hnew⟩ := hsome e hid
  -- the object returned by `CreateScriptObject`
  have hobj : ∃ r, p = some r ∧ r < s1.next ∧ (s1.heap r).kind.isA T = true ∧
      (∀ r0, Context.ObjectArray.lookup (Context.GlobalToc.NameMap.GetName e.MappedName)
        = some (some r0) → r = r0) ∧
      (Context.ObjectArray.lookup (Context.GlobalToc.NameMap.GetName e.MappedName) = none →
        (s1.heap r).Name = Context.GlobalToc.NameMap.GetName e.MappedName) ∧
      (Context.ObjectArray.lookup (Context.GlobalToc.NameMap.GetName e.MappedName) ≠ none →
        Context.ObjectArray.lookup (Context.GlobalToc.NameMap.GetName e.MappedName)
          = some (some r)) := by
    cases hr : Context.ObjectArray.lookup (Context.GlobalToc.NameMap.GetName e.MappedName) with
    | none =>
      obtain ⟨hp, hlt, hN, hk⟩ := hnew hr
      refine ⟨s.next, hp, hlt, ?_, ?_, fun _ => hN, fun h => absurd rfl h⟩
      · rw [hk]; exact isA_self T
      · intro r0 h0
        cases h0
    | some q =>
      obtain ⟨r, hq, hrlt⟩ := hreg _ q hr
      subst hq
      have hk : (s1.heap r).kind.isA T = true := by
        rw [hfr.kind_eq r hrlt]
        exact hkind r hr
      refine ⟨r, ?_, Nat.lt_of_lt_of_le hrlt hfr.next_le, hk, ?_, ?_, fun _ => rfl⟩
      · rw [hold r hr]
        exact As_of_isA T s1 r hk
      · intro r0 h0
        cases h0
        rfl
      · intro h
        cases h
  obtain ⟨r, hp, hrlt, hk, hsame, hname, hregd⟩ := hobj
  subst hp
  generalize hX : IndexToObject fuel T Header (FPackageObjectIndex.ScriptImport id) s = res
  rw [IndexToObject_ScriptImport_eq] at hX
  simp only [hctx, hrec, As_UObject] at hX
  subst hX
  by_cases hins : (Context.ObjectArray.lookup (s1.heap r).Name).isNone = true
  · simp only [hins, if_true]
    refine ⟨r, _, _, rfl, rfl, rfl, ?_, ?_, hk, hsame, hname, hfr.Exports_eq, hfr.Status_eq⟩
    · by_cases hn : Context.GlobalToc.NameMap.GetName e.MappedName = (s1.heap r).Name
      · rw [hn]
        exact lookup_insert_or_assign_self _ _ _
      · rw [lookup_insert_or_assign_ne _ _ _ _ hn]
        apply hregd
        intro h
        exact hn (hname h).symm
    · intro name q hq
      by_cases hn : name = (s1.heap r).Name
      · subst hn
        rw [lookup_insert_or_assign_self] at hq
        cases hq
        exact ⟨r, rfl, hrlt⟩
      · rw [lookup_insert_or_assign_ne _ _ _ _ hn] at hq
        exact (hreg.mono hfr.next_le) name q hq
  · simp only [hins, if_false, Bool.false_eq_true]
    refine ⟨r, _, Context, rfl, hfr.Context_eq.trans hctx, rfl, ?_, hreg.mono hfr.next_le, hk,
      hsame, hname, hfr.Exports_eq, hfr.Status_eq⟩
    apply hregd
    intro h
    apply hins
    rw [hname h, h]
    rfl

/-- Whenever `CreateScriptObject` returns, it has left the context, the export slots, the
status and the names and dynamic types of the existing objects alone. -/
theorem CreateScriptObject_ok_frame (Context : GlobalContext) :
    ∀ (fuel : Nat) (T : EObjectKind) (Index : FPackageObjectIndex) (s : LoadState)
      (p : UObjectPtr) (s1 : LoadState),
      CreateScriptObject fuel T Context Index s = .ok (p, s1) → ScriptFrame s s1 := by
  intro fuel
  induction fuel with
  | zero =>
    intro T Index s p s1 h
    simp [CreateScriptObject] at h
  | succ n ih =>
    intro T Index s p s1 h
    cases hl : Context.GlobalToc.ScriptObjectByGlobalIdMap.lookup Index with
    | none =>
      simp only [CreateScriptObject, hl] at h
      cases h
      exact ScriptFrame.refl s
    | some e =>
      cases hr : Context.ObjectArray.lookup (Context.GlobalToc.NameMap.GetName e.MappedName) with
      | none =>
        by_cases hnull : e.OuterIndex.IsNull = true
        · simp only [CreateScriptObject, hl, hr, hnull, Bool.not_true, Bool.false_eq_true,
            if_false] at h
          cases h
          exact (ScriptFrame.alloc_store s _ _).trans
            (ScriptFrame.store _ _ _ (by rfl) (by rfl))
        · cases hrec : CreateScriptObject n EObjectKind.UObject Context e.OuterIndex
            ((s.alloc { kind := T }).store s.next
              { (s.alloc { kind := T }).heap s.next with
                Name := Context.GlobalToc.NameMap.GetName e.MappedName }) with
          | error err =>
            simp only [CreateScriptObject, hl, hr, hnull, Bool.not_false, if_true, hrec] at h
            cases h
          | ok res =>
            obtain ⟨Outer, s2⟩ := res
            simp only [CreateScriptObject, hl, hr, hnull, Bool.not_false, if_true, hrec] at h
            cases h
            exact ((ScriptFrame.alloc_store s _ _).trans (ih _ _ _ _ _ hrec)).trans
              ((ScriptFrame.store _ _ _ (by rfl) (by rfl)).trans
                (ScriptFrame.store _ _ _ (by rfl) (by rfl)))
      | some q =>
        cases q with
        | none =>
          simp only [CreateScriptObject, hl, hr] at h
          cases h
        | some r =>
          by_cases hcond : ((s.heap r).Outer.isNone && !e.OuterIndex.IsNull) = true
          · cases hrec : CreateScriptObject n EObjectKind.UObject Context e.OuterIndex s with
            | error err =>
              simp only [CreateScriptObject, hl, hr, hcond, if_true, hrec] at h
              cases h
            | ok res =>
              obtain ⟨Outer, s2⟩ := res
              simp only [CreateScriptObject, hl, hr, hcond, if_true, hrec] at h
              cases h
              exact (ih _ _ _ _ _ hrec).trans (ScriptFrame.store _ _ _ (by rfl) (by rfl))
          · simp only [CreateScriptObject, hl, hr, hcond, if_false, Bool.false_eq_true] at h
            cases h
            exact ScriptFrame.refl s

/-- Whenever `IndexToObject` returns, the export slots, the status, the package's export list
and the names and dynamic types of the existing objects are as before. -/
theorem IndexToObject_ok_frame (fuel : Nat) (T : EObjectKind) (Header : FZenPackageHeader)
    (Index : FPackageObjectIndex) (s : LoadState) (p : UObjectPtr) (s1 : LoadState)
    (h : IndexToObject fuel T Header Index s = .ok (p, s1)) :
    s1.Exports = s.Exports ∧ s1.Status = s.Status ∧ s1.PackageExports = s.PackageExports ∧
    s.next ≤ s1.next ∧
    (∀ a, a < s.next → (s1.heap a).Name = (s.heap a).Name ∧ (s1.heap a).kind = (s.heap a).kind) := by
  cases Index with
  | Null =>
    rw [IndexToObject_Null_eq] at h
    cases h
    exact ⟨rfl, rfl, rfl, Nat.le_refl _, fun _ _ => ⟨rfl, rfl⟩⟩
  | Export i =>
    rw [IndexToObject_Export_eq] at h
    cases hg : s.Exports.get? i with
    | none => rw [hg] at h; cases h
    | some slot =>
      rw [hg] at h
      cases h
      exact ⟨rfl, rfl, rfl, Nat.le_refl _, fun _ _ => ⟨rfl, rfl⟩⟩
  | ScriptImport id =>
    rw [IndexToObject_ScriptImport_eq] at h
    cases hc : s.Context with
    | none =>
      simp only [hc] at h
      cases h
      exact ⟨rfl, rfl, rfl, Nat.le_refl _, fun _ _ => ⟨rfl, rfl⟩⟩
    | some ContextLock =>
      cases hrec : CreateScriptObject fuel T ContextLock (FPackageObjectIndex.ScriptImport id) s with
      | error err =>
        simp only [hc, hrec] at h
        cases h
      | ok res =>
        obtain ⟨Ret, s2⟩ := res
        have hfr := CreateScriptObject_ok_frame ContextLock _ _ _ _ _ _ hrec
        cases Ret with
        | none =>
          simp only [hc, hrec] at h
          cases h
        | some r =>
          simp only [hc, hrec] at h
          by_cases hins : (ContextLock.ObjectArray.lookup (s2.heap r).Name).isNone = true
          · simp only [hins, if_true] at h
            cases h
            exact ⟨hfr.Exports_eq, hfr.Status_eq, hfr.PackageExports_eq, hfr.next_le,
              fun a ha => ⟨hfr.Name_eq a ha, hfr.kind_eq a ha⟩⟩
          · simp only [hins, if_false, Bool.false_eq_true] at h
            cases h
            exact ⟨hfr.Exports_eq, hfr.Status_eq, hfr.PackageExports_eq, hfr.next_le,
              fun a ha => ⟨hfr.Name_eq a ha, hfr.kind_eq a ha⟩⟩
  | PackageImport sub hashIndex =>
    rw [IndexToObject_PackageImport_eq] at h
    by_cases hs : Header.ImportedPackageIds.length ≤ sub
    · rw [if_pos hs] at h
      cases h
      exact ⟨rfl, rfl, rfl, Nat.le_refl _, fun _ _ => ⟨rfl, rfl⟩⟩
    · rw [if_neg hs] at h
      cases h
      refine ⟨rfl, rfl, rfl, Nat.le_succ _, fun a ha => ?_⟩
      have hne : a ≠ s.next := Nat.ne_of_lt ha
      simp [LoadState.alloc, Function.update_noteq hne]

@[simp] theorem Exports_store (s : LoadState) (r : Nat) (o : UObject) :
    (s.store r o).Exports = s.Exports := rfl

@[simp] theorem Exports_alloc (s : LoadState) (o : UObject) : (s.alloc o).Exports = s.Exports := rfl

@[simp] theorem Exports_withMemory (s : LoadState) (m : ObjectMemory) :
    (s.withMemory m).Exports = s.Exports := rfl

theorem CreateExport_Class_ok (fuel : Nat) (Header : FZenPackageHeader)
    (Export : FExportMapEntry) (o : Nat) (s s1 : LoadState)
    (h : CreateExport_Class fuel Header Export o s = .ok s1) : s1.Exports = s.Exports := by
  unfold CreateExport_Class at h
  by_cases hc : (s.heap o).Class.isNone = true
  · cases hr : IndexToObject fuel EObjectKind.UClass Header Export.ClassIndex s with
    | error err => simp only [hc, if_true, hr] at h; cases h
    | ok res =>
      obtain ⟨c, s2⟩ := res
      simp only [hc, if_true, hr] at h
      cases h
      exact (IndexToObject_ok_frame _ _ _ _ _ _ _ hr).1
  · simp only [hc, if_false, Bool.false_eq_true] at h
    cases h
    rfl

theorem CreateExport_Outer_ok (fuel : Nat) (This : Nat) (Header : FZenPackageHeader)
    (Export : FExportMapEntry) (o : Nat) (s s1 : LoadState)
    (h : CreateExport_Outer fuel This Header Export o s = .ok s1) : s1.Exports = s.Exports := by
  unfold CreateExport_Outer at h
  by_cases hc : (s.heap o).Outer.isNone = true
  · by_cases hn : Export.OuterIndex.IsNull = true
    · simp only [hc, hn, if_true] at h
      cases h
      rfl
    · cases hr : IndexToObject fuel EObjectKind.UObject Header Export.OuterIndex s with
      | error err => simp only [hc, hn, if_true, if_false, Bool.false_eq_true, hr] at h; cases h
      | ok res =>
        obtain ⟨c, s2⟩ := res
        simp only [hc, hn, if_true, if_false, Bool.false_eq_true, hr] at h
        cases h
        exact (IndexToObject_ok_frame _ _ _ _ _ _ _ hr).1
  · simp only [hc, if_false, Bool.false_eq_true] at h
    cases h
    rfl

theorem CreateExport_Super_ok (fuel : Nat) (Header : FZenPackageHeader)
    (Export : FExportMapEntry) (o : Nat) (s s1 : LoadState)
    (h : CreateExport_Super fuel Header Export o s = .ok s1) : s1.Exports = s.Exports := by
  unfold CreateExport_Super at h
  cases ha : As EObjectKind.UStruct s (some o) with
  | none =>
    simp only [ha] at h
    cases h
    rfl
  | some Struct =>
    by_cases hc : (s.heap Struct).Super.isNone = true
    · cases hr : IndexToObject fuel EObjectKind.UStruct Header Export.SuperIndex s with
      | error err => simp only [ha, hc, if_true, hr] at h; cases h
      | ok res =>
        obtain ⟨c, s2⟩ := res
        simp only [ha, hc, if_true, hr] at h
        cases h
        exact (IndexToObject_ok_frame _ _ _ _ _ _ _ hr).1
    · simp only [ha, hc, if_false, Bool.false_eq_true] at h
      cases h
      rfl

theorem map_Object_set_TemplateObject (Exports : List FExportObject) (i : Nat)
    (slot : FExportObject) (v : UObjectPtr) (h : Exports.get? i = some slot) :
    (Exports.set i { slot with TemplateObject := v }).map (fun x => x.Object)
      = Exports.map (fun x => x.Object) := by
  rw [List.get?_eq_getElem?] at h
  apply List.ext_getElem?
  intro j
  simp only [List.getElem?_map, List.getElem?_set]
  by_cases hij : i = j
  · subst hij
    have hlt : i < Exports.length := by
      by_contra hge
      rw [List.getElem?_eq_none (by omega)] at h
      cases h
    simp [hlt, h]
  · simp [hij]

/-- Whenever the wiring part of `CreateExport` returns, the object handles held by the slots
are the ones held before. -/
theorem CreateExport_Wire_ok (fuel : Nat) (This : Nat) (Header : FZenPackageHeader)
    (Export : FExportMapEntry) (ObjectName : String) (i : Nat) (s s1 : LoadState)
    (h : CreateExport_Wire fuel This Header Export ObjectName i s = .ok s1) :
    s1.Exports.map (fun x => x.Object) = s.Exports.map (fun x => x.Object) := by
  unfold CreateExport_Wire at h
  cases hg0 : s.Exports.get? i with
  | none => simp only [hg0] at h; cases h
  | some slot0 =>
  simp only [hg0] at h
  cases hr : IndexToObject fuel EObjectKind.UObject Header Export.TemplateIndex s with
  | error err => simp only [hr] at h; cases h
  | ok res =>
    obtain ⟨TemplateObject, s2⟩ := res
    have hE := (IndexToObject_ok_frame _ _ _ _ _ _ _ hr).1
    cases hg : s2.Exports.get? i with
    | none => simp only [hr, hg] at h; cases h
    | some slot =>
      have hset : (s2.Exports.set i { slot with TemplateObject := TemplateObject }).map
          (fun x => x.Object) = s.Exports.map (fun x => x.Object) := by
        rw [map_Object_set_TemplateObject s2.Exports i slot TemplateObject hg, hE]
      by_cases ht : TemplateObject.isNone = true
      · simp only [hr, hg, ht, if_true] at h
        cases h
        exact hset
      · cases ho : slot.Object with
        | none => simp only [hr, hg, ht, if_false, Bool.false_eq_true, ho] at h; cases h
        | some o =>
          simp only [hr, hg, ht, if_false, Bool.false_eq_true, ho] at h
          revert h
          generalize hs3 : LoadState.store _ o _ = s3
          intro h
          have h3 : s3.Exports.map (fun x => x.Object) = s.Exports.map (fun x => x.Object) := by
            rw [← hs3]
            simp only [ho] at hset
            exact hset
          cases hc : CreateExport_Class fuel Header Export o s3 with
          | error err => simp only [hc] at h; cases h
          | ok s4 =>
            cases hou : CreateExport_Outer fuel This Header Export o s4 with
            | error err => simp only [hc, hou] at h; cases h
            | ok s5 =>
              cases hsu : CreateExport_Super fuel Header Export o s5 with
              | error err => simp only [hc, hou, hsu] at h; cases h
              | ok s6 =>
                simp only [hc, hou, hsu] at h
                cases h
                rw [Exports_store, CreateExport_Super_ok _ _ _ _ _ _ hsu,
                  CreateExport_Outer_ok _ _ _ _ _ _ _ hou, CreateExport_Class_ok _ _ _ _ _ _ hc]
                exact h3

theorem SlotsFilled_of_map_eq (n : Nat) (E E1 : List FExportObject)
    (h : E1.map (fun x => x.Object) = E.map (fun x => x.Object)) (hE : SlotsFilled n E) :
    SlotsFilled n E1 := by
  constructor
  · have := congrArg List.length h
    simp only [List.length_map] at this
    rw [this]
    exact hE.1
  · intro slot hslot hnone
    have hmem : slot.Object ∈ E1.map (fun x => x.Object) := List.mem_map_of_mem _ hslot
    rw [h, List.mem_map] at hmem
    obtain ⟨slot0, h0, heq⟩ := hmem
    exact hE.2 slot0 h0 (heq.trans hnone)

theorem SlotsFilled_set (n : Nat) (E : List FExportObject) (i : Nat) (x : FExportObject)
    (hx : x.Object ≠ none) (hE : SlotsFilled n E) : SlotsFilled n (E.set i x) := by
  constructor
  · rw [List.length_set]
    exact hE.1
  · intro slot hslot
    rcases List.mem_or_eq_of_mem_set hslot with h | h
    · exact hE.2 slot h
    · rw [h]
      exact hx

/-- Whenever `CreateExport` returns, filled slots stay filled, provided the caller-supplied
target object is non-empty or no export carries the target name. -/
theorem CreateExport_ok (fuel : Nat) (This : Nat) (Header : FZenPackageHeader)
    (ExportState : FExportState) (i : Nat) (s s1 : LoadState) (n : Nat)
    (htarget : ExportState.TargetObject ≠ none ∨
      ∀ e ∈ Header.ExportMap, Header.NameMap.GetName e.ObjectName ≠ ExportState.TargetObjectName)
    (h : CreateExport fuel This Header ExportState i s = .ok s1)
    (hE : SlotsFilled n s.Exports) : SlotsFilled n s1.Exports := by
  unfold CreateExport at h
  cases hg : Header.ExportMap.get? i with
  | none => simp only [hg] at h; cases h
  | some Export =>
    have hmem : Export ∈ Header.ExportMap := List.get?_mem hg
    by_cases hname : Header.NameMap.GetName Export.ObjectName = ExportState.TargetObjectName
    · have hobj : ExportState.TargetObject ≠ none := by
        rcases htarget with h1 | h1
        · exact h1
        · exact absurd hname (h1 Export hmem)
      cases hs : s.Exports.get? i with
      | none => simp only [hg, hname, if_true, hs] at h; cases h
      | some slot =>
        simp only [hg, hname, if_true, hs] at h
        have := CreateExport_Wire_ok _ _ _ _ _ _ _ _ h
        exact SlotsFilled_of_map_eq n _ _ this (SlotsFilled_set n _ _ _ hobj hE)
    · by_cases hl : ExportState.LoadTargetOnly = true
      · simp only [hg, hname, if_false, hl, if_true] at h
        cases h
        exact hE
      · simp only [hg, hname, if_false, hl, Bool.false_eq_true] at h
        exact SlotsFilled_of_map_eq n _ _ (CreateExport_Wire_ok _ _ _ _ _ _ _ _ h) hE

/-- Whenever `TrySerializeExport` returns, the slot array is the one before the call. -/
theorem TrySerializeExport_ok (Serialize : SerializeFn) (Header : FZenPackageHeader)
    (ExportState : FExportState) (i : Nat) (s s1 : LoadState) (r : Option UObjectPtr)
    (h : TrySerializeExport Serialize Header ExportState i s = .ok (r, s1)) :
    s1.Exports = s.Exports := by
  unfold TrySerializeExport at h
  cases hg : Header.ExportMap.get? i with
  | none => simp only [hg] at h; cases h
  | some Export =>
    cases hs : s.Exports.get? i with
    | none => simp only [hg, hs] at h; cases h
    | some slot =>
      cases ho : slot.Object with
      | none =>
        by_cases hc : (ExportState.LoadTargetOnly && none != ExportState.TargetObject) = true
        · simp only [hg, hs, ho, hc, if_true] at h
          cases h
          rfl
        · simp only [hg, hs, ho, hc, if_false, Bool.false_eq_true] at h
          cases h
      | some o =>
        by_cases hc : (ExportState.LoadTargetOnly && some o != ExportState.TargetObject) = true
        · simp only [hg, hs, ho, hc, if_true] at h
          cases h
          rfl
        · simp only [hg, hs, ho, hc, if_false, Bool.false_eq_true] at h
          cases hser : Serialize o (s.store o ((s.heap o).ClearFlags RF_NeedLoad)).memory with
          | error err => simp only [hser] at h; cases h
          | ok m =>
            simp only [hser] at h
            cases h
            rfl

/-- Whenever the bundle steps all return, filled slots stay filled. -/
theorem ProcessExportBundle_ok (fuel : Nat) (Serialize : SerializeFn) (This : Nat)
    (Header : FZenPackageHeader) (ExportState : FExportState) (n : Nat)
    (htarget : ExportState.TargetObject ≠ none ∨
      ∀ e ∈ Header.ExportMap, Header.NameMap.GetName e.ObjectName ≠ ExportState.TargetObjectName) :
    ∀ (bundle : List FExportBundleEntry) (s s1 : LoadState),
      ProcessExportBundle fuel Serialize This Header ExportState bundle s = .ok s1 →
      SlotsFilled n s.Exports → SlotsFilled n s1.Exports := by
  intro bundle
  induction bundle with
  | nil =>
    intro s s1 h hE
    simp only [ProcessExportBundle] at h
    cases h
    exact hE
  | cons b rest ih =>
    intro s s1 h hE
    unfold ProcessExportBundle at h
    cases hg : s.Exports.get? b.LocalExportIndex with
    | none => simp only [hg] at h; cases h
    | some slot =>
      by_cases hc : b.CommandType = EExportCommandType.ExportCommandType_Create
      · cases hcr : CreateExport fuel This Header ExportState b.LocalExportIndex s with
        | error err => simp only [hg, hc, if_true, hcr] at h; cases h
        | ok s2 =>
          simp only [hg, hc, if_true, hcr] at h
          exact ih s2 s1 h (CreateExport_ok _ _ _ _ _ _ _ n htarget hcr hE)
      · by_cases hsz : b.CommandType ≠ EExportCommandType.ExportCommandType_Serialize
        · simp only [hg, hc, if_false, hsz, if_true, ne_eq, not_false_eq_true] at h
          exact ih s s1 h hE
        · cases hts : TrySerializeExport Serialize Header ExportState b.LocalExportIndex s with
          | error err => simp only [hg, hc, if_false, hsz, hts] at h; cases h
          | ok res =>
            obtain ⟨r, s2⟩ := res
            have hE2 := TrySerializeExport_ok _ _ _ _ _ _ _ hts
            simp only [hg, hc, if_false, hsz, hts] at h
            cases r with
            | none =>
              simp only at h
              exact ih s2 s1 h (by rw [hE2]; exact hE)
            | some Object =>
              simp only at h
              exact ih _ s1 h (by simp only; rw [hE2]; exact hE)

theorem length_resizeExports (n : Nat) (Exports : List FExportObject) :
    (resizeExports n Exports).length = n := by
  simp only [resizeExports, List.length_append, List.length_take, List.length_replicate]
  omega

theorem allocateShells_filled :
    ∀ (slots : List FExportObject) (s : LoadState),
      SlotsFilled slots.length (allocateShells slots s).1 := by
  intro slots
  induction slots with
  | nil =>
    intro s
    exact ⟨rfl, fun _ h => by cases h⟩
  | cons slot rest ih =>
    intro s
    unfold allocateShells
    by_cases hn : slot.Object.isNone = true
    · simp only [hn, if_true]
      obtain ⟨h1, h2⟩ := ih (s.alloc {})
      refine ⟨by simp only [List.length_cons, h1], ?_⟩
      intro x hx
      rcases List.mem_cons.mp hx with h | h
      · rw [h]
        simp
      · exact h2 x h
    · simp only [hn, if_false, Bool.false_eq_true]
      obtain ⟨h1, h2⟩ := ih s
      refine ⟨by simp only [List.length_cons, h1], ?_⟩
      intro x hx
      rcases List.mem_cons.mp hx with h | h
      · rw [h]
        intro hnone
        apply hn
        rw [hnone]
        rfl
      · exact h2 x h

/-! ### Completion of the pass -/

theorem IndexToObject_local_total (fuel : Nat) (T : EObjectKind) (Header : FZenPackageHeader)
    (Index : FPackageObjectIndex) (s : LoadState)
    (h : Index.resolvesLocally s.Exports.length = true) :
    ∃ p s1, IndexToObject fuel T Header Index s = .ok (p, s1) := by
  cases Index with
  | Null => exact ⟨none, s, rfl⟩
  | Export i =>
    simp only [FPackageObjectIndex.resolvesLocally, decide_eq_true_eq] at h
    have hget : s.Exports.get? i = some s.Exports[i] := by
      rw [List.get?_eq_getElem?]
      exact List.getElem?_eq_getElem h
    rw [IndexToObject_Export_eq, hget]
    exact ⟨_, s, rfl⟩
  | ScriptImport id => simp [FPackageObjectIndex.resolvesLocally] at h
  | PackageImport sub hashIndex =>
    rw [IndexToObject_PackageImport_eq]
    by_cases hs : Header.ImportedPackageIds.length ≤ sub
    · rw [if_pos hs]
      exact ⟨_, _, rfl⟩
    · rw [if_neg hs]
      exact ⟨_, _, rfl⟩

theorem CreateExport_Class_total (fuel : Nat) (Header : FZenPackageHeader)
    (Export : FExportMapEntry) (o : Nat) (s : LoadState)
    (h : Export.ClassIndex.resolvesLocally s.Exports.length = true) :
    ∃ s1, CreateExport_Class fuel Header Export o s = .ok s1 := by
  unfold CreateExport_Class
  by_cases hc : (s.heap o).Class.isNone = true
  · obtain ⟨p, s1, hr⟩ := IndexToObject_local_total fuel EObjectKind.UClass Header _ s h
    simp only [hc, if_true, hr]
    exact ⟨_, rfl⟩
  · exact ⟨s, by simp only [hc, if_false, Bool.false_eq_true]⟩

theorem CreateExport_Outer_total (fuel : Nat) (This : Nat) (Header : FZenPackageHeader)
    (Export : FExportMapEntry) (o : Nat) (s : LoadState)
    (h : Export.OuterIndex.resolvesLocally s.Exports.length = true) :
    ∃ s1, CreateExport_Outer fuel This Header Export o s = .ok s1 := by
  unfold CreateExport_Outer
  by_cases hc : (s.heap o).Outer.isNone = true
  · by_cases hn : Export.OuterIndex.IsNull = true
    · simp only [hc, hn, if_true]
      exact ⟨_, rfl⟩
    · obtain ⟨p, s1, hr⟩ := IndexToObject_local_total fuel EObjectKind.UObject Header _ s h
      simp only [hc, hn, if_true, if_false, Bool.false_eq_true, hr]
      exact ⟨_, rfl⟩
  · exact ⟨s, by simp only [hc, if_false, Bool.false_eq_true]⟩

theorem CreateExport_Super_total (fuel : Nat) (Header : FZenPackageHeader)
    (Export : FExportMapEntry) (o : Nat) (s : LoadState)
    (h : Export.SuperIndex.resolvesLocally s.Exports.length = true) :
    ∃ s1, CreateExport_Super fuel Header Export o s = .ok s1 := by
  unfold CreateExport_Super
  cases ha : As EObjectKind.UStruct s (some o) with
  | none => exact ⟨s, rfl⟩
  | some Struct =>
    by_cases hc : (s.heap Struct).Super.isNone = true
    · obtain ⟨p, s1, hr⟩ := IndexToObject_local_total fuel EObjectKind.UStruct Header _ s h
      simp only [hc, if_true, hr]
      exact ⟨_, rfl⟩
    · exact ⟨s, by simp only [hc, if_false, Bool.false_eq_true]⟩

/-- The wiring part of `CreateExport` returns when the slot exists and holds an object and the
export's indices resolve locally. -/
theorem CreateExport_Wire_total (fuel : Nat) (This : Nat) (Header : FZenPackageHeader)
    (Export : FExportMapEntry) (ObjectName : String) (i : Nat) (s : LoadState)
    (slot : FExportObject) (hslot : s.Exports.get? i = some slot) (hobj : slot.Object ≠ none)
    (hloc : Export.resolvesLocally s.Exports.length = true) :
    ∃ s1, CreateExport_Wire fuel This Header Export ObjectName i s = .ok s1 := by
  simp only [FExportMapEntry.resolvesLocally, Bool.and_eq_true] at hloc
  obtain ⟨⟨⟨hT, hC⟩, hO⟩, hS⟩ := hloc
  obtain ⟨TemplateObject, s2, hr⟩ :=
    IndexToObject_local_total fuel EObjectKind.UObject Header _ s hT
  have hE := (IndexToObject_ok_frame _ _ _ _ _ _ _ hr).1
  have hg : s2.Exports.get? i = some slot := by rw [hE]; exact hslot
  unfold CreateExport_Wire
  simp only [hslot]
  by_cases ht : TemplateObject.isNone = true
  · simp only [hr, hg, ht, if_true]
    exact ⟨_, rfl⟩
  · cases ho : slot.Object with
    | none => exact absurd ho hobj
    | some o =>
      simp only [hr, hg, ht, if_false, Bool.false_eq_true, ho]
      generalize hs3 : LoadState.store _ o _ = s3
      have hl3 : s3.Exports.length = s.Exports.length := by
        rw [← hs3]
        simp only [Exports_store, List.length_set, hE]
      obtain ⟨s4, hc⟩ := CreateExport_Class_total fuel Header Export o s3 (by rw [hl3]; exact hC)
      have hl4 : s4.Exports.length = s.Exports.length := by
        rw [CreateExport_Class_ok _ _ _ _ _ _ hc, hl3]
      obtain ⟨s5, hou⟩ := CreateExport_Outer_total fuel This Header Export o s4
        (by rw [hl4]; exact hO)
      have hl5 : s5.Exports.length = s.Exports.length := by
        rw [CreateExport_Outer_ok _ _ _ _ _ _ _ hou, hl4]
      obtain ⟨s6, hsu⟩ := CreateExport_Super_total fuel Header Export o s5
        (by rw [hl5]; exact hS)
      simp only [hc, hou, hsu]
      exact ⟨_, rfl⟩

theorem SlotsFilled_get? (n : Nat) (E : List FExportObject) (i : Nat) (hE : SlotsFilled n E)
    (hi : i < n) : ∃ slot, E.get? i = some slot ∧ slot.Object ≠ none := by
  have hlt : i < E.length := by rw [hE.1]; exact hi
  refine ⟨E[i], ?_, hE.2 _ (List.getElem_mem hlt)⟩
  rw [List.get?_eq_getElem?]
  exact List.getElem?_eq_getElem hlt

/-- Completion of `CreateExport`: it returns when the step's index is in range, the slots are
filled, the substituted target object (if any) is non-empty and the export's indices resolve
locally. -/
theorem CreateExport_total (fuel : Nat) (This : Nat) (Header : FZenPackageHeader)
    (ExportState : FExportState) (i : Nat) (s : LoadState) (n : Nat)
    (htarget : ExportState.TargetObject ≠ none ∨
      ∀ e ∈ Header.ExportMap, Header.NameMap.GetName e.ObjectName ≠ ExportState.TargetObjectName)
    (hmap : Header.ExportMap.length = n) (hi : i < n)
    (hloc : ∀ e ∈ Header.ExportMap, e.resolvesLocally n = true)
    (hE : SlotsFilled n s.Exports) :
    ∃ s1, CreateExport fuel This Header ExportState i s = .ok s1 := by
  have hlt : i < Header.ExportMap.length := by rw [hmap]; exact hi
  have hg : Header.ExportMap.get? i = some Header.ExportMap[i] := by
    rw [List.get?_eq_getElem?]
    exact List.getElem?_eq_getElem hlt
  have hmem : Header.ExportMap[i] ∈ Header.ExportMap := List.getElem_mem hlt
  obtain ⟨slot, hs, hobj⟩ := SlotsFilled_get? n s.Exports i hE hi
  unfold CreateExport
  by_cases hname : Header.NameMap.GetName Header.ExportMap[i].ObjectName
      = ExportState.TargetObjectName
  · have hto : ExportState.TargetObject ≠ none := by
      rcases htarget with h1 | h1
      · exact h1
      · exact absurd hname (h1 _ hmem)
    simp only [hg, hname, if_true, hs]
    apply CreateExport_Wire_total fuel This Header _ _ i _
      { slot with Object := ExportState.TargetObject }
    · simp only
      rw [List.get?_eq_getElem?, List.getElem?_set_self (by rw [hE.1]; exact hi)]
    · exact hto
    · simp only [List.length_set, hE.1]
      exact hloc _ hmem
  · by_cases hl : ExportState.LoadTargetOnly = true
    · exact ⟨s, by simp only [hg, hname, if_false, hl, if_true]⟩
    · simp only [hg, hname, if_false, hl, Bool.false_eq_true]
      exact CreateExport_Wire_total fuel This Header _ _ i s slot hs hobj
        (by rw [hE.1]; exact hloc _ hmem)

/-- Completion of `TrySerializeExport`: it returns when the step's index is in range, the
slots are filled and the object's own field deserialization returns. -/
theorem TrySerializeExport_total (Serialize : SerializeFn) (Header : FZenPackageHeader)
    (ExportState : FExportState) (i : Nat) (s : LoadState) (n : Nat)
    (hser : ∀ o m, ∃ m1, Serialize o m = .ok m1)
    (hmap : Header.ExportMap.length = n) (hi : i < n) (hE : SlotsFilled n s.Exports) :
    ∃ r s1, TrySerializeExport Serialize Header ExportState i s = .ok (r, s1) := by
  have hlt : i < Header.ExportMap.length := by rw [hmap]; exact hi
  have hg : Header.ExportMap.get? i = some Header.ExportMap[i] := by
    rw [List.get?_eq_getElem?]
    exact List.getElem?_eq_getElem hlt
  obtain ⟨slot, hs, hobj⟩ := SlotsFilled_get? n s.Exports i hE hi
  unfold TrySerializeExport
  cases ho : slot.Object with
  | none => exact absurd ho hobj
  | some o =>
    by_cases hc : (ExportState.LoadTargetOnly && some o != ExportState.TargetObject) = true
    · simp only [hg, hs, ho, hc, if_true]
      exact ⟨_, _, rfl⟩
    · obtain ⟨m1, hm⟩ := hser o (s.store o ((s.heap o).ClearFlags RF_NeedLoad)).memory
      simp only [hg, hs, ho, hc, if_false, Bool.false_eq_true, hm]
      exact ⟨_, _, rfl⟩

/-- The bundle steps all return, with the slots still filled, when every step names a local
index below `n`, the export table has `n` entries whose indices resolve locally, the
substituted target object (if any) is non-empty and field deserialization returns. -/
theorem ProcessExportBundle_total (fuel : Nat) (Serialize : SerializeFn) (This : Nat)
    (Header : FZenPackageHeader) (ExportState : FExportState) (n : Nat)
    (htarget : ExportState.TargetObject ≠ none ∨
      ∀ e ∈ Header.ExportMap, Header.NameMap.GetName e.ObjectName ≠ ExportState.TargetObjectName)
    (hser : ∀ o m, ∃ m1, Serialize o m = .ok m1)
    (hmap : Header.ExportMap.length = n)
    (hloc : ∀ e ∈ Header.ExportMap, e.resolvesLocally n = true) :
    ∀ (bundle : List FExportBundleEntry) (s : LoadState),
      (∀ b ∈ bundle, b.LocalExportIndex < n) → SlotsFilled n s.Exports →
      ∃ s1, ProcessExportBundle fuel Serialize This Header ExportState bundle s = .ok s1 := by
  intro bundle
  induction bundle with
  | nil =>
    intro s _ _
    exact ⟨s, rfl⟩
  | cons b rest ih =>
    intro s hb hE
    have hi : b.LocalExportIndex < n := hb b (List.mem_cons_self _ _)
    have hrest : ∀ b1 ∈ rest, b1.LocalExportIndex < n :=
      fun b1 h1 => hb b1 (List.mem_cons_of_mem _ h1)
    obtain ⟨slot, hg, -⟩ := SlotsFilled_get? n s.Exports _ hE hi
    unfold ProcessExportBundle
    by_cases hc : b.CommandType = EExportCommandType.ExportCommandType_Create
    · obtain ⟨s2, hcr⟩ := CreateExport_total fuel This Header ExportState b.LocalExportIndex s n
        htarget hmap hi hloc hE
      simp only [hg, hc, if_true, hcr]
      exact ih s2 hrest (CreateExport_ok _ _ _ _ _ _ _ n htarget hcr hE)
    · by_cases hsz : b.CommandType ≠ EExportCommandType.ExportCommandType_Serialize
      · simp only [hg, hc, if_false, hsz, if_true, ne_eq, not_false_eq_true]
        exact ih s hrest hE
      · obtain ⟨r, s2, hts⟩ := TrySerializeExport_total Serialize Header ExportState
          b.LocalExportIndex s n hser hmap hi hE
        have hE2 := TrySerializeExport_ok _ _ _ _ _ _ _ hts
        simp only [hg, hc, if_false, hsz, hts]
        cases r with
        | none =>
          simp only
          exact ih s2 hrest (by rw [hE2]; exact hE)
        | some Object =>
          simp only
          exact ih _ hrest (by simp only; rw [hE2]; exact hE)


/-- An index that resolves to the empty handle leaves the state as it was. -/
theorem IndexToObject_ok_none (fuel : Nat) (T : EObjectKind) (Header : FZenPackageHeader)
    (Index : FPackageObjectIndex) (s s1 : LoadState)
    (h : IndexToObject fuel T Header Index s = .ok (none, s1)) : s1 = s := by
  cases Index with
  | Null =>
    rw [IndexToObject_Null_eq] at h
    cases h
    rfl
  | Export i =>
    rw [IndexToObject_Export_eq] at h
    cases hg : s.Exports.get? i with
    | none => rw [hg] at h; cases h
    | some slot =>
      rw [hg] at h
      simp only [Except.ok.injEq, Prod.mk.injEq] at h
      exact h.2.symm
  | ScriptImport id =>
    rw [IndexToObject_ScriptImport_eq] at h
    cases hc : s.Context with
    | none =>
      simp only [hc] at h
      cases h
      rfl
    | some ContextLock =>
      cases hrec : CreateScriptObject fuel T ContextLock (FPackageObjectIndex.ScriptImport id) s with
      | error err =>
        simp only [hc, hrec] at h
        cases h
      | ok res =>
        obtain ⟨Ret, s2⟩ := res
        cases Ret with
        | none =>
          simp only [hc, hrec] at h
          cases h
        | some r =>
          simp only [hc, hrec, As_UObject, Except.ok.injEq, Prod.mk.injEq] at h
          exact absurd h.1 (by simp)
  | PackageImport sub hashIndex =>
    rw [IndexToObject_PackageImport_eq] at h
    by_cases hs : Header.ImportedPackageIds.length ≤ sub
    · rw [if_pos hs] at h
      cases h
      rfl
    · rw [if_neg hs] at h
      simp only [Except.ok.injEq, Prod.mk.injEq] at h
      exact absurd h.1 (by simp)

theorem get?_set_self_of_get? {α : Type} (l : List α) (i : Nat) (x y : α)
    (h : l.get? i = some x) : (l.set i y).get? i = some y := by
  rw [List.get?_eq_getElem?] at h ⊢
  have hlt : i < l.length := by
    by_contra hge
    rw [List.getElem?_eq_none (by omega)] at h
    cases h
  rw [List.getElem?_set_self hlt]

/-- The wiring part of `CreateExport` when the template resolves to the empty handle. -/
theorem CreateExport_Wire_empty_template (fuel : Nat) (This : Nat) (Header : FZenPackageHeader)
    (Export : FExportMapEntry) (ObjectName : String) (i : Nat) (s s2 : LoadState)
    (slot : FExportObject) (hslot : s.Exports.get? i = some slot)
    (htpl : IndexToObject fuel EObjectKind.UObject Header Export.TemplateIndex s = .ok (none, s2)) :
    CreateExport_Wire fuel This Header Export ObjectName i s
      = .ok { s with Exports := s.Exports.set i { slot with TemplateObject := none },
                     Status := EIoErrorCode.ReadError } := by
  have hs2 := IndexToObject_ok_none _ _ _ _ _ _ htpl
  subst hs2
  unfold CreateExport_Wire
  simp only [hslot, htpl, Option.isNone_none, if_true]

theorem substituteTarget_eq (ExportState : FExportState) (i : Nat) (s : LoadState)
    (slot : FExportObject) (hslot : s.Exports.get? i = some slot) :
    substituteTarget ExportState i s
      = { s with Exports := s.Exports.set i { slot with Object := ExportState.TargetObject } } := by
  simp only [substituteTarget, hslot]

/-- Behaviour of `CreateExport` on a step that is not skipped and whose template resolves to
the empty handle: the status becomes `ReadError`, the objects are untouched, and the slot
array changes only in slot `i` (target substitution and the empty template handle). -/
theorem CreateExport_empty_template_eq (fuel : Nat) (This : Nat) (Header : FZenPackageHeader)
    (ExportState : FExportState) (i : Nat) (s s2 : LoadState) (Export : FExportMapEntry)
    (slot : FExportObject) (hE : Header.ExportMap.get? i = some Export)
    (hslot : s.Exports.get? i = some slot)
    (hrun : Header.NameMap.GetName Export.ObjectName = ExportState.TargetObjectName ∨
      ExportState.LoadTargetOnly = false)
    (htpl : IndexToObject fuel EObjectKind.UObject Header Export.TemplateIndex
      (if Header.NameMap.GetName Export.ObjectName = ExportState.TargetObjectName
        then substituteTarget ExportState i s else s) = .ok (none, s2)) :
    ∃ s1, CreateExport fuel This Header ExportState i s = .ok s1 ∧
      s1.Status = EIoErrorCode.ReadError ∧ s1.heap = s.heap ∧ s1.next = s.next ∧
      s1.Context = s.Context ∧ s1.PackageExports = s.PackageExports ∧
      s1.Exports.length = s.Exports.length ∧
      (s1.Exports.get? i).map (fun x => x.TemplateObject) = some none := by
  unfold CreateExport
  by_cases hname : Header.NameMap.GetName Export.ObjectName = ExportState.TargetObjectName
  · rw [if_pos hname, substituteTarget_eq ExportState i s slot hslot] at htpl
    simp only [hE, hname, if_true, hslot]
    rw [CreateExport_Wire_empty_template fuel This Header Export _ i _ s2
      { slot with Object := ExportState.TargetObject }
      (get?_set_self_of_get? _ _ _ _ hslot) htpl]
    refine ⟨_, rfl, rfl, rfl, rfl, rfl, rfl, ?_, ?_⟩
    · simp only [List.length_set]
    · simp only
      rw [get?_set_self_of_get? _ _ _ _ (get?_set_self_of_get? _ _ _ _ hslot)]
      rfl
  · have hl : ExportState.LoadTargetOnly = false := by
      rcases hrun with h | h
      · exact absurd h hname
      · exact h
    rw [if_neg hname] at htpl
    simp only [hE, hname, if_false, hl, Bool.false_eq_true]
    rw [CreateExport_Wire_empty_template fuel This Header Export _ i s s2 slot hslot htpl]
    refine ⟨_, rfl, rfl, rfl, rfl, rfl, rfl, ?_, ?_⟩
    · simp only [List.length_set]
    · simp only
      rw [get?_set_self_of_get? _ _ _ _ hslot]
      rfl

/-- C11 (as stated, refuted): with the load restricted to a target named `"B"`, the Create
step of export `"A"`, whose template index is Null (which resolves to the empty handle),
returns at once and the status stays `Ok`. -/
theorem CreateExport_skipped_keeps_status :
    (oneExportHeader.ExportMap.get? 0).map (fun e => e.TemplateIndex)
      = some FPackageObjectIndex.Null ∧
    IndexToObject 3 EObjectKind.UObject oneExportHeader FPackageObjectIndex.Null sampleState
      = .ok (none, sampleState) ∧
    sampleState.Status = EIoErrorCode.Ok ∧
    (CreateExport 3 0 oneExportHeader targetOnlyB 0 sampleState).toOption.map (fun s => s.Status)
      = some EIoErrorCode.Ok := by
  refine ⟨rfl, rfl, rfl, ?_⟩
  decide

/-- C11 (amended): for every Create(i) step that is not skipped by the target-only
restriction (the export carries the target name, or the load is not restricted) and whose
export's TemplateIndex resolves to Empty, `CreateExport` sets the status to `ReadError` and
leaves every object (hence the export object's Class, Outer, Super, Name and flags) exactly
as it was, and `ProcessExports` goes on with the later bundle steps from the resulting
state. -/
theorem CreateExport_empty_template (fuel : Nat) (This : Nat) (Header : FZenPackageHeader)
    (ExportState : FExportState) (i : Nat) (s s2 : LoadState) (Export : FExportMapEntry)
    (slot : FExportObject) (hE : Header.ExportMap.get? i = some Export)
    (hslot : s.Exports.get? i = some slot)
    (hrun : Header.NameMap.GetName Export.ObjectName = ExportState.TargetObjectName ∨
      ExportState.LoadTargetOnly = false)
    (htpl : IndexToObject fuel EObjectKind.UObject Header Export.TemplateIndex
      (if Header.NameMap.GetName Export.ObjectName = ExportState.TargetObjectName
        then substituteTarget ExportState i s else s) = .ok (none, s2)) :
    ∃ s1, CreateExport fuel This Header ExportState i s = .ok s1 ∧
      s1.Status = EIoErrorCode.ReadError ∧ s1.heap = s.heap ∧
      (s1.Exports.get? i).map (fun x => x.TemplateObject) = some none ∧
      ∀ (Serialize : SerializeFn) (rest : List FExportBundleEntry),
        ProcessExportBundle fuel Serialize This Header ExportState
            (⟨i, EExportCommandType.ExportCommandType_Create⟩ :: rest) s
          = ProcessExportBundle fuel Serialize This Header ExportState rest s1 := by
  obtain ⟨s1, h1, hst, hheap, -, -, -, -, htplobj⟩ :=
    CreateExport_empty_template_eq fuel This Header ExportState i s s2 Export slot hE hslot
      hrun htpl
  refine ⟨s1, h1, hst, hheap, htplobj, ?_⟩
  intro Serialize rest
  conv_lhs => unfold ProcessExportBundle
  simp only [hslot, if_true, h1]

/-- Witness for the amended C11: the Create step of the one-export header (template Null)
in the sample state, without target restriction. -/
theorem CreateExport_empty_template_witness :
    ∃ s1, CreateExport 3 0 oneExportHeader {} 0 sampleState = .ok s1 ∧
      s1.Status = EIoErrorCode.ReadError ∧ s1.heap = sampleState.heap ∧
      (s1.Exports.get? 0).map (fun x => x.TemplateObject) = some none ∧
      ∀ (Serialize : SerializeFn) (rest : List FExportBundleEntry),
        ProcessExportBundle 3 Serialize 0 oneExportHeader {}
            (⟨0, EExportCommandType.ExportCommandType_Create⟩ :: rest) sampleState
          = ProcessExportBundle 3 Serialize 0 oneExportHeader {} rest s1 :=
  CreateExport_empty_template 3 0 oneExportHeader {} 0 sampleState sampleState
    { ObjectName := ⟨0, 0⟩, OuterIndex := FPackageObjectIndex.Null,
      ClassIndex := FPackageObjectIndex.Null, SuperIndex := FPackageObjectIndex.Null,
      TemplateIndex := FPackageObjectIndex.Null, ObjectFlags := 0 }
    { Object := some 0 } rfl rfl (Or.inr rfl) rfl

theorem CreateExport_skip_eq (fuel : Nat) (This : Nat) (Header : FZenPackageHeader)
    (ExportState : FExportState) (i : Nat) (s : LoadState) (Export : FExportMapEntry)
    (hE : Header.ExportMap.get? i = some Export)
    (hname : Header.NameMap.GetName Export.ObjectName ≠ ExportState.TargetObjectName)
    (hl : ExportState.LoadTargetOnly = true) :
    CreateExport fuel This Header ExportState i s = .ok s := by
  unfold CreateExport
  simp only [hE, hname, if_false, hl, if_true]

theorem TrySerializeExport_skip_eq (Serialize : SerializeFn) (Header : FZenPackageHeader)
    (ExportState : FExportState) (i : Nat) (s : LoadState) (Export : FExportMapEntry)
    (slot : FExportObject) (hE : Header.ExportMap.get? i = some Export)
    (hslot : s.Exports.get? i = some slot)
    (hobj : slot.Object ≠ ExportState.TargetObject)
    (hl : ExportState.LoadTargetOnly = true) :
    TrySerializeExport Serialize Header ExportState i s = .ok (none, s) := by
  unfold TrySerializeExport
  have hc : (ExportState.LoadTargetOnly && slot.Object != ExportState.TargetObject) = true := by
    simp [hl, hobj]
  simp only [hE, hslot, hc, if_true]

/-- Whenever the wiring part of `CreateExport` returns with a non-empty template handle in the
slot, the object held by the slot has exactly the export's declared flags and the four
standard flags. -/
theorem CreateExport_Wire_flags (fuel : Nat) (This : Nat) (Header : FZenPackageHeader)
    (Export : FExportMapEntry) (ObjectName : String) (i : Nat) (s s1 : LoadState)
    (slot1 : FExportObject)
    (h : CreateExport_Wire fuel This Header Export ObjectName i s = .ok s1)
    (hslot1 : s1.Exports.get? i = some slot1) (htpl : slot1.TemplateObject ≠ none) :
    ∃ o, slot1.Object = some o ∧
      (s1.heap o).ObjectFlags = Export.ObjectFlags ||| RF_NeedLoad ||| RF_NeedPostLoad |||
        RF_NeedPostLoadSubobjects ||| RF_WasLoaded := by
  unfold CreateExport_Wire at h
  cases hg0 : s.Exports.get? i with
  | none => simp only [hg0] at h; cases h
  | some slot0 =>
  simp only [hg0] at h
  cases hr : IndexToObject fuel EObjectKind.UObject Header Export.TemplateIndex s with
  | error err => simp only [hr] at h; cases h
  | ok res =>
    obtain ⟨TemplateObject, s2⟩ := res
    cases hg : s2.Exports.get? i with
    | none => simp only [hr, hg] at h; cases h
    | some slot =>
      have hget := get?_set_self_of_get? s2.Exports i slot
        { slot with TemplateObject := TemplateObject } hg
      by_cases ht : TemplateObject.isNone = true
      · simp only [hr, hg, ht, if_true] at h
        cases h
        simp only at hslot1
        rw [hget] at hslot1
        cases hslot1
        simp only [Option.isNone_iff_eq_none] at ht
        exact absurd ht htpl
      · cases ho : slot.Object with
        | none => simp only [hr, hg, ht, if_false, Bool.false_eq_true, ho] at h; cases h
        | some o =>
          simp only [hr, hg, ht, if_false, Bool.false_eq_true, ho] at h
          simp only [ho] at hget
          revert h
          generalize hs3 : LoadState.store _ o _ = s3
          intro h
          have h3 : s3.Exports.get? i = some { Object := some o, TemplateObject := TemplateObject } := by
            rw [← hs3]
            exact hget
          cases hc : CreateExport_Class fuel Header Export o s3 with
          | error err => simp only [hc] at h; cases h
          | ok s4 =>
            cases hou : CreateExport_Outer fuel This Header Export o s4 with
            | error err => simp only [hc, hou] at h; cases h
            | ok s5 =>
              cases hsu : CreateExport_Super fuel Header Export o s5 with
              | error err => simp only [hc, hou, hsu] at h; cases h
              | ok s6 =>
                simp only [hc, hou, hsu] at h
                cases h
                rw [Exports_store, CreateExport_Super_ok _ _ _ _ _ _ hsu,
                  CreateExport_Outer_ok _ _ _ _ _ _ _ hou, CreateExport_Class_ok _ _ _ _ _ _ hc,
                  h3] at hslot1
                cases hslot1
                exact ⟨o, rfl, by simp only [heap_store_same]⟩

/-- C13 (as stated, refuted): object 1 carries flag `0x2` before the step and is substituted
as the target object of export `"A"`, whose declared flags are `0x1`. After the Create step
its flags are `0x1` plus the four standard flags (46081); flag `0x2` is lost, so they are not
the bitwise OR with the flags it had before (46083). -/
theorem CreateExport_flags_overwritten :
    (stateWithFlaggedTarget.heap 1).ObjectFlags = 2 ∧
    (CreateExport 3 0 oneExportHeaderWithTemplate targetIsObject1 0
      stateWithFlaggedTarget).toOption.map
        (fun s => (s.Exports.map (fun x => x.Object), (s.heap 1).ObjectFlags))
      = some ([some 1], 46081) ∧
    (1 ||| RF_NeedLoad ||| RF_NeedPostLoad ||| RF_NeedPostLoadSubobjects ||| RF_WasLoaded) = 46081 ∧
    (2 ||| (1 ||| RF_NeedLoad ||| RF_NeedPostLoad ||| RF_NeedPostLoadSubobjects ||| RF_WasLoaded))
      = 46083 := by
  refine ⟨rfl, ?_, by decide, by decide⟩
  decide

/-- C13 (amended): for every Create(i) step that completes with a non-empty template, the
flags of the object held by slot `i` afterwards equal the bitwise OR of the export's declared
ObjectFlags and the four standard flags needs-load, needs-post-load,
needs-post-load-subobjects and was-loaded; the flags the object had before the step do not
enter the result. -/
theorem CreateExport_flags (fuel : Nat) (This : Nat) (Header : FZenPackageHeader)
    (ExportState : FExportState) (i : Nat) (s s1 : LoadState) (Export : FExportMapEntry)
    (slot1 : FExportObject) (hE : Header.ExportMap.get? i = some Export)
    (hrun : Header.NameMap.GetName Export.ObjectName = ExportState.TargetObjectName ∨
      ExportState.LoadTargetOnly = false)
    (hok : CreateExport fuel This Header ExportState i s = .ok s1)
    (hslot1 : s1.Exports.get? i = some slot1) (htpl : slot1.TemplateObject ≠ none) :
    ∃ o, slot1.Object = some o ∧
      (s1.heap o).ObjectFlags = Export.ObjectFlags ||| RF_NeedLoad ||| RF_NeedPostLoad |||
        RF_NeedPostLoadSubobjects ||| RF_WasLoaded := by
  unfold CreateExport at hok
  by_cases hname : Header.NameMap.GetName Export.ObjectName = ExportState.TargetObjectName
  · cases hs : s.Exports.get? i with
    | none => simp only [hE, hname, if_true, hs] at hok; cases hok
    | some slot =>
      simp only [hE, hname, if_true, hs] at hok
      exact CreateExport_Wire_flags fuel This Header Export _ i _ s1 slot1 hok hslot1 htpl
  · have hl : ExportState.LoadTargetOnly = false := by
      rcases hrun with h | h
      · exact absurd h hname
      · exact h
    simp only [hE, hname, if_false, hl, Bool.false_eq_true] at hok
    exact CreateExport_Wire_flags fuel This Header Export _ i s s1 slot1 hok hslot1 htpl

/-- Witness for the amended C13: the Create step that substitutes object 1 for export `"A"`
of the one-export header whose template is an imported package. -/
theorem CreateExport_flags_witness :
    ∃ o, (some 1 : UObjectPtr) = some o ∧
      ((((CreateExport 3 0 oneExportHeaderWithTemplate targetIsObject1 0
          stateWithFlaggedTarget).toOption.getD stateWithFlaggedTarget).heap o).ObjectFlags
        = 1 ||| RF_NeedLoad ||| RF_NeedPostLoad ||| RF_NeedPostLoadSubobjects ||| RF_WasLoaded) :=
  CreateExport_flags 3 0 oneExportHeaderWithTemplate targetIsObject1 0 stateWithFlaggedTarget
    ((CreateExport 3 0 oneExportHeaderWithTemplate targetIsObject1 0
      stateWithFlaggedTarget).toOption.getD stateWithFlaggedTarget)
    { ObjectName := ⟨0, 0⟩, OuterIndex := FPackageObjectIndex.Null,
      ClassIndex := FPackageObjectIndex.Null, SuperIndex := FPackageObjectIndex.Null,
      TemplateIndex := FPackageObjectIndex.PackageImport 0 0, ObjectFlags := 1 }
    { Object := some 1, TemplateObject := some 3 } rfl (Or.inl rfl) rfl rfl (by decide)
/-! ## Registration of the outer chain -/

/-- C20 (code evaluated at the failing input): script imports 8 (`"Actor"`) and 9 (`"Pawn"`)
share the outer 7 (`"Engine"`). Resolving 8 makes object 1 for it and object 2 for its outer,
and registers only `"Actor"`; resolving 9 afterwards makes object 3 and, for the same outer,
a second object 4 named `"Engine"`, so the two imports' outers are different handles. -/
theorem IndexToObject_outer_not_registered :
    (IndexToObject 3 EObjectKind.UObject emptyHeader (FPackageObjectIndex.ScriptImport 8)
      sharedOuterState).toOption.map
        (fun r => (r.1, (r.2.heap 1).Outer, (r.2.heap 2).Name,
          r.2.Context.map (fun c => c.ObjectArray)))
      = some (some 1, some 2, "Engine", some [("Actor", some 1)]) ∧
    ((IndexToObject 3 EObjectKind.UObject emptyHeader (FPackageObjectIndex.ScriptImport 8)
      sharedOuterState).toOption.bind
        (fun r1 => (IndexToObject 3 EObjectKind.UObject emptyHeader
          (FPackageObjectIndex.ScriptImport 9) r1.2).toOption)).map
        (fun r => (r.1, (r.2.heap 1).Outer, (r.2.heap 3).Outer, (r.2.heap 2).Name,
          (r.2.heap 4).Name, r.2.Context.map (fun c => c.ObjectArray)))
      = some (some 3, some 2, some 4, "Engine", "Engine",
          some [("Pawn", some 3), ("Actor", some 1)]) := by
  constructor <;> rfl
/-! ## Object reference reads (`operator<<` on `UObjectPtr`) -/

theorem operator_shl_UObjectPtr_Null_eq (fuel : Nat) (Header : FZenPackageHeader)
    (Object : UObjectPtr) (s : LoadState) :
    operator_shl_UObjectPtr fuel Header FPackageIndex.Null Object s
      = .error Fault.NullDereference := by
  rfl

/-- C17 (code evaluated at the failing input): reading an object reference whose decoded
index is Null assigns the empty handle to the destination and then stores the index through
it: a null dereference, not a completed read that yields Empty. This holds for every
destination handle and state, here shown on the sample state. -/
theorem operator_shl_UObjectPtr_Null_faults :
    operator_shl_UObjectPtr 3 oneImportHeader FPackageIndex.Null (some 0) sampleState
      = .error Fault.NullDereference ∧
    operator_shl_UObjectPtr 3 oneImportHeader FPackageIndex.Null (some 0) sampleState
      ≠ .ok (none, sampleState) := by
  refine ⟨rfl, ?_⟩
  intro h
  cases h

/-- Reads with an out-of-range Export or Import index, and reads of an in-range Export whose
slot holds an object. -/
theorem operator_shl_UObjectPtr_bounds_eq (fuel : Nat) (Header : FZenPackageHeader)
    (Object : UObjectPtr) (s : LoadState) (i : Nat) :
    (s.Exports.length ≤ i →
      operator_shl_UObjectPtr fuel Header (FPackageIndex.Export i) Object s
        = .ok (Object, { s with Status := EIoErrorCode.ReadError })) ∧
    (Header.ImportMap.length ≤ i →
      operator_shl_UObjectPtr fuel Header (FPackageIndex.Import i) Object s
        = .ok (Object, { s with Status := EIoErrorCode.ReadError })) ∧
    (∀ slot o, s.Exports.get? i = some slot → slot.Object = some o →
      operator_shl_UObjectPtr fuel Header (FPackageIndex.Export i) Object s
        = .ok (some o,
            s.store o { s.heap o with Index := some (FPackageIndex.Export i) })) := by
  refine ⟨fun h => ?_, fun h => ?_, fun slot o hslot ho => ?_⟩
  · have hn : ¬ i < s.Exports.length := by omega
    simp only [operator_shl_UObjectPtr, FPackageIndex.IsNull, FPackageIndex.IsExport,
      FPackageIndex.ToExport, hn, if_false, if_true, Bool.false_eq_true]
  · have hn : ¬ i < Header.ImportMap.length := by omega
    simp only [operator_shl_UObjectPtr, FPackageIndex.IsNull, FPackageIndex.IsExport,
      FPackageIndex.IsImport, FPackageIndex.ToImport, hn, if_false, Bool.false_eq_true,
      decide_False, Bool.and_false]
  · have hlt : i < s.Exports.length := by
      by_contra hge
      rw [List.get?_eq_getElem?, List.getElem?_eq_none (by omega)] at hslot
      cases hslot
    simp only [operator_shl_UObjectPtr, FPackageIndex.IsNull, FPackageIndex.IsExport,
      FPackageIndex.ToExport, hlt, if_false, if_true, Bool.false_eq_true, hslot, ho,
      setObjectIndex]

/-- C18 (as stated, refuted): slot 0 is in range but holds the empty handle (an empty target
object was substituted into it); reading the reference `Export(0)` copies that handle to the
destination and stores the index through it, a null dereference instead of a completed read
with unchanged status. -/
theorem operator_shl_UObjectPtr_empty_slot :
    emptySlotState.Exports = [{ Object := none, TemplateObject := none }] ∧
    0 < emptySlotState.Exports.length ∧
    operator_shl_UObjectPtr 3 oneImportHeader (FPackageIndex.Export 0) (some 0) emptySlotState
      = .error Fault.NullDereference := by
  refine ⟨by decide, by decide, rfl⟩

/-- C18 (amended): for every object-reference read, if the decoded index is an Export whose
local index is not smaller than the export slot count, or an Import whose index is not
smaller than the import map length, the reader status becomes `ReadError` and the destination
handle is left unchanged; if the index is an in-range Export whose slot holds a non-empty
handle, the status and the slot array are unchanged and the destination becomes the handle
stored in that slot. -/
theorem operator_shl_UObjectPtr_bounds (fuel : Nat) (Header : FZenPackageHeader)
    (Object : UObjectPtr) (s : LoadState) (i : Nat) :
    (s.Exports.length ≤ i →
      ∃ s1, operator_shl_UObjectPtr fuel Header (FPackageIndex.Export i) Object s
          = .ok (Object, s1) ∧
        s1.Status = EIoErrorCode.ReadError ∧ s1.Exports = s.Exports ∧ s1.heap = s.heap) ∧
    (Header.ImportMap.length ≤ i →
      ∃ s1, operator_shl_UObjectPtr fuel Header (FPackageIndex.Import i) Object s
          = .ok (Object, s1) ∧
        s1.Status = EIoErrorCode.ReadError ∧ s1.Exports = s.Exports ∧ s1.heap = s.heap) ∧
    (∀ slot o, s.Exports.get? i = some slot → slot.Object = some o →
      ∃ s1, operator_shl_UObjectPtr fuel Header (FPackageIndex.Export i) Object s
          = .ok (some o, s1) ∧
        s1.Status = s.Status ∧ s1.Exports = s.Exports ∧
        (s1.heap o).Index = some (FPackageIndex.Export i)) := by
  obtain ⟨h1, h2, h3⟩ := operator_shl_UObjectPtr_bounds_eq fuel Header Object s i
  refine ⟨fun h => ⟨_, h1 h, rfl, rfl, rfl⟩, fun h => ⟨_, h2 h, rfl, rfl, rfl⟩,
    fun slot o hslot ho => ⟨_, h3 slot o hslot ho, rfl, rfl, ?_⟩⟩
  simp only [heap_store_same]

/-- Witness for the amended C18 on the sample state: `Export(5)` and `Import(5)` are out of
range, `Export(0)` is in range and slot 0 holds object 0. -/
theorem operator_shl_UObjectPtr_bounds_witness :
    (∃ s1, operator_shl_UObjectPtr 3 oneImportHeader (FPackageIndex.Export 5) (some 0)
        sampleState = .ok (some 0, s1) ∧ s1.Status = EIoErrorCode.ReadError) ∧
    (∃ s1, operator_shl_UObjectPtr 3 oneImportHeader (FPackageIndex.Import 5) (some 0)
        sampleState = .ok (some 0, s1) ∧ s1.Status = EIoErrorCode.ReadError) ∧
    (∃ s1, operator_shl_UObjectPtr 3 oneImportHeader (FPackageIndex.Export 0) none
        sampleState = .ok (some 0, s1) ∧ s1.Status = EIoErrorCode.Ok) :=
  have h5 := operator_shl_UObjectPtr_bounds 3 oneImportHeader (some 0) sampleState 5
  have h0 := operator_shl_UObjectPtr_bounds 3 oneImportHeader none sampleState 0
  ⟨(h5.1 (by decide)).imp fun _ h => ⟨h.1, h.2.1⟩,
   (h5.2.1 (by decide)).imp fun _ h => ⟨h.1, h.2.1⟩,
   (h0.2.2 { Object := some 0 } 0 rfl rfl).imp fun _ h => ⟨h.1, h.2.1⟩⟩
/-! ## Names (`endsWithNumber`, `operator>>` on `FName`) -/

theorem rfind_not_mem (cs : List Char) (c : Char) (h : c ∉ cs) : rfind cs c = none := by
  induction cs with
  | nil => rfl
  | cons x xs ih =>
    have hx : x ≠ c := fun e => h (by rw [e]; exact List.mem_cons_self _ _)
    have hxs : c ∉ xs := fun e => h (List.mem_cons_of_mem _ e)
    simp only [rfind, ih hxs, hx, if_false]

theorem rfind_append_cons (pre d : List Char) (c : Char) (h : c ∉ d) :
    rfind (pre ++ c :: d) c = some pre.length := by
  induction pre with
  | nil => simp only [List.nil_append, rfind, rfind_not_mem d c h, if_true, List.length_nil]
  | cons x pre ih =>
    show rfind (x :: (pre ++ c :: d)) c = some (pre.length + 1)
    simp only [rfind, ih]

theorem rfind_some_split (cs : List Char) (c : Char) :
    ∀ p, rfind cs c = some p → cs = cs.take p ++ c :: cs.drop (p + 1) := by
  induction cs with
  | nil =>
    intro p h
    simp [rfind] at h
  | cons x xs ih =>
    intro p h
    cases hr : rfind xs c with
    | some q =>
      simp only [rfind, hr, Option.some.injEq] at h
      subst h
      have := ih q hr
      simp only [List.take_succ_cons, List.drop_succ_cons, List.cons_append]
      rw [← this]
    | none =>
      by_cases hx : x = c
      · simp only [rfind, hr, hx, if_true, Option.some.injEq] at h
        subst h
        simp [hx]
      · simp [rfind, hr, hx] at h

theorem isdigit_underscore : isdigit '_' = false := by decide

theorem underscore_not_mem_digits (d : List Char) (h : ∀ c ∈ d, isdigit c = true) :
    '_' ∉ d := by
  intro hmem
  have := h _ hmem
  rw [isdigit_underscore] at this
  cases this

theorem all_isdigit_iff (d : List Char) : d.all isdigit = true ↔ ∀ c ∈ d, isdigit c = true := by
  simp [List.all_eq_true]

theorem getLast?_any_of_suffix (pre d : List Char) (hne : d ≠ [])
    (h : ∀ c ∈ d, isdigit c = true) : ((pre ++ '_' :: d).getLast?).any isdigit = true := by
  obtain ⟨init, last, rfl⟩ : ∃ init last, d = init ++ [last] :=
    ⟨d.dropLast, d.getLast hne, (List.dropLast_append_getLast hne).symm⟩
  have hl : (pre ++ '_' :: (init ++ [last])).getLast? = some last := by
    rw [← List.cons_append, ← List.append_assoc, List.getLast?_append]
    rfl
  rw [hl]
  simp only [Option.any_some]
  exact h last (by simp)

/-- When the name has a number suffix, `endsWithNumber` hands its digits to `std::stoi`. -/
theorem endsWithNumber_of_suffix (str : String) (number : Int) (d : List Char)
    (h : HasNumberSuffix str d) :
    endsWithNumber str number
      = match stoi d with
        | .error e => .error e
        | .ok v => .ok (true, v) := by
  obtain ⟨pre, hdata, hne, hdig⟩ := h
  have hnotmem := underscore_not_mem_digits d hdig
  have hlen : 0 < d.length := List.length_pos.mpr hne
  have h1 : (str.data.isEmpty || !(str.data.getLast?.any isdigit)) = false := by
    rw [hdata, getLast?_any_of_suffix pre d hne hdig]
    simp
  have h2 : rfind str.data '_' = some pre.length := by
    rw [hdata]
    exact rfind_append_cons pre d '_' hnotmem
  have h3 : ¬ pre.length = str.data.length - 1 := by
    rw [hdata]
    simp only [List.length_append, List.length_cons]
    omega
  have h4 : str.data.drop (pre.length + 1) = d := by
    rw [hdata]
    simp
  have h5 : (d.isEmpty || !(d.all isdigit)) = false := by
    have : d.all isdigit = true := (all_isdigit_iff d).mpr hdig
    rw [this]
    cases d with
    | nil => exact absurd rfl hne
    | cons a t => rfl
  unfold endsWithNumber
  simp only [h1, h2, h3, h4, h5, if_false, Bool.false_eq_true]

/-- Either `endsWithNumber` returns false and leaves `number` alone, or the name has a number
suffix. -/
theorem endsWithNumber_false_or_suffix (str : String) (number : Int) :
    endsWithNumber str number = .ok (false, number) ∨ ∃ d, HasNumberSuffix str d := by
  unfold endsWithNumber
  by_cases h1 : (str.data.isEmpty || !(str.data.getLast?.any isdigit)) = true
  · left
    simp only [h1, if_true]
  · cases h2 : rfind str.data '_' with
    | none =>
      left
      simp only [h1, h2, if_false, Bool.false_eq_true]
    | some pos =>
      by_cases h3 : pos = str.data.length - 1
      · left
        simp only [h1, h2, h3, if_true, if_false, Bool.false_eq_true]
      · by_cases h5 : ((str.data.drop (pos + 1)).isEmpty
            || !((str.data.drop (pos + 1)).all isdigit)) = true
        · left
          simp only [h1, h2, h3, h5, if_true, if_false, Bool.false_eq_true]
        · right
          simp only [Bool.or_eq_true, Bool.not_eq_true', not_or, Bool.not_eq_true,
            Bool.not_eq_false] at h5
          refine ⟨str.data.drop (pos + 1), str.data.take pos, rfind_some_split _ _ _ h2, ?_,
            (all_isdigit_iff _).mp h5.2⟩
          intro hnil
          rw [hnil] at h5
          simp at h5

theorem stoi_of_le (d : List Char) (h : decimalValue d ≤ 2147483647) :
    stoi d = .ok (decimalValue d : Int) := by
  simp only [stoi, h, if_true]

/-- C16 (as stated, refuted): `"Foo_99999999999"` contains an underscore followed by a
non-empty run of decimal digits, yet `endsWithNumber` does not return true: `std::stoi` raises
`std::out_of_range` because the value exceeds the largest `int`. -/
theorem endsWithNumber_long_run_raises :
    HasNumberSuffix "Foo_99999999999" "99999999999".data ∧
    decimalValue "99999999999".data = 99999999999 ∧
    endsWithNumber "Foo_99999999999" 0 = .error StdException.out_of_range := by
  refine ⟨⟨"Foo".data, rfl, by decide, by decide⟩, by decide, rfl⟩

/-- C16 (amended): for every string `str`, when `str` contains an underscore and the part
after its last underscore is a non-empty run of decimal digits whose decimal value does not
exceed the largest `int` (2147483647), `endsWithNumber` returns true and sets the number to
that value; when `str` has no such part it returns false and leaves the number unchanged; and
it returns true only in the first case. So `"Foo_12"` is recognized with number 12, while
`"Foo"`, `"Foo_"` and `"Foo_12x"` are not recognized. -/
theorem endsWithNumber_recognizes (str : String) (number : Int) :
    (∀ d, HasNumberSuffix str d → decimalValue d ≤ 2147483647 →
      endsWithNumber str number = .ok (true, (decimalValue d : Int))) ∧
    ((∀ d, ¬ HasNumberSuffix str d) → endsWithNumber str number = .ok (false, number)) ∧
    (∀ v, endsWithNumber str number = .ok (true, v) →
      ∃ d, HasNumberSuffix str d ∧ v = (decimalValue d : Int)) ∧
    endsWithNumber "Foo_12" number = .ok (true, 12) ∧
    endsWithNumber "Foo" number = .ok (false, number) ∧
    endsWithNumber "Foo_" number = .ok (false, number) ∧
    endsWithNumber "Foo_12x" number = .ok (false, number) := by
  refine ⟨fun d hd hle => ?_, fun hno => ?_, fun v hv => ?_, rfl, rfl, rfl, rfl⟩
  · rw [endsWithNumber_of_suffix str number d hd, stoi_of_le d hle]
  · rcases endsWithNumber_false_or_suffix str number with h | ⟨d, hd⟩
    · exact h
    · exact absurd hd (hno d)
  · rcases endsWithNumber_false_or_suffix str number with h | ⟨d, hd⟩
    · rw [h] at hv
      simp at hv
    · refine ⟨d, hd, ?_⟩
      rw [endsWithNumber_of_suffix str number d hd] at hv
      unfold stoi at hv
      by_cases hle : decimalValue d ≤ 2147483647
      · simp only [hle, if_true, Except.ok.injEq, Prod.mk.injEq, true_and] at hv
        exact hv.symm
      · simp only [hle, if_false] at hv
        cases hv

theorem endsWithNumber_recognizes_witness :
    HasNumberSuffix "Foo_12" "12".data ∧ decimalValue "12".data ≤ 2147483647 ∧
    endsWithNumber "Foo_12" 7 = .ok (true, (decimalValue "12".data : Int)) :=
  ⟨⟨"Foo".data, rfl, by decide, by decide⟩, by decide,
    (endsWithNumber_recognizes "Foo_12" 7).1 "12".data ⟨"Foo".data, rfl, by decide, by decide⟩
      (by decide)⟩

theorem scanNameMap_eq (entries : List String) (Name : String) :
    ∀ k, scanNameMap entries Name k = k + (entries.map narrow).indexOf Name := by
  induction entries with
  | nil =>
    intro k
    simp [scanNameMap]
  | cons name rest ih =>
    intro k
    by_cases h : narrow name = Name
    · simp [scanNameMap, h]
    · simp only [scanNameMap, h, if_false, ih, List.map_cons, List.indexOf_cons_ne _ h]
      omega

theorem getD_indexOf (entries : List String) (Name : String) (h : Name ∈ entries) :
    entries.getD (entries.indexOf Name) "" = Name := by
  induction entries with
  | nil => cases h
  | cons name rest ih =>
    by_cases hn : name = Name
    · subst hn
      simp
    · have h2 : Name ≠ name := fun e => hn e.symm
      have hmem : Name ∈ rest := by
        rcases List.mem_cons.mp h with h1 | h1
        · exact absurd h1 h2
        · exact h1
      rw [List.indexOf_cons_ne _ hn]
      simpa using ih hmem

theorem narrow_getD (entries : List String) (i : Nat) :
    narrow (entries.getD i "") = (entries.map narrow).getD i "" := by
  induction entries generalizing i with
  | nil => rfl
  | cons name rest ih =>
    cases i with
    | zero => rfl
    | succ n => simpa using ih n

/-- C19 (as stated, refuted): for the name `"Foo_99999999999"`, even when the table holds it,
the reverse lookup writes no pair at all: `endsWithNumber` raises `std::out_of_range`. And for
the table whose only entry is the wide character U+0141 and the name `"A"`, no entry equals
the name, yet the index written is 0, not the table length 1: line 428 narrows the entry to
`char` (0x141 becomes 0x41, the letter A) before comparing. -/
theorem operator_shr_FName_long_run_raises :
    operator_shr_FName ⟨["Foo_99999999999"]⟩ "Foo_99999999999"
      = .error StdException.out_of_range ∧
    "A" ∉ [String.mk [Char.ofNat 321]] ∧
    ([String.mk [Char.ofNat 321]] : List String).indexOf "A" = 1 ∧
    operator_shr_FName ⟨[String.mk [Char.ofNat 321]]⟩ "A" = .ok (0, 0) := by
  refine ⟨rfl, by decide, by decide, rfl⟩

/-- C19 (amended): for every name table and every name, the reverse lookup writes the pair
`(index, number)` where `index` is the position of the first table entry whose narrowing to
`char` equals the name's full string (the table length when no entry matches) and `number` is
0 when the name has no trailing `_<digits>` suffix and `n - 1` when it has one whose value
`n` does not exceed the largest `int`; for a name without such a suffix that equals the
narrowing of a table entry, the pair `(index, 0)` reads back as that name. -/
theorem operator_shr_FName_pair (NameMap : FNameMap) (Name : String) :
    ((∀ d, ¬ HasNumberSuffix Name d) →
      operator_shr_FName NameMap Name
        = .ok (((NameMap.NameEntries.map narrow).indexOf Name : Int), 0)) ∧
    (∀ d, HasNumberSuffix Name d → decimalValue d ≤ 2147483647 →
      operator_shr_FName NameMap Name
        = .ok (((NameMap.NameEntries.map narrow).indexOf Name : Int),
            (decimalValue d : Int) - 1)) ∧
    ((∀ d, ¬ HasNumberSuffix Name d) → Name ∈ NameMap.NameEntries.map narrow →
      operator_shl_FName NameMap ((NameMap.NameEntries.map narrow).indexOf Name) 0 = Name) := by
  refine ⟨fun hno => ?_, fun d hd hle => ?_, fun _ hmem => ?_⟩
  · have h : endsWithNumber Name 0 = .ok (false, 0) := by
      rcases endsWithNumber_false_or_suffix Name 0 with h | ⟨d, hd⟩
      · exact h
      · exact absurd hd (hno d)
    simp only [operator_shr_FName, h, scanNameMap_eq, Nat.zero_add, Bool.false_eq_true,
      if_false]
  · have h : endsWithNumber Name 0 = .ok (true, (decimalValue d : Int)) := by
      rw [endsWithNumber_of_suffix Name 0 d hd, stoi_of_le d hle]
    simp only [operator_shr_FName, h, scanNameMap_eq, Nat.zero_add, if_true]
  · simp only [operator_shl_FName, FNameMap.GetName]
    rw [narrow_getD]
    exact getD_indexOf _ _ hmem

/-- Witness for the amended C19: the table holds `"Bar"` and the wide entry U+0146 `o o _ 1 2`
(its first character narrows to `F`); the name `"Foo_12"` is found at index 1 with number 11,
and the name `"Bar"` reads back from the pair `(0, 0)`. -/
theorem operator_shr_FName_pair_witness :
    HasNumberSuffix "Foo_12" "12".data ∧ decimalValue "12".data ≤ 2147483647 ∧
    operator_shr_FName ⟨["Bar", String.mk (Char.ofNat 326 :: "oo_12".data)]⟩ "Foo_12"
      = .ok (((["Bar", String.mk (Char.ofNat 326 :: "oo_12".data)].map narrow).indexOf
          "Foo_12" : Int), (decimalValue "12".data : Int) - 1) ∧
    operator_shr_FName ⟨["Bar", String.mk (Char.ofNat 326 :: "oo_12".data)]⟩ "Foo_12"
      = .ok (1, 11) ∧
    operator_shl_FName ⟨["Bar", String.mk (Char.ofNat 326 :: "oo_12".data)]⟩ 0 0 = "Bar" :=
  ⟨⟨"Foo".data, rfl, by decide, by decide⟩, by decide,
    (operator_shr_FName_pair ⟨["Bar", String.mk (Char.ofNat 326 :: "oo_12".data)]⟩
      "Foo_12").2.1 "12".data ⟨"Foo".data, rfl, by decide, by decide⟩ (by decide),
    rfl, rfl⟩
/-! ## The property decoder (`LoadProperties`) -/

theorem any_id_false (bits : List Bool) (h : bits.any id = false) : ∀ b ∈ bits, b = false := by
  intro b hb
  cases b with
  | false => rfl
  | true =>
    have : bits.any id = true := List.any_eq_true.mpr ⟨true, hb, rfl⟩
    rw [h] at this
    cases this

/-- A header that reports no value makes the iterator visit nothing. -/
theorem FUnversionedIterator_of_no_values (header : FUnversionedHeader)
    (Schema : List FProperty) (h : header.HasValues = false) :
    FUnversionedIterator header Schema = [] := by
  unfold FUnversionedIterator
  rw [List.map_eq_nil_iff, List.filter_eq_nil_iff]
  intro x hx
  have h1 : x.2 ∈ header.HasValue.zip header.NonZero := (List.of_mem_zip (a := x.1) (b := x.2) hx).2
  have h2 : x.2.1 ∈ header.HasValue := (List.of_mem_zip (a := x.2.1) (b := x.2.2) h1).1
  rw [any_id_false _ h _ h2]
  simp

/-- A header that flags no slot as non-zero leaves no slot to decode. -/
theorem nonZeroSlots_of_no_nonzero (header : FUnversionedHeader) (Schema : List FProperty)
    (h : header.HasNonZeroValues = false) : nonZeroSlots header Schema = [] := by
  unfold nonZeroSlots FUnversionedIterator
  rw [List.map_eq_nil_iff, List.filter_eq_nil_iff]
  intro y hy
  rw [List.mem_map] at hy
  obtain ⟨x, hx, rfl⟩ := hy
  have hx1 := (List.mem_filter.mp hx).1
  have h1 : x.2 ∈ header.HasValue.zip header.NonZero := (List.of_mem_zip (a := x.1) (b := x.2) hx1).2
  have h2 : x.2.2 ∈ header.NonZero := (List.of_mem_zip (a := x.2.1) (b := x.2.2) h1).2
  rw [any_id_false _ h _ h2]
  simp

/-- The loop of `LoadProperties` on a non-empty object handle: it invokes the decoder of
exactly the visited slots whose non-zero bit is set, in order, and appends the non-empty
results to the property list of the object; no other object changes. -/
theorem LoadProperties_loop_eq {ρ : Type} (C : FPropertyCodec ρ) (o : Nat) :
    ∀ (vis : List (FProperty × Bool)) (Ar : ρ) (heap : Nat → UObject) (calls : List FProperty),
      ∃ heap1, LoadProperties_loop C (some o) vis Ar heap calls
          = .ok ((decodeAll C ((vis.filter (fun x => x.2)).map (fun x => x.1)) Ar).2, heap1,
              calls ++ (vis.filter (fun x => x.2)).map (fun x => x.1)) ∧
        (heap1 o).PropertyValues = (heap o).PropertyValues
          ++ storedEntries (decodeAll C ((vis.filter (fun x => x.2)).map (fun x => x.1)) Ar).1 ∧
        (∀ a, a ≠ o → heap1 a = heap a) := by
  intro vis
  induction vis with
  | nil =>
    intro Ar heap calls
    exact ⟨heap, by simp [LoadProperties_loop, decodeAll], by simp [decodeAll, storedEntries],
      fun _ _ => rfl⟩
  | cons x rest ih =>
    intro Ar heap calls
    obtain ⟨Property, IsNonZero⟩ := x
    cases IsNonZero with
    | false =>
      obtain ⟨heap1, h1, h2, h3⟩ := ih Ar heap calls
      refine ⟨heap1, ?_, ?_, h3⟩
      · simp only [LoadProperties_loop, Bool.not_false, if_true, h1, List.filter_cons,
          Bool.false_eq_true, if_false]
      · simpa only [List.filter_cons, Bool.false_eq_true, if_false] using h2
    | true =>
      cases hv : (C.Serialize Property Ar).1 with
      | none =>
        obtain ⟨heap1, h1, h2, h3⟩ := ih (C.Serialize Property Ar).2 heap (calls ++ [Property])
        refine ⟨heap1, ?_, ?_, h3⟩
        · simp only [LoadProperties_loop, Bool.not_true, Bool.false_eq_true, if_false, hv, h1,
            List.filter_cons, if_true, List.map_cons, decodeAll, List.append_assoc,
            List.singleton_append]
        · simp only [List.filter_cons, if_true, List.map_cons, decodeAll, storedEntries,
            List.filterMap_cons, hv, Option.map_none']
          exact h2
      | some Value =>
        obtain ⟨heap1, h1, h2, h3⟩ := ih (C.Serialize Property Ar).2
          (Function.update heap o
            { heap o with PropertyValues := (heap o).PropertyValues ++ [(Property.Name, Value)] })
          (calls ++ [Property])
        refine ⟨heap1, ?_, ?_, ?_⟩
        · simp only [LoadProperties_loop, Bool.not_true, Bool.false_eq_true, if_false, hv, h1,
            List.filter_cons, if_true, List.map_cons, decodeAll, List.append_assoc,
            List.singleton_append]
        · rw [h2]
          simp only [Function.update_same, List.filter_cons, if_true, List.map_cons, decodeAll,
            storedEntries, List.filterMap_cons, hv, Option.map_some', List.append_assoc,
            List.singleton_append]
        · intro a ha
          rw [h3 a ha, Function.update_noteq ha]

/-- No slot is left to decode when the header reports no value or no non-zero value. -/
theorem nonZeroSlots_of_early_exit (header : FUnversionedHeader) (Schema : List FProperty)
    (h : header.HasValues = false ∨ header.HasNonZeroValues = false) :
    nonZeroSlots header Schema = [] := by
  cases h with
  | inl h =>
    unfold nonZeroSlots
    rw [FUnversionedIterator_of_no_values header Schema h]
    rfl
  | inr h => exact nonZeroSlots_of_no_nonzero header Schema h

/-- C14: for every schema, every object handle and every unversioned header that parsed
successfully and reports no values or no non-zero values, `LoadProperties` returns with the
reader where the header parse left it, with every object (so every property list) unchanged,
and with an empty log of decoder calls. -/
theorem LoadProperties_no_values {ρ : Type} (C : FPropertyCodec ρ) (Schema : List FProperty)
    (Object : UObjectPtr) (Ar : ρ) (heap : Nat → UObject)
    (hok : (C.Load Ar).1 = EIoErrorCode.Ok)
    (h : (C.Load Ar).2.1.HasValues = false ∨ (C.Load Ar).2.1.HasNonZeroValues = false) :
    LoadProperties C Schema Object Ar heap = .ok ((C.Load Ar).2.2, heap, []) := by
  unfold LoadProperties
  rw [if_neg (not_not.mpr hok)]
  cases h with
  | inl h => rw [h]; simp
  | inr h => rw [h]; simp

theorem LoadProperties_no_values_witness :
    (((sampleProperties allZeroHeader).Load 10).1 = EIoErrorCode.Ok ∧
      (((sampleProperties allZeroHeader).Load 10).2.1.HasValues = false ∨
        ((sampleProperties allZeroHeader).Load 10).2.1.HasNonZeroValues = false)) ∧
    LoadProperties (sampleProperties allZeroHeader) sampleSchema (some 0) 10 (fun _ => {})
      = .ok (((sampleProperties allZeroHeader).Load 10).2.2, (fun _ => {}), []) :=
  ⟨⟨by decide, Or.inr (by decide)⟩,
    LoadProperties_no_values (sampleProperties allZeroHeader) sampleSchema (some 0) 10
      (fun _ => {}) (by decide) (Or.inr (by decide))⟩

/-- C15: for every schema and every successfully parsed unversioned header, `LoadProperties`
on an object invokes the decoder of exactly the slots visited by the iterator whose non-zero
bit is set, in schema declaration order (so a slot with the bit unset triggers no call), and
appends to the property list of the object exactly the non-empty decoded results, in that
order, each keyed by the name of its property; no other object changes. -/
theorem LoadProperties_appends {ρ : Type} (C : FPropertyCodec ρ) (Schema : List FProperty)
    (o : Nat) (Ar : ρ) (heap : Nat → UObject)
    (hok : (C.Load Ar).1 = EIoErrorCode.Ok) :
    ∃ heap1, LoadProperties C Schema (some o) Ar heap
        = .ok ((decodeAll C (nonZeroSlots (C.Load Ar).2.1 Schema) (C.Load Ar).2.2).2, heap1,
            nonZeroSlots (C.Load Ar).2.1 Schema) ∧
      (heap1 o).PropertyValues = (heap o).PropertyValues
        ++ storedEntries (decodeAll C (nonZeroSlots (C.Load Ar).2.1 Schema) (C.Load Ar).2.2).1 ∧
      (∀ a, a ≠ o → heap1 a = heap a) := by
  by_cases hexit : (C.Load Ar).2.1.HasValues = false ∨ (C.Load Ar).2.1.HasNonZeroValues = false
  · refine ⟨heap, ?_, ?_, fun _ _ => rfl⟩
    · rw [nonZeroSlots_of_early_exit _ Schema hexit]
      unfold LoadProperties
      rw [if_neg (not_not.mpr hok)]
      cases hexit with
      | inl h => rw [h]; simp [decodeAll]
      | inr h => rw [h]; simp [decodeAll]
    · rw [nonZeroSlots_of_early_exit _ Schema hexit]
      simp [decodeAll, storedEntries]
  · have hv : (C.Load Ar).2.1.HasValues = true := by
      cases hx : (C.Load Ar).2.1.HasValues with
      | true => rfl
      | false => exact absurd (Or.inl hx) hexit
    have hz : (C.Load Ar).2.1.HasNonZeroValues = true := by
      cases hx : (C.Load Ar).2.1.HasNonZeroValues with
      | true => rfl
      | false => exact absurd (Or.inr hx) hexit
    obtain ⟨heap1, h1, h2, h3⟩ := LoadProperties_loop_eq C o
      (FUnversionedIterator (C.Load Ar).2.1 Schema) (C.Load Ar).2.2 heap []
    refine ⟨heap1, ?_, h2, h3⟩
    unfold LoadProperties
    rw [if_neg (not_not.mpr hok), hv, hz]
    simpa [nonZeroSlots] using h1

theorem LoadProperties_appends_witness :
    ((sampleProperties mixedHeader).Load 10).1 = EIoErrorCode.Ok ∧
    ∃ heap1, LoadProperties (sampleProperties mixedHeader) sampleSchema (some 0) 10
        (fun _ => {})
        = .ok ((decodeAll (sampleProperties mixedHeader)
              (nonZeroSlots ((sampleProperties mixedHeader).Load 10).2.1 sampleSchema)
              ((sampleProperties mixedHeader).Load 10).2.2).2, heap1,
            nonZeroSlots ((sampleProperties mixedHeader).Load 10).2.1 sampleSchema) ∧
      (heap1 0).PropertyValues = ((fun _ => {}) 0 : UObject).PropertyValues
        ++ storedEntries (decodeAll (sampleProperties mixedHeader)
              (nonZeroSlots ((sampleProperties mixedHeader).Load 10).2.1 sampleSchema)
              ((sampleProperties mixedHeader).Load 10).2.2).1 ∧
      (∀ a, a ≠ 0 → heap1 a = (fun _ => {}) a) :=
  ⟨by decide, LoadProperties_appends (sampleProperties mixedHeader) sampleSchema 0 10
    (fun _ => {}) (by decide)⟩

/-! ## Totality of the suffix recognizer -/

/-- C25 (code evaluated at the failing input): on `"Foo_99999999999"`, whose trailing digit
run denotes a value larger than the largest `int`, `endsWithNumber` returns no boolean at
all, whatever the number argument holds: `std::stoi` raises `std::out_of_range`, and the
reverse lookup `operator>>` that calls it raises with it. On the strings where it does
return false the number argument is left unchanged. -/
theorem endsWithNumber_raises_on_overflow :
    (∀ number : Int,
      endsWithNumber "Foo_99999999999" number = .error StdException.out_of_range ∧
      ∀ (b : Bool) (v : Int), endsWithNumber "Foo_99999999999" number ≠ .ok (b, v)) ∧
    (∀ NameMap : FNameMap,
      operator_shr_FName NameMap "Foo_99999999999" = .error StdException.out_of_range) ∧
    (∀ (str : String) (number v : Int),
      endsWithNumber str number = .ok (false, v) → v = number) := by
  refine ⟨fun number => ⟨rfl, fun b v h => ?_⟩, fun NameMap => rfl, fun str number v h => ?_⟩
  · have h1 : endsWithNumber "Foo_99999999999" number = .error StdException.out_of_range := rfl
    rw [h1] at h
    cases h
  · rcases endsWithNumber_false_or_suffix str number with h1 | ⟨d, hd⟩
    · rw [h1] at h
      simp only [Except.ok.injEq, Prod.mk.injEq, true_and] at h
      exact h.symm
    · rw [endsWithNumber_of_suffix str number d hd] at h
      unfold stoi at h
      by_cases hle : decimalValue d ≤ 2147483647
      · simp only [hle, if_true, Except.ok.injEq, Prod.mk.injEq] at h
        exact absurd h.1 (by decide)
      · simp only [hle, if_false] at h
        cases h

/-! ## The re-encoder consumes its argument -/

theorem SerializeAsByteArray_some_length (L : FZenPackageSummaryLayout) (K : FNameMapCodec)
    (NameMap : FNameMap) (Original : List Byte) (r : List Byte × List Byte)
    (h : SerializeAsByteArray L K NameMap Original = some r) :
    L.sizeofSummary + (K.SaveToBuffer (K.Load Original)).length ≤ Original.length := by
  unfold SerializeAsByteArray at h
  by_cases h1 : Original.length < L.sizeofSummary
  · simp only [h1, if_true] at h
    cases h
  · by_cases h2 : Original.length < L.sizeofSummary + (K.SaveToBuffer (K.Load Original)).length
    · simp only [h1, h2, if_true, if_false] at h
      cases h
    · omega

theorem length_SerializeAsByteArray (L : FZenPackageSummaryLayout) (K : FNameMapCodec)
    (NameMap : FNameMap) (Original : List Byte) (r : List Byte × List Byte) (hL : L.WellFormed)
    (h : SerializeAsByteArray L K NameMap Original = some r) :
    r.2 = Original.drop (L.sizeofSummary + (K.SaveToBuffer (K.Load Original)).length) ∧
    r.1.length + (K.SaveToBuffer (K.Load Original)).length
      = Original.length + (K.SaveToBuffer NameMap).length := by
  have hlen := SerializeAsByteArray_some_length L K NameMap Original r h
  rw [SerializeAsByteArray_eq L K NameMap Original hL hlen] at h
  have htake : (Original.take L.sizeofSummary).length = L.sizeofSummary := by
    rw [List.length_take]; omega
  have hs := length_patchSummary L (Original.take L.sizeofSummary)
    (GetNameMapByteDifference K (K.Load Original) NameMap) hL (by omega)
  cases h
  refine ⟨rfl, ?_⟩
  simp only [List.length_append, hs, htake, List.length_drop]
  omega

/-- C23: for a struct layout of the summary and an image that holds the summary and its own
name table, `SerializeAsByteArray` returns and leaves in the caller's vector only the bytes
that followed the original name table: the first `sizeof(summary) + encoded_length(original
name table)` bytes are erased, so the vector no longer holds the original image; and a second
call with that vector, whenever it returns, returns a shorter buffer, not the first result. -/
theorem SerializeAsByteArray_erases_Original (L : FZenPackageSummaryLayout)
    (K : FNameMapCodec) (NameMap : FNameMap) (Original : List Byte) (hL : L.WellFormed)
    (hlen : L.sizeofSummary + (K.SaveToBuffer (K.Load Original)).length ≤ Original.length) :
    ∃ buffer rest, SerializeAsByteArray L K NameMap Original = some (buffer, rest) ∧
      rest = Original.drop (L.sizeofSummary + (K.SaveToBuffer (K.Load Original)).length) ∧
      rest.length + (L.sizeofSummary + (K.SaveToBuffer (K.Load Original)).length)
        = Original.length ∧
      rest ≠ Original ∧
      ∀ buffer2 rest2, SerializeAsByteArray L K NameMap rest = some (buffer2, rest2) →
        buffer2.length < buffer.length ∧ buffer2 ≠ buffer := by
  have hS : 4 ≤ L.sizeofSummary := by
    have := hL.1 L.HeaderSize (by simp [FZenPackageSummaryLayout.patchedFields])
    omega
  have h1 := SerializeAsByteArray_eq L K NameMap Original hL hlen
  refine ⟨_, _, h1, rfl, ?_, ?_, ?_⟩
  · rw [List.length_drop]
    omega
  · intro heq
    have := congrArg List.length heq
    rw [List.length_drop] at this
    omega
  · intro buffer2 rest2 h2
    have hl1 := (length_SerializeAsByteArray L K NameMap Original _ hL h1).2
    have hl2 := (length_SerializeAsByteArray L K NameMap _ _ hL h2).2
    have hlen2 := SerializeAsByteArray_some_length L K NameMap _ _ h2
    simp only at hl1 hl2
    rw [List.length_drop] at hl2 hlen2
    have hlt : buffer2.length
        < (patchSummary L (Original.take L.sizeofSummary)
            (GetNameMapByteDifference K (K.Load Original) NameMap)
          ++ K.SaveToBuffer NameMap
          ++ Original.drop (L.sizeofSummary + (K.SaveToBuffer (K.Load Original)).length)).length := by
      omega
    refine ⟨hlt, fun heq => ?_⟩
    rw [heq] at hlt
    exact Nat.lt_irrefl _ hlt

/-- Witness for C23: on the sample image followed by itself both calls return; the first
leaves the sample image in the vector, and the second result is shorter than the first. -/
theorem SerializeAsByteArray_erases_Original_witness :
    (SerializeAsByteArray sampleLayout sampleCodec ⟨["Ab", "Cde"]⟩ doubleImage).map Prod.snd
      = some sampleImage ∧
    (SerializeAsByteArray sampleLayout sampleCodec ⟨["Ab", "Cde"]⟩ sampleImage).isSome = true ∧
    ∃ buffer rest,
      SerializeAsByteArray sampleLayout sampleCodec ⟨["Ab", "Cde"]⟩ doubleImage
        = some (buffer, rest) ∧
      rest = doubleImage.drop
        (sampleLayout.sizeofSummary
          + (sampleCodec.SaveToBuffer (sampleCodec.Load doubleImage)).length) ∧
      rest.length + (sampleLayout.sizeofSummary
          + (sampleCodec.SaveToBuffer (sampleCodec.Load doubleImage)).length)
        = doubleImage.length ∧
      rest ≠ doubleImage ∧
      ∀ buffer2 rest2,
        SerializeAsByteArray sampleLayout sampleCodec ⟨["Ab", "Cde"]⟩ rest
          = some (buffer2, rest2) →
        buffer2.length < buffer.length ∧ buffer2 ≠ buffer :=
  ⟨by decide, by decide,
    SerializeAsByteArray_erases_Original sampleLayout sampleCodec ⟨["Ab", "Cde"]⟩ doubleImage
      (by decide) (by decide)⟩

/-! ## The package's export list after `ProcessExports` -/

theorem CreateExport_Class_PackageExports (fuel : Nat) (Header : FZenPackageHeader)
    (Export : FExportMapEntry) (o : Nat) (s s1 : LoadState)
    (h : CreateExport_Class fuel Header Export o s = .ok s1) :
    s1.PackageExports = s.PackageExports := by
  unfold CreateExport_Class at h
  by_cases hc : (s.heap o).Class.isNone = true
  · cases hr : IndexToObject fuel EObjectKind.UClass Header Export.ClassIndex s with
    | error err => simp only [hc, if_true, hr] at h; cases h
    | ok res =>
      obtain ⟨c, s2⟩ := res
      simp only [hc, if_true, hr] at h
      cases h
      exact (IndexToObject_ok_frame _ _ _ _ _ _ _ hr).2.2.1
  · simp only [hc, if_false, Bool.false_eq_true] at h
    cases h
    rfl

theorem CreateExport_Outer_PackageExports (fuel : Nat) (This : Nat) (Header : FZenPackageHeader)
    (Export : FExportMapEntry) (o : Nat) (s s1 : LoadState)
    (h : CreateExport_Outer fuel This Header Export o s = .ok s1) :
    s1.PackageExports = s.PackageExports := by
  unfold CreateExport_Outer at h
  by_cases hc : (s.heap o).Outer.isNone = true
  · by_cases hn : Export.OuterIndex.IsNull = true
    · simp only [hc, hn, if_true] at h
      cases h
      rfl
    · cases hr : IndexToObject fuel EObjectKind.UObject Header Export.OuterIndex s with
      | error err => simp only [hc, hn, if_true, if_false, Bool.false_eq_true, hr] at h; cases h
      | ok res =>
        obtain ⟨c, s2⟩ := res
        simp only [hc, hn, if_true, if_false, Bool.false_eq_true, hr] at h
        cases h
        exact (IndexToObject_ok_frame _ _ _ _ _ _ _ hr).2.2.1
  · simp only [hc, if_false, Bool.false_eq_true] at h
    cases h
    rfl

theorem CreateExport_Super_PackageExports (fuel : Nat) (Header : FZenPackageHeader)
    (Export : FExportMapEntry) (o : Nat) (s s1 : LoadState)
    (h : CreateExport_Super fuel Header Export o s = .ok s1) :
    s1.PackageExports = s.PackageExports := by
  unfold CreateExport_Super at h
  cases ha : As EObjectKind.UStruct s (some o) with
  | none =>
    simp only [ha] at h
    cases h
    rfl
  | some Struct =>
    by_cases hc : (s.heap Struct).Super.isNone = true
    · cases hr : IndexToObject fuel EObjectKind.UStruct Header Export.SuperIndex s with
      | error err => simp only [ha, hc, if_true, hr] at h; cases h
      | ok res =>
        obtain ⟨c, s2⟩ := res
        simp only [ha, hc, if_true, hr] at h
        cases h
        exact (IndexToObject_ok_frame _ _ _ _ _ _ _ hr).2.2.1
    · simp only [ha, hc, if_false, Bool.false_eq_true] at h
      cases h
      rfl

/-- Whenever the wiring part of `CreateExport` returns, the package's export list is as
before. -/
theorem CreateExport_Wire_PackageExports (fuel : Nat) (This : Nat) (Header : FZenPackageHeader)
    (Export : FExportMapEntry) (ObjectName : String) (i : Nat) (s s1 : LoadState)
    (h : CreateExport_Wire fuel This Header Export ObjectName i s = .ok s1) :
    s1.PackageExports = s.PackageExports := by
  unfold CreateExport_Wire at h
  cases hg0 : s.Exports.get? i with
  | none => simp only [hg0] at h; cases h
  | some slot0 =>
  simp only [hg0] at h
  cases hr : IndexToObject fuel EObjectKind.UObject Header Export.TemplateIndex s with
  | error err => simp only [hr] at h; cases h
  | ok res =>
    obtain ⟨TemplateObject, s2⟩ := res
    have hE := (IndexToObject_ok_frame _ _ _ _ _ _ _ hr).2.2.1
    cases hg : s2.Exports.get? i with
    | none => simp only [hr, hg] at h; cases h
    | some slot =>
      by_cases ht : TemplateObject.isNone = true
      · simp only [hr, hg, ht, if_true] at h
        cases h
        exact hE
      · cases ho : slot.Object with
        | none => simp only [hr, hg, ht, if_false, Bool.false_eq_true, ho] at h; cases h
        | some o =>
          simp only [hr, hg, ht, if_false, Bool.false_eq_true, ho] at h
          revert h
          generalize hs3 : LoadState.store _ o _ = s3
          intro h
          have h3 : s3.PackageExports = s.PackageExports := by
            rw [← hs3]
            exact hE
          cases hc : CreateExport_Class fuel Header Export o s3 with
          | error err => simp only [hc] at h; cases h
          | ok s4 =>
            cases hou : CreateExport_Outer fuel This Header Export o s4 with
            | error err => simp only [hc, hou] at h; cases h
            | ok s5 =>
              cases hsu : CreateExport_Super fuel Header Export o s5 with
              | error err => simp only [hc, hou, hsu] at h; cases h
              | ok s6 =>
                simp only [hc, hou, hsu] at h
                cases h
                show s6.PackageExports = s.PackageExports
                rw [CreateExport_Super_PackageExports _ _ _ _ _ _ hsu,
                  CreateExport_Outer_PackageExports _ _ _ _ _ _ _ hou,
                  CreateExport_Class_PackageExports _ _ _ _ _ _ hc]
                exact h3

/-- Whenever `CreateExport` returns, the package's export list is as before, and the object
handles held by the slots are the ones held before, except that the slot of an export
carrying the target name holds the caller's target object. -/
theorem CreateExport_objects (fuel : Nat) (This : Nat) (Header : FZenPackageHeader)
    (ExportState : FExportState) (i : Nat) (s s1 : LoadState)
    (h : CreateExport fuel This Header ExportState i s = .ok s1) :
    s1.PackageExports = s.PackageExports ∧
    s1.Exports.map (fun x => x.Object)
      = if carriesTargetName Header ExportState i
          then (s.Exports.map (fun x => x.Object)).set i ExportState.TargetObject
          else s.Exports.map (fun x => x.Object) := by
  unfold CreateExport at h
  cases hg : Header.ExportMap.get? i with
  | none => simp only [hg] at h; cases h
  | some Export =>
    by_cases hname : Header.NameMap.GetName Export.ObjectName = ExportState.TargetObjectName
    · have hct : carriesTargetName Header ExportState i = true := by
        simp only [carriesTargetName, hg, Option.any_some, hname, decide_True]
      cases hs : s.Exports.get? i with
      | none => simp only [hg, hname, if_true, hs] at h; cases h
      | some slot =>
        simp only [hg, hname, if_true, hs] at h
        have hw := CreateExport_Wire_PackageExports _ _ _ _ _ _ _ _ h
        refine ⟨hw, ?_⟩
        rw [CreateExport_Wire_ok _ _ _ _ _ _ _ _ h, hct, if_pos rfl]
        simp only [List.map_set]
    · have hct : carriesTargetName Header ExportState i = false := by
        simp only [carriesTargetName, hg, Option.any_some, hname, decide_False]
      rw [hct]
      by_cases hl : ExportState.LoadTargetOnly = true
      · simp only [hg, hname, if_false, hl, if_true] at h
        cases h
        exact ⟨rfl, by simp⟩
      · simp only [hg, hname, if_false, hl, Bool.false_eq_true] at h
        have hw := CreateExport_Wire_PackageExports _ _ _ _ _ _ _ _ h
        exact ⟨hw, by simpa using CreateExport_Wire_ok _ _ _ _ _ _ _ _ h⟩

/-- Whenever `TrySerializeExport` returns, the package's export list is as before and the
returned value is the handle held by the slot, or nothing when the step is skipped. -/
theorem TrySerializeExport_result (Serialize : SerializeFn) (Header : FZenPackageHeader)
    (ExportState : FExportState) (i : Nat) (s s1 : LoadState) (r : Option UObjectPtr)
    (h : TrySerializeExport Serialize Header ExportState i s = .ok (r, s1)) :
    s1.PackageExports = s.PackageExports ∧
    ∃ slot, s.Exports.get? i = some slot ∧
      r = if ExportState.LoadTargetOnly && slot.Object != ExportState.TargetObject then none
          else some slot.Object := by
  unfold TrySerializeExport at h
  cases hg : Header.ExportMap.get? i with
  | none => simp only [hg] at h; cases h
  | some Export =>
    cases hs : s.Exports.get? i with
    | none => simp only [hg, hs] at h; cases h
    | some slot =>
      by_cases hc : (ExportState.LoadTargetOnly && slot.Object != ExportState.TargetObject) = true
      · simp only [hg, hs, hc, if_true] at h
        cases h
        exact ⟨rfl, slot, rfl, by simp only [hc, if_true]⟩
      · simp only [hg, hs, hc, if_false, Bool.false_eq_true] at h
        cases ho : slot.Object with
        | none =>
          simp only [ho] at h
          cases h
        | some o =>
          simp only [ho] at h
          cases hser : Serialize o (s.store o ((s.heap o).ClearFlags RF_NeedLoad)).memory with
          | error err => simp only [hser] at h; cases h
          | ok m =>
            simp only [hser] at h
            cases h
            refine ⟨rfl, slot, rfl, ?_⟩
            rw [if_neg hc, ho]

theorem allocateShells_PackageExports :
    ∀ (Exports : List FExportObject) (s : LoadState),
      (allocateShells Exports s).2.PackageExports = s.PackageExports := by
  intro Exports
  induction Exports with
  | nil => intro s; rfl
  | cons slot rest ih =>
    intro s
    by_cases h : slot.Object.isNone = true
    · simp only [allocateShells, h, if_true]
      rw [ih]
      rfl
    · simp only [allocateShells, h, if_false, Bool.false_eq_true]
      rw [ih]

/-- Whenever the bundle steps all return, the package's export list has grown by exactly the
objects of the Serialize steps that were not skipped, in bundle order. -/
theorem ProcessExportBundle_PackageExports (fuel : Nat) (Serialize : SerializeFn) (This : Nat)
    (Header : FZenPackageHeader) (ExportState : FExportState) :
    ∀ (bundle : List FExportBundleEntry) (s s1 : LoadState),
      ProcessExportBundle fuel Serialize This Header ExportState bundle s = .ok s1 →
      s1.PackageExports = s.PackageExports
        ++ serializedObjects Header ExportState bundle (s.Exports.map (fun x => x.Object)) := by
  intro bundle
  induction bundle with
  | nil =>
    intro s s1 h
    simp only [ProcessExportBundle] at h
    cases h
    simp [serializedObjects]
  | cons b rest ih =>
    intro s s1 h
    unfold ProcessExportBundle at h
    cases hg : s.Exports.get? b.LocalExportIndex with
    | none => simp only [hg] at h; cases h
    | some slot =>
      by_cases hc : b.CommandType = EExportCommandType.ExportCommandType_Create
      · cases hcr : CreateExport fuel This Header ExportState b.LocalExportIndex s with
        | error err => simp only [hg, hc, if_true, hcr] at h; cases h
        | ok s2 =>
          simp only [hg, hc, if_true, hcr] at h
          obtain ⟨hp, ho⟩ := CreateExport_objects _ _ _ _ _ _ _ hcr
          rw [ih s2 s1 h, hp, ho]
          simp only [serializedObjects, hc, if_true]
      · by_cases hsz : b.CommandType ≠ EExportCommandType.ExportCommandType_Serialize
        · simp only [hg, hc, if_false, hsz, if_true, ne_eq, not_false_eq_true] at h
          rw [ih s s1 h, serializedObjects, if_neg hc, if_neg hsz]
        · have hsz1 : b.CommandType = EExportCommandType.ExportCommandType_Serialize :=
            not_not.mp hsz
          cases hts : TrySerializeExport Serialize Header ExportState b.LocalExportIndex s with
          | error err => simp only [hg, hc, if_false, hsz, hts] at h; cases h
          | ok res =>
            obtain ⟨r, s2⟩ := res
            have hE2 := TrySerializeExport_ok _ _ _ _ _ _ _ hts
            obtain ⟨hp, slot1, hslot1, hr⟩ := TrySerializeExport_result _ _ _ _ _ _ _ hts
            rw [hg] at hslot1
            cases hslot1
            have hget : (s.Exports.map (fun x => x.Object)).get? b.LocalExportIndex
                = some slot.Object := by
              rw [List.get?_eq_getElem?] at hg
              rw [List.get?_eq_getElem?, List.getElem?_map, hg]
              rfl
            simp only [hg, hc, if_false, hsz, hts] at h
            rw [serializedObjects, if_neg hc, if_pos hsz1, hget]
            by_cases hskip :
                (ExportState.LoadTargetOnly && slot.Object != ExportState.TargetObject) = true
            · simp only [hskip, if_true] at hr
              subst hr
              simp only at h
              rw [ih s2 s1 h, hp, hE2]
              simp only [hskip, if_true, List.nil_append]
            · simp only [hskip, if_false, Bool.false_eq_true] at hr
              subst hr
              simp only at h
              rw [ih _ s1 h]
              simp only [hp, hE2, hskip, if_false, Bool.false_eq_true, List.append_assoc]

theorem FieldFrame_refl (s : LoadState) (a : Nat) : FieldFrame s s a :=
  ⟨Nat.le_refl _, rfl, fun _ => rfl, fun _ => rfl, fun h => h⟩

theorem FieldFrame_trans {s s1 s2 : LoadState} {a : Nat} (h1 : FieldFrame s s1 a)
    (h2 : FieldFrame s1 s2 a) : FieldFrame s s2 a where
  next_le := Nat.le_trans h1.next_le h2.next_le
  Class_eq := h2.Class_eq.trans h1.Class_eq
  Outer_set := fun h => by
    have e1 := h1.Outer_set h
    have e2 := h2.Outer_set (by rw [e1]; exact h)
    exact e2.trans e1
  Outer_free := fun h => (h2.Outer_free (h1.NotRegistered_mono h)).trans (h1.Outer_free h)
  NotRegistered_mono := fun h => h2.NotRegistered_mono (h1.NotRegistered_mono h)

/-- Storing an object that has the Class and Outer of the one it replaces. -/
theorem FieldFrame_store (s : LoadState) (r a : Nat) (o : UObject)
    (hC : o.Class = (s.heap r).Class) (hO : o.Outer = (s.heap r).Outer) :
    FieldFrame s (s.store r o) a := by
  have hheap : ((s.store r o).heap a).Class = (s.heap a).Class ∧
      ((s.store r o).heap a).Outer = (s.heap a).Outer := by
    by_cases h : a = r
    · subst h
      simp [LoadState.store, hC, hO]
    · simp [LoadState.store, Function.update_noteq h]
  exact ⟨Nat.le_refl _, hheap.1, fun _ => hheap.2, fun _ => hheap.2, fun h => h⟩

/-- A state whose object `a` and context are those of `s`. -/
theorem FieldFrame_of_eq (s s1 : LoadState) (a : Nat) (hn : s.next ≤ s1.next)
    (hh : s1.heap a = s.heap a) (hc : s1.Context = s.Context) : FieldFrame s s1 a := by
  refine ⟨hn, by rw [hh], fun _ => by rw [hh], fun _ => by rw [hh], fun h => ?_⟩
  intro ctx hctx
  rw [hc] at hctx
  exact h ctx hctx

/-- Whenever `CreateScriptObject` returns, an object allocated before the call keeps its
Class, keeps an Outer that was set, and is untouched when the registry does not hold it. -/
theorem CreateScriptObject_object_frame (Context : GlobalContext) :
    ∀ (fuel : Nat) (T : EObjectKind) (Index : FPackageObjectIndex) (s : LoadState)
      (p : UObjectPtr) (s1 : LoadState),
      CreateScriptObject fuel T Context Index s = .ok (p, s1) →
      ∀ a, a < s.next →
        (s1.heap a).Class = (s.heap a).Class ∧
        ((s.heap a).Outer ≠ none → (s1.heap a).Outer = (s.heap a).Outer) ∧
        ((∀ name, Context.ObjectArray.lookup name ≠ some (some a)) → s1.heap a = s.heap a) := by
  intro fuel
  induction fuel with
  | zero =>
    intro T Index s p s1 h
    simp [CreateScriptObject] at h
  | succ n ih =>
    intro T Index s p s1 h a ha
    have hne : a ≠ s.next := Nat.ne_of_lt ha
    cases hl : Context.GlobalToc.ScriptObjectByGlobalIdMap.lookup Index with
    | none =>
      simp only [CreateScriptObject, hl] at h
      cases h
      exact ⟨rfl, fun _ => rfl, fun _ => rfl⟩
    | some e =>
      cases hr : Context.ObjectArray.lookup (Context.GlobalToc.NameMap.GetName e.MappedName) with
      | none =>
        by_cases hnull : e.OuterIndex.IsNull = true
        · simp only [CreateScriptObject, hl, hr, hnull, Bool.not_true, Bool.false_eq_true,
            if_false] at h
          cases h
          have hh : ∀ (x y z : UObject),
              ((((s.alloc x).store s.next y).store s.next z).heap a) = s.heap a := by
            intro x y z
            simp [LoadState.store, LoadState.alloc, Function.update_noteq hne]
          exact ⟨by rw [hh], fun _ => by rw [hh], fun _ => hh _ _ _⟩
        · cases hrec : CreateScriptObject n EObjectKind.UObject Context e.OuterIndex
            ((s.alloc { kind := T }).store s.next
              { (s.alloc { kind := T }).heap s.next with
                Name := Context.GlobalToc.NameMap.GetName e.MappedName }) with
          | error err =>
            simp only [CreateScriptObject, hl, hr, hnull, Bool.not_false, if_true, hrec] at h
            cases h
          | ok res =>
            obtain ⟨Outer, s2⟩ := res
            simp only [CreateScriptObject, hl, hr, hnull, Bool.not_false, if_true, hrec] at h
            cases h
            have h0 : (((s.alloc { kind := T }).store s.next
                { (s.alloc { kind := T }).heap s.next with
                  Name := Context.GlobalToc.NameMap.GetName e.MappedName }).heap a)
                = s.heap a := by
              simp [LoadState.store, LoadState.alloc, Function.update_noteq hne]
            obtain ⟨i1, i2, i3⟩ := ih _ _ _ _ _ hrec a
              (by simp only [next_store, next_alloc]; omega)
            rw [h0] at i1 i2 i3
            have hh : ∀ (y z : UObject),
                (((s2.store s.next y).store s.next z).heap a) = s2.heap a := by
              intro y z
              simp [LoadState.store, Function.update_noteq hne]
            exact ⟨by rw [hh]; exact i1, fun hs => by rw [hh]; exact i2 hs,
              fun hs => by rw [hh]; exact i3 hs⟩
      | some q =>
        cases q with
        | none =>
          simp only [CreateScriptObject, hl, hr] at h
          cases h
        | some r =>
          by_cases hcond : ((s.heap r).Outer.isNone && !e.OuterIndex.IsNull) = true
          · cases hrec : CreateScriptObject n EObjectKind.UObject Context e.OuterIndex s with
            | error err =>
              simp only [CreateScriptObject, hl, hr, hcond, if_true, hrec] at h
              cases h
            | ok res =>
              obtain ⟨Outer, s2⟩ := res
              simp only [CreateScriptObject, hl, hr, hcond, if_true, hrec] at h
              cases h
              obtain ⟨i1, i2, i3⟩ := ih _ _ _ _ _ hrec a ha
              by_cases har : a = r
              · subst har
                have hnone : (s.heap a).Outer = none := by
                  simp only [Bool.and_eq_true, Option.isNone_iff_eq_none] at hcond
                  exact hcond.1
                refine ⟨?_, fun hs => absurd hnone hs, fun hs => absurd hr (hs _)⟩
                simp only [heap_store_same]
                exact i1
              · have hh : ∀ (y : UObject), ((s2.store r y).heap a) = s2.heap a := by
                  intro y
                  simp [LoadState.store, Function.update_noteq har]
                exact ⟨by rw [hh]; exact i1, fun hs => by rw [hh]; exact i2 hs,
                  fun hs => by rw [hh]; exact i3 hs⟩
          · simp only [CreateScriptObject, hl, hr, hcond, if_false, Bool.false_eq_true] at h
            cases h
            exact ⟨rfl, fun _ => rfl, fun _ => rfl⟩

/-- Whenever `CreateScriptObject` returns an object, it is one the registry holds or one
allocated during the call. -/
theorem CreateScriptObject_result (Context : GlobalContext) (fuel : Nat) (T : EObjectKind)
    (Index : FPackageObjectIndex) (s : LoadState) (r : Nat) (s1 : LoadState)
    (h : CreateScriptObject fuel T Context Index s = .ok (some r, s1)) :
    (∃ name, Context.ObjectArray.lookup name = some (some r)) ∨ s.next ≤ r := by
  cases fuel with
  | zero => simp [CreateScriptObject] at h
  | succ n =>
    cases hl : Context.GlobalToc.ScriptObjectByGlobalIdMap.lookup Index with
    | none =>
      simp only [CreateScriptObject, hl] at h
      cases h
    | some e =>
      cases hr : Context.ObjectArray.lookup (Context.GlobalToc.NameMap.GetName e.MappedName) with
      | none =>
        right
        by_cases hnull : e.OuterIndex.IsNull = true
        · simp only [CreateScriptObject, hl, hr, hnull, Bool.not_true, Bool.false_eq_true,
            if_false] at h
          cases h
          exact Nat.le_refl _
        · cases hrec : CreateScriptObject n EObjectKind.UObject Context e.OuterIndex
            ((s.alloc { kind := T }).store s.next
              { (s.alloc { kind := T }).heap s.next with
                Name := Context.GlobalToc.NameMap.GetName e.MappedName }) with
          | error err =>
            simp only [CreateScriptObject, hl, hr, hnull, Bool.not_false, if_true, hrec] at h
            cases h
          | ok res =>
            obtain ⟨Outer, s2⟩ := res
            simp only [CreateScriptObject, hl, hr, hnull, Bool.not_false, if_true, hrec] at h
            cases h
            exact Nat.le_refl _
      | some q =>
        left
        cases q with
        | none =>
          simp only [CreateScriptObject, hl, hr] at h
          cases h
        | some r1 =>
          have hAs : ∀ s0 : LoadState, As T s0 (some r1) = some r → r1 = r := by
            intro s0 hs0
            unfold As at hs0
            by_cases hk : (s0.heap r1).kind.isA T = true
            · simp only [hk, if_true, Option.some.injEq] at hs0
              exact hs0
            · simp only [hk, if_false, Bool.false_eq_true] at hs0
              cases hs0
          by_cases hcond : ((s.heap r1).Outer.isNone && !e.OuterIndex.IsNull) = true
          · cases hrec : CreateScriptObject n EObjectKind.UObject Context e.OuterIndex s with
            | error err =>
              simp only [CreateScriptObject, hl, hr, hcond, if_true, hrec] at h
              cases h
            | ok res =>
              obtain ⟨Outer, s2⟩ := res
              simp only [CreateScriptObject, hl, hr, hcond, if_true, hrec, Except.ok.injEq,
                Prod.mk.injEq] at h
              have := hAs _ h.1
              subst this
              exact ⟨_, hr⟩
          · simp only [CreateScriptObject, hl, hr, hcond, if_false, Bool.false_eq_true,
              Except.ok.injEq, Prod.mk.injEq] at h
            have := hAs _ h.1
            subst this
            exact ⟨_, hr⟩

/-- Whenever `IndexToObject` returns, an object allocated before the call keeps its Class,
keeps an Outer that was set, and keeps an unset Outer when the registry does not hold it, in
which case the registry does not hold it afterwards either. -/
theorem IndexToObject_FieldFrame (fuel : Nat) (T : EObjectKind) (Header : FZenPackageHeader)
    (Index : FPackageObjectIndex) (s : LoadState) (p : UObjectPtr) (s1 : LoadState) (a : Nat)
    (h : IndexToObject fuel T Header Index s = .ok (p, s1)) (ha : a < s.next) :
    FieldFrame s s1 a := by
  cases Index with
  | Null =>
    rw [IndexToObject_Null_eq] at h
    cases h
    exact FieldFrame_refl s a
  | Export i =>
    rw [IndexToObject_Export_eq] at h
    cases hg : s.Exports.get? i with
    | none => rw [hg] at h; cases h
    | some slot =>
      rw [hg] at h
      cases h
      exact FieldFrame_refl s a
  | PackageImport sub hashIndex =>
    rw [IndexToObject_PackageImport_eq] at h
    by_cases hs : Header.ImportedPackageIds.length ≤ sub
    · rw [if_pos hs] at h
      cases h
      exact FieldFrame_refl s a
    · rw [if_neg hs] at h
      cases h
      have hne : a ≠ s.next := Nat.ne_of_lt ha
      exact FieldFrame_of_eq s _ a (Nat.le_succ _)
        (by simp [LoadState.alloc, Function.update_noteq hne]) rfl
  | ScriptImport id =>
    rw [IndexToObject_ScriptImport_eq] at h
    cases hc : s.Context with
    | none =>
      simp only [hc] at h
      cases h
      exact FieldFrame_refl s a
    | some ContextLock =>
      cases hrec : CreateScriptObject fuel T ContextLock (FPackageObjectIndex.ScriptImport id) s with
      | error err =>
        simp only [hc, hrec] at h
        cases h
      | ok res =>
        obtain ⟨Ret, s2⟩ := res
        have hfr := CreateScriptObject_ok_frame ContextLock _ _ _ _ _ _ hrec
        obtain ⟨i1, i2, i3⟩ := CreateScriptObject_object_frame ContextLock _ _ _ _ _ _ hrec a ha
        cases Ret with
        | none =>
          simp only [hc, hrec] at h
          cases h
        | some r =>
          have hres := CreateScriptObject_result ContextLock _ _ _ _ _ _ hrec
          simp only [hc, hrec] at h
          have hfree : NotRegistered s a → s2.heap a = s.heap a :=
            fun hn => i3 (hn ContextLock hc)
          by_cases hins : (ContextLock.ObjectArray.lookup (s2.heap r).Name).isNone = true
          · simp only [hins, if_true] at h
            cases h
            refine ⟨hfr.next_le, i1, i2, fun hn => by rw [← hfree hn], fun hn => ?_⟩
            intro ctx hctx name
            simp only [Option.some.injEq] at hctx
            subst hctx
            simp only
            have hra : r ≠ a := by
              rcases hres with ⟨nm, hnm⟩ | hge
              · intro e
                subst e
                exact hn ContextLock hc nm hnm
              · omega
            by_cases hname : name = (s2.heap r).Name
            · subst hname
              rw [lookup_insert_or_assign_self, As_UObject]
              intro e
              simp only [Option.some.injEq] at e
              exact hra e
            · rw [lookup_insert_or_assign_ne _ _ _ _ hname]
              exact hn ContextLock hc name
          · simp only [hins, if_false, Bool.false_eq_true] at h
            cases h
            refine ⟨hfr.next_le, i1, i2, fun hn => by rw [← hfree hn], fun hn => ?_⟩
            intro ctx hctx
            rw [hfr.Context_eq] at hctx
            exact hn ctx hctx

/-- Lines 95-97 of `CreateExport` leave a Class that is set, and the Outer, of the export
object alone. -/
theorem CreateExport_Class_frame (fuel : Nat) (Header : FZenPackageHeader)
    (Export : FExportMapEntry) (o : Nat) (s s1 : LoadState)
    (h : CreateExport_Class fuel Header Export o s = .ok s1) (ho : o < s.next) :
    s.next ≤ s1.next ∧
    ((s.heap o).Class ≠ none → (s1.heap o).Class = (s.heap o).Class) ∧
    ((s.heap o).Outer ≠ none → (s1.heap o).Outer = (s.heap o).Outer) ∧
    (NotRegistered s o → (s1.heap o).Outer = (s.heap o).Outer ∧ NotRegistered s1 o) := by
  unfold CreateExport_Class at h
  by_cases hc : (s.heap o).Class.isNone = true
  · cases hr : IndexToObject fuel EObjectKind.UClass Header Export.ClassIndex s with
    | error err => simp only [hc, if_true, hr] at h; cases h
    | ok res =>
      obtain ⟨c, s2⟩ := res
      simp only [hc, if_true, hr] at h
      cases h
      have hf := IndexToObject_FieldFrame _ _ _ _ _ _ _ o hr ho
      simp only [Option.isNone_iff_eq_none] at hc
      refine ⟨hf.next_le, fun hs => absurd hc hs, fun hs => ?_, fun hn => ⟨?_, ?_⟩⟩
      · simp only [heap_store_same]
        exact hf.Outer_set hs
      · simp only [heap_store_same]
        exact hf.Outer_free hn
      · exact hf.NotRegistered_mono hn
  · simp only [hc, if_false, Bool.false_eq_true] at h
    cases h
    exact ⟨Nat.le_refl _, fun _ => rfl, fun _ => rfl, fun hn => ⟨rfl, hn⟩⟩

/-- Lines 99-101 of `CreateExport`: the Class is left alone; an Outer that is set is left
alone; an unset Outer becomes the package for a Null outer index and otherwise the result of
resolving the outer index. -/
theorem CreateExport_Outer_frame (fuel : Nat) (This : Nat) (Header : FZenPackageHeader)
    (Export : FExportMapEntry) (o : Nat) (s s1 : LoadState)
    (h : CreateExport_Outer fuel This Header Export o s = .ok s1) (ho : o < s.next) :
    s.next ≤ s1.next ∧
    (s1.heap o).Class = (s.heap o).Class ∧
    ((s.heap o).Outer ≠ none → (s1.heap o).Outer = (s.heap o).Outer) ∧
    (NotRegistered s o → NotRegistered s1 o) ∧
    ((s.heap o).Outer = none →
      (Export.OuterIndex.IsNull = true → (s1.heap o).Outer = some This) ∧
      (Export.OuterIndex.IsNull = false →
        ∃ v sD, IndexToObject fuel EObjectKind.UObject Header Export.OuterIndex s = .ok (v, sD) ∧
          (s1.heap o).Outer = v)) := by
  unfold CreateExport_Outer at h
  by_cases hc : (s.heap o).Outer.isNone = true
  · have hnone : (s.heap o).Outer = none := by
      simpa only [Option.isNone_iff_eq_none] using hc
    by_cases hn : Export.OuterIndex.IsNull = true
    · simp only [hc, hn, if_true] at h
      cases h
      refine ⟨Nat.le_refl _, by simp only [heap_store_same], fun hs => absurd hnone hs,
        fun hreg => hreg, fun _ => ⟨fun _ => by simp only [heap_store_same], fun hf => ?_⟩⟩
      rw [hn] at hf
      cases hf
    · cases hr : IndexToObject fuel EObjectKind.UObject Header Export.OuterIndex s with
      | error err => simp only [hc, hn, if_true, if_false, Bool.false_eq_true, hr] at h; cases h
      | ok res =>
        obtain ⟨v, s2⟩ := res
        simp only [hc, hn, if_true, if_false, Bool.false_eq_true, hr] at h
        cases h
        have hf := IndexToObject_FieldFrame _ _ _ _ _ _ _ o hr ho
        refine ⟨hf.next_le, ?_, fun hs => absurd hnone hs, fun hreg => hf.NotRegistered_mono hreg,
          fun _ => ⟨fun ht => absurd ht hn, fun _ => ⟨v, s2, rfl, ?_⟩⟩⟩
        · simp only [heap_store_same]
          exact hf.Class_eq
        · simp only [heap_store_same]
  · simp only [hc, if_false, Bool.false_eq_true] at h
    cases h
    have hset : (s.heap o).Outer ≠ none := by
      simpa only [Option.isNone_iff_eq_none] using hc
    exact ⟨Nat.le_refl _, rfl, fun _ => rfl, fun hreg => hreg, fun hnone => absurd hnone hset⟩

/-- Lines 103-107 of `CreateExport` leave the Class and the Outer of the export object
alone. -/
theorem CreateExport_Super_frame (fuel : Nat) (Header : FZenPackageHeader)
    (Export : FExportMapEntry) (o : Nat) (s s1 : LoadState)
    (h : CreateExport_Super fuel Header Export o s = .ok s1) (ho : o < s.next) :
    FieldFrame s s1 o := by
  unfold CreateExport_Super at h
  cases ha : As EObjectKind.UStruct s (some o) with
  | none =>
    simp only [ha] at h
    cases h
    exact FieldFrame_refl s o
  | some Struct =>
    by_cases hc : (s.heap Struct).Super.isNone = true
    · cases hr : IndexToObject fuel EObjectKind.UStruct Header Export.SuperIndex s with
      | error err => simp only [ha, hc, if_true, hr] at h; cases h
      | ok res =>
        obtain ⟨c, s2⟩ := res
        simp only [ha, hc, if_true, hr] at h
        cases h
        exact FieldFrame_trans (IndexToObject_FieldFrame _ _ _ _ _ _ _ o hr ho)
          (FieldFrame_store _ _ _ _ (by rfl) (by rfl))
    · simp only [ha, hc, if_false, Bool.false_eq_true] at h
      cases h
      exact FieldFrame_refl s o

/-- A state whose object `a` has the Class and Outer it has in `s`, with the context of
`s`. -/
theorem FieldFrame_of_fields (s s1 : LoadState) (a : Nat) (hn : s.next ≤ s1.next)
    (hC : (s1.heap a).Class = (s.heap a).Class) (hO : (s1.heap a).Outer = (s.heap a).Outer)
    (hc : s1.Context = s.Context) : FieldFrame s s1 a := by
  refine ⟨hn, hC, fun _ => hO, fun _ => hO, fun h => ?_⟩
  intro ctx hctx
  rw [hc] at hctx
  exact h ctx hctx

/-- Whenever the wiring part of `CreateExport` returns with a non-empty template handle in the
slot, the slot holds an object and line 99 was reached, in the state that lines 83-97 give;
if that object was allocated before the step, a Class or Outer it had is left unchanged, and
an unset Outer of an object the registry does not hold becomes the package (Null outer index)
or the result of resolving the outer index in the state of line 99. -/
theorem CreateExport_Wire_fields (fuel : Nat) (This : Nat) (Header : FZenPackageHeader)
    (Export : FExportMapEntry) (ObjectName : String) (i : Nat) (s s1 : LoadState)
    (slot1 : FExportObject)
    (h : CreateExport_Wire fuel This Header Export ObjectName i s = .ok s1)
    (hslot1 : s1.Exports.get? i = some slot1) (htpl : slot1.TemplateObject ≠ none) :
    ∃ o sC, CreateExport_Wire_toOuter fuel Header Export ObjectName i s = .ok (some (o, sC)) ∧
      slot1.Object = some o ∧ (o < s.next →
      ((s.heap o).Class ≠ none → (s1.heap o).Class = (s.heap o).Class) ∧
      ((s.heap o).Outer ≠ none → (s1.heap o).Outer = (s.heap o).Outer) ∧
      ((s.heap o).Outer = none → NotRegistered s o →
        (Export.OuterIndex.IsNull = true → (s1.heap o).Outer = some This) ∧
        (Export.OuterIndex.IsNull = false →
          ∃ v sD,
            IndexToObject fuel EObjectKind.UObject Header Export.OuterIndex sC = .ok (v, sD) ∧
            (s1.heap o).Outer = v))) := by
  unfold CreateExport_Wire at h
  unfold CreateExport_Wire_toOuter
  cases hg0 : s.Exports.get? i with
  | none => simp only [hg0] at h; cases h
  | some slot0 =>
  simp only [hg0] at h
  cases hr : IndexToObject fuel EObjectKind.UObject Header Export.TemplateIndex s with
  | error err => simp only [hr] at h; cases h
  | ok res =>
    obtain ⟨TemplateObject, s2⟩ := res
    cases hg : s2.Exports.get? i with
    | none => simp only [hr, hg] at h; cases h
    | some slot =>
      have hget := get?_set_self_of_get? s2.Exports i slot
        { slot with TemplateObject := TemplateObject } hg
      by_cases ht : TemplateObject.isNone = true
      · simp only [hr, hg, ht, if_true] at h
        cases h
        simp only at hslot1
        rw [hget] at hslot1
        cases hslot1
        simp only [Option.isNone_iff_eq_none] at ht
        exact absurd ht htpl
      · cases ho : slot.Object with
        | none => simp only [hr, hg, ht, if_false, Bool.false_eq_true, ho] at h; cases h
        | some o =>
          simp only [hr, hg, ht, if_false, Bool.false_eq_true, ho] at h
          simp only [hg, ht, if_false, Bool.false_eq_true, ho]
          simp only [ho] at hget
          revert h
          generalize hs3 : LoadState.store _ o _ = s3
          intro h
          have h3 : s3.Exports.get? i = some { Object := some o, TemplateObject := TemplateObject } := by
            rw [← hs3]
            exact hget
          have hF23 : FieldFrame s2 s3 o := by
            rw [← hs3]
            exact FieldFrame_of_fields _ _ _ (Nat.le_refl _) (by simp only [heap_store_same])
              (by simp only [heap_store_same]) rfl
          cases hc : CreateExport_Class fuel Header Export o s3 with
          | error err => simp only [hc] at h; cases h
          | ok s4 =>
            cases hou : CreateExport_Outer fuel This Header Export o s4 with
            | error err => simp only [hc, hou] at h; cases h
            | ok s5 =>
              cases hsu : CreateExport_Super fuel Header Export o s5 with
              | error err => simp only [hc, hou, hsu] at h; cases h
              | ok s6 =>
                simp only [hc, hou, hsu] at h
                cases h
                rw [Exports_store, CreateExport_Super_ok _ _ _ _ _ _ hsu,
                  CreateExport_Outer_ok _ _ _ _ _ _ _ hou, CreateExport_Class_ok _ _ _ _ _ _ hc,
                  h3] at hslot1
                cases hslot1
                refine ⟨o, s4, rfl, rfl, fun halloc => ?_⟩
                have hF03 : FieldFrame s s3 o :=
                  FieldFrame_trans (IndexToObject_FieldFrame _ _ _ _ _ _ _ o hr halloc) hF23
                have ho3 : o < s3.next := Nat.lt_of_lt_of_le halloc hF03.next_le
                obtain ⟨n34, c34, os34, of34⟩ := CreateExport_Class_frame _ _ _ _ _ _ hc ho3
                have ho4 : o < s4.next := Nat.lt_of_lt_of_le ho3 n34
                obtain ⟨n45, c45, os45, nr45, on45⟩ :=
                  CreateExport_Outer_frame _ _ _ _ _ _ _ hou ho4
                have ho5 : o < s5.next := Nat.lt_of_lt_of_le ho4 n45
                have hF5f : FieldFrame s5 (s6.store o { s6.heap o with
                    ObjectFlags := Export.ObjectFlags ||| RF_NeedLoad ||| RF_NeedPostLoad |||
                      RF_NeedPostLoadSubobjects ||| RF_WasLoaded }) o :=
                  FieldFrame_trans (CreateExport_Super_frame _ _ _ _ _ _ hsu ho5)
                    (FieldFrame_store _ _ _ _ (by rfl) (by rfl))
                refine ⟨fun hC => ?_, fun hO => ?_, fun hnone hreg => ?_⟩
                · have e3 : (s3.heap o).Class = (s.heap o).Class := hF03.Class_eq
                  have e4 := c34 (by rw [e3]; exact hC)
                  rw [hF5f.Class_eq, c45, e4, e3]
                · have e3 := hF03.Outer_set hO
                  have e4 := os34 (by rw [e3]; exact hO)
                  have e5 := os45 (by rw [e4, e3]; exact hO)
                  have e6 := hF5f.Outer_set (by rw [e5, e4, e3]; exact hO)
                  rw [e6, e5, e4, e3]
                · have e3 := hF03.Outer_free hreg
                  have r3 := hF03.NotRegistered_mono hreg
                  obtain ⟨e4, r4⟩ := of34 r3
                  have hn4 : (s4.heap o).Outer = none := by rw [e4, e3, hnone]
                  have r5 := nr45 r4
                  obtain ⟨k1, k2⟩ := on45 hn4
                  refine ⟨fun hnull => ?_, fun hnn => ?_⟩
                  · have e5 := k1 hnull
                    rw [hF5f.Outer_set (by rw [e5]; exact Option.some_ne_none _), e5]
                  · obtain ⟨v, sD, hv, e5⟩ := k2 hnn
                    exact ⟨v, sD, hv, by rw [hF5f.Outer_free r5, e5]⟩

theorem MakePackage_Status_eq (fuel : Nat) (Serialize : SerializeFn)
    (reader : FZenPackageReader) (Context : Option GlobalContext) (ExportState : FExportState)
    (heap : Nat → UObject) (next : Nat) (Package : UObjectPtr) (reader1 : FZenPackageReader)
    (h : reader.MakePackage fuel Serialize Context ExportState heap next
      = .ok (Package, reader1)) :
    reader1.Status = reader.Status := by
  unfold FZenPackageReader.MakePackage at h
  simp only at h
  revert h
  generalize ProcessExports fuel Serialize next reader.PackageHeader ExportState _ = res
  intro h
  cases res with
  | error e => cases h
  | ok s1 =>
    simp only [Except.ok.injEq, Prod.mk.injEq] at h
    rw [← h.2]

/-- C21 (code evaluated at the failing input): a reader with status `Ok` over a package
whose only export has a Null template index. `MakePackage` runs the full pass; the Create
step finds the template Empty and sets `ReadError` on the reader copy held by the package
data, while the status that `GetStatus` and `IsOk` report on the reader the caller called is
still `Ok`. No pass can change that status: whenever `MakePackage` returns, the reader has
the status it had before the call. -/
theorem MakePackage_status_on_copy :
    (sampleReader.MakePackage 3 noSerialize (some sampleContext) {} (fun _ => {}) 0).toOption.map
      (fun r => (r.1, r.2.GetStatus, r.2.IsOk, r.2.PackageData.map (fun d => d.Status)))
      = some (some 0, EIoErrorCode.Ok, true, some EIoErrorCode.ReadError) ∧
    ∀ (fuel : Nat) (Serialize : SerializeFn) (reader : FZenPackageReader)
      (Context : Option GlobalContext) (ExportState : FExportState) (heap : Nat → UObject)
      (next : Nat) (Package : UObjectPtr) (reader1 : FZenPackageReader),
      reader.MakePackage fuel Serialize Context ExportState heap next = .ok (Package, reader1) →
      reader1.GetStatus = reader.GetStatus := by
  refine ⟨by decide, ?_⟩
  intro fuel Serialize reader Context ExportState heap next Package reader1 h
  exact MakePackage_Status_eq fuel Serialize reader Context ExportState heap next Package
    reader1 h

/-! ## CityHash: the loads made, all inside the buffer; block loops terminate -/

theorem Fetch32_eq (s : List Byte) (p : Int) (h0 : 0 ≤ p) (h1 : p + 4 ≤ (s.length : Int)) :
    Fetch32 s p = .ok (readLE ((s.drop p.toNat).take 4), [(p, 4)]) := by
  unfold Fetch32
  rw [if_pos ⟨h0, h1⟩]

theorem Fetch64_eq (s : List Byte) (p : Int) (h0 : 0 ≤ p) (h1 : p + 8 ≤ (s.length : Int)) :
    Fetch64 s p = .ok (readLE ((s.drop p.toNat).take 8), [(p, 8)]) := by
  unfold Fetch64
  rw [if_pos ⟨h0, h1⟩]

theorem charAt_eq (s : List Byte) (p : Int) (h0 : 0 ≤ p) (h1 : p < (s.length : Int)) :
    charAt s p = .ok ((s.getD p.toNat 0).val, [(p, 1)]) := by
  unfold charAt
  rw [if_pos ⟨h0, h1⟩]

theorem shiftRight_one (n : Nat) : n >>> 1 = n / 2 := by
  rw [Nat.shiftRight_eq_div_pow, Nat.pow_one]

theorem Loads_bind_ok {α β : Type} (a : α) (t : List Load) (f : α → Loads β) :
    Loads.bind (.ok (a, t)) f = Loads.prepend t (f a) := rfl

theorem Loads_prepend_ok {β : Type} (t : List Load) (b : β) (t1 : List Load) :
    Loads.prepend t (.ok (b, t1)) = .ok (b, t ++ t1) := rfl

/-- A result whose loads are the expected ones. -/
theorem Loads_ok_of_eq {α : Type} (a : α) (t t1 : List Load) (h : t = t1) :
    ∃ b, (Except.ok (a, t) : Loads α) = .ok (b, t1) :=
  ⟨a, by rw [h]⟩

theorem Hash32Len13to24_ok (s : List Byte) (h1 : 13 ≤ s.length) (h2 : s.length ≤ 24) :
    ∃ h, Hash32Len13to24 s s.length = .ok (h,
      [(((s.length >>> 1 : Nat) : Int) - 4, 4), (4, 4), ((s.length : Int) - 8, 4),
        (((s.length >>> 1 : Nat) : Int), 4), (0, 4), ((s.length : Int) - 4, 4)]) := by
  unfold Hash32Len13to24
  rw [shiftRight_one]
  simp (disch := omega) only [Fetch32_eq, bind, Loads_bind_ok, Loads_prepend_ok, pure,
    Loads.pure, List.cons_append,
    List.nil_append, List.append_nil]
  apply Loads_ok_of_eq
  simp only [List.cons.injEq, Prod.mk.injEq, and_true, true_and]
  omega

theorem Hash32Len0to4_fold_ok (s : List Byte) (l : List Nat) (hl : ∀ i ∈ l, i < s.length) :
    ∀ init : Nat × Nat, ∃ r,
      List.foldlM (m := Loads)
        (fun (bc : Nat × Nat) (i : Nat) => do
          let v ← charAt s (i : Int)
          let b := u32 (bc.1 * c1 + signedChar32 v)
          pure (b, bc.2 ^^^ b))
        init l = .ok (r, l.map (fun (i : Nat) => ((i : Int), 1))) := by
  induction l with
  | nil => intro init; exact ⟨init, rfl⟩
  | cons i rest ih =>
    intro init
    have hi : i < s.length := hl i (List.mem_cons_self _ _)
    rw [List.foldlM_cons]
    simp (disch := omega) only [charAt_eq, bind, Loads_bind_ok, Loads_prepend_ok, pure,
      Loads.pure, List.append_nil]
    generalize hL : List.foldlM (m := Loads) _ _ rest = L
    obtain ⟨r, e⟩ : ∃ r, L = .ok (r, rest.map (fun (i : Nat) => ((i : Int), 1))) := by
      rw [← hL]
      exact ih (fun j hj => hl j (List.mem_cons_of_mem _ hj)) _
    subst e
    exact ⟨r, rfl⟩

theorem Hash32Len0to4_ok (s : List Byte) :
    ∃ h, Hash32Len0to4 s s.length
      = .ok (h, (List.range s.length).map (fun (i : Nat) => ((i : Int), 1))) := by
  unfold Hash32Len0to4
  obtain ⟨r, hr⟩ := Hash32Len0to4_fold_ok s (List.range s.length)
    (fun i hi => List.mem_range.mp hi) (0, 9)
  simp only [bind, Loads_bind_ok, Loads_prepend_ok, pure, Loads.pure]
  generalize hL : List.foldlM (m := Loads) _ _ _ = L
  obtain ⟨r, e⟩ : ∃ r, L = .ok (r, (List.range s.length).map (fun (i : Nat) => ((i : Int), 1))) := by
    rw [← hL]
    exact ⟨r, hr⟩
  subst e
  simp only [Loads_bind_ok, Loads_prepend_ok, List.append_nil]
  exact ⟨_, rfl⟩

theorem and_four_bound (n : Nat) (h1 : 5 ≤ n) (h2 : n ≤ 12) : ((n >>> 1) &&& 4) + 4 ≤ n := by
  interval_cases n <;> decide

theorem Hash32Len5to12_ok (s : List Byte) (h1 : 5 ≤ s.length) (h2 : s.length ≤ 12) :
    ∃ h, Hash32Len5to12 s s.length = .ok (h,
      [(0, 4), ((s.length : Int) - 4, 4), ((((s.length >>> 1) &&& 4 : Nat) : Int), 4)]) := by
  unfold Hash32Len5to12
  have hb := and_four_bound s.length h1 h2
  simp (disch := omega) only [Fetch32_eq, bind, Loads_bind_ok, Loads_prepend_ok, pure,
    Loads.pure, List.cons_append,
    List.nil_append, List.append_nil]
  apply Loads_ok_of_eq
  simp only [List.cons.injEq, Prod.mk.injEq, and_true, true_and]
  omega

theorem sub32_one (n : Nat) (h1 : 1 ≤ n) (h2 : n < 4294967296) : sub32 n 1 = n - 1 := by
  unfold sub32
  omega

/-- The loads of `k + 1` consecutive blocks are those of the first block followed by those of
the `k` blocks after it. -/
theorem range_succ_bind (f : Int → List Load) (p c : Int) (k : Nat) :
    (List.range (k + 1)).flatMap (fun j => f (p + c * (j : Int)))
      = f p ++ (List.range k).flatMap (fun j => f (p + c + c * (j : Int))) := by
  rw [List.range_succ_eq_map, List.flatMap_cons, List.flatMap_map]
  congr 1
  · congr 1
    simp
  · congr 1
    funext j
    congr 1
    simp only [Function.comp, Nat.cast_succ]
    ring_nf

/-- The block loop of `CityHash32`, entered with a counter `iters` between 1 and the fuel and
with `20 * iters` bytes left from `p`, returns after exactly `iters` iterations; iteration `j`
loads the five words of the 20 bytes at `p + 20 * j`. -/
theorem CityHash32_loop_ok (s : List Byte) :
    ∀ (fuel : Nat) (p : Int) (iters h g f count : Nat),
      1 ≤ iters → iters ≤ fuel → iters < 4294967296 → 0 ≤ p →
      p + 20 * (iters : Int) ≤ (s.length : Int) →
      ∃ h1 g1 f1, CityHash32_loop s fuel p iters h g f count
        = .ok ((h1, g1, f1, count + iters),
          (List.range iters).flatMap (fun j =>
            ([(p + 20 * (j : Int), 4), (p + 20 * (j : Int) + 4, 4), (p + 20 * (j : Int) + 8, 4),
              (p + 20 * (j : Int) + 12, 4), (p + 20 * (j : Int) + 16, 4)] : List Load))) := by
  intro fuel
  induction fuel with
  | zero =>
    intro p iters h g f count h1 h2
    omega
  | succ n ih =>
    intro p iters h g f count h1 h2 h3 h4 h5
    obtain ⟨m, rfl⟩ : ∃ m, iters = m + 1 := ⟨iters - 1, by omega⟩
    have hb := range_succ_bind (fun q => [(q, 4), (q + 4, 4), (q + 8, 4), (q + 12, 4),
      (q + 16, 4)]) p 20 m
    simp only [] at hb
    rw [hb]
    unfold CityHash32_loop
    have hs : sub32 (m + 1) 1 = m := by rw [sub32_one (m + 1) h1 h3]; rfl
    simp (disch := omega) only [Fetch32_eq, bind, Loads_bind_ok, Loads_prepend_ok, pure,
      Loads.pure, hs,
      List.cons_append, List.nil_append, List.append_nil]
    by_cases hz : m = 0
    · subst hz
      simp only [ne_eq, not_true_eq_false, if_false, List.range_zero, List.flatMap_nil,
        List.append_nil]
      exact ⟨_, _, _, rfl⟩
    · simp only [ne_eq, hz, not_false_eq_true, if_true]
      generalize hL : CityHash32_loop s n _ _ _ _ _ _ = L
      obtain ⟨h1, g1, f1, e⟩ : ∃ h1 g1 f1, L = .ok ((h1, g1, f1, count + 1 + m),
          (List.range m).flatMap (fun j =>
            ([(p + 20 + 20 * (j : Int), 4), (p + 20 + 20 * (j : Int) + 4, 4),
              (p + 20 + 20 * (j : Int) + 8, 4), (p + 20 + 20 * (j : Int) + 12, 4),
              (p + 20 + 20 * (j : Int) + 16, 4)] : List Load))) := by
        rw [← hL]
        exact ih (p + 20) m _ _ _ (count + 1) (by omega) (by omega) (by omega) (by omega)
          (by omega)
      subst e
      have hc : count + (m + 1) = count + 1 + m := by omega
      rw [hc]
      exact ⟨_, _, _, rfl⟩

theorem CityHash32_ok (s : List Byte) (h32 : s.length < 4294967296) :
    ∃ h n t, CityHash32 s s.length = .ok ((h, n), t) ∧
      (s.length ≤ 4 → n = 0 ∧ t = (List.range s.length).map (fun (i : Nat) => ((i : Int), 1))) ∧
      (4 < s.length → s.length ≤ 12 → n = 0 ∧
        t = [(0, 4), ((s.length : Int) - 4, 4), ((((s.length >>> 1) &&& 4 : Nat) : Int), 4)]) ∧
      (12 < s.length → s.length ≤ 24 → n = 0 ∧
        t = [(((s.length >>> 1 : Nat) : Int) - 4, 4), (4, 4), ((s.length : Int) - 8, 4),
          (((s.length >>> 1 : Nat) : Int), 4), (0, 4), ((s.length : Int) - 4, 4)]) ∧
      (24 < s.length → n = (s.length - 1) / 20 ∧ 0 < n ∧
        t = [((s.length : Int) - 4, 4), ((s.length : Int) - 8, 4), ((s.length : Int) - 16, 4),
            ((s.length : Int) - 12, 4), ((s.length : Int) - 20, 4)] ++
          (List.range n).flatMap (fun j =>
            ([(20 * (j : Int), 4), (20 * (j : Int) + 4, 4), (20 * (j : Int) + 8, 4),
              (20 * (j : Int) + 12, 4), (20 * (j : Int) + 16, 4)] : List Load))) := by
  unfold CityHash32
  by_cases h24 : s.length ≤ 24
  · rw [if_pos h24]
    by_cases h12 : s.length ≤ 12
    · rw [if_pos h12]
      by_cases h4 : s.length ≤ 4
      · rw [if_pos h4]
        obtain ⟨h, e⟩ := Hash32Len0to4_ok s
        simp only [bind, Loads_bind_ok, Loads_prepend_ok, pure, Loads.pure, e, List.append_nil]
        exact ⟨h, 0, _, rfl, fun _ => ⟨rfl, rfl⟩, fun hh => by omega, fun hh => by omega,
          fun hh => by omega⟩
      · rw [if_neg h4]
        obtain ⟨h, e⟩ := Hash32Len5to12_ok s (by omega) h12
        simp only [bind, Loads_bind_ok, Loads_prepend_ok, pure, Loads.pure, e, List.append_nil]
        exact ⟨h, 0, _, rfl, fun hh => absurd hh h4, fun _ _ => ⟨rfl, rfl⟩, fun hh => by omega,
          fun hh => by omega⟩
    · rw [if_neg h12]
      obtain ⟨h, e⟩ := Hash32Len13to24_ok s (by omega) h24
      simp only [bind, Loads_bind_ok, Loads_prepend_ok, pure, Loads.pure, e, List.append_nil]
      exact ⟨h, 0, _, rfl, fun hh => by omega, fun _ hh => absurd hh h12, fun _ _ => ⟨rfl, rfl⟩,
        fun hh => by omega⟩
  · rw [if_neg h24]
    simp (disch := omega) only [Fetch32_eq, bind, Loads_bind_ok, Loads_prepend_ok, pure, Loads.pure,
      List.cons_append, List.nil_append, List.append_nil]
    rw [sub32_one s.length (by omega) h32]
    have key : ∀ h g f, ∃ h1 g1 f1,
        CityHash32_loop s 4294967296 0 ((s.length - 1) / 20) h g f 0
          = .ok ((h1, g1, f1, 0 + (s.length - 1) / 20),
            (List.range ((s.length - 1) / 20)).flatMap (fun j =>
              ([((0 : Int) + 20 * (j : Int), 4), ((0 : Int) + 20 * (j : Int) + 4, 4),
                ((0 : Int) + 20 * (j : Int) + 8, 4), ((0 : Int) + 20 * (j : Int) + 12, 4),
                ((0 : Int) + 20 * (j : Int) + 16, 4)] : List Load))) :=
      fun h g f => CityHash32_loop_ok s 4294967296 0 ((s.length - 1) / 20) h g f 0 (by omega)
        (by omega) (by omega) (Int.le_refl 0) (by omega)
    generalize hL : CityHash32_loop s _ _ _ _ _ _ _ = L
    obtain ⟨h1, g1, f1, e⟩ : ∃ h1 g1 f1, L = .ok ((h1, g1, f1, 0 + (s.length - 1) / 20),
        (List.range ((s.length - 1) / 20)).flatMap (fun j =>
          ([((0 : Int) + 20 * (j : Int), 4), ((0 : Int) + 20 * (j : Int) + 4, 4),
            ((0 : Int) + 20 * (j : Int) + 8, 4), ((0 : Int) + 20 * (j : Int) + 12, 4),
            ((0 : Int) + 20 * (j : Int) + 16, 4)] : List Load))) := by
      rw [← hL]
      exact key _ _ _
    subst e
    simp only [Loads_bind_ok, Loads_prepend_ok, List.cons_append, List.nil_append,
      List.append_nil, zero_add]
    refine ⟨_, _, _, rfl, fun hh => by omega, fun _ hh => by omega, fun _ hh => by omega,
      fun _ => ⟨rfl, ?_, rfl⟩⟩
    show 0 < (s.length - 1) / 20
    omega

theorem WeakHashLen32WithSeeds_eq (s : List Byte) (p : Int) (a b : Nat) (h0 : 0 ≤ p)
    (h1 : p + 32 ≤ (s.length : Int)) :
    WeakHashLen32WithSeeds s p a b
      = .ok (WeakHashLen32WithSeeds_words (readLE ((s.drop p.toNat).take 8))
          (readLE ((s.drop (p + 8).toNat).take 8)) (readLE ((s.drop (p + 16).toNat).take 8))
          (readLE ((s.drop (p + 24).toNat).take 8)) a b,
        [(p, 8), (p + 8, 8), (p + 16, 8), (p + 24, 8)]) := by
  unfold WeakHashLen32WithSeeds
  simp (disch := omega) only [Fetch64_eq, bind, Loads_bind_ok, Loads_prepend_ok, pure,
    Loads.pure, List.cons_append, List.nil_append, List.append_nil]

theorem HashLen0to16_ok (s : List Byte) (h1 : s.length ≤ 16) :
    ∃ (h : Nat) (t : List Load), HashLen0to16 s s.length = .ok (h, t) ∧
      (s.length = 0 → t = []) ∧
      (0 < s.length → s.length < 4 →
        t = ([(0, 1), (((s.length >>> 1 : Nat) : Int), 1), ((s.length : Int) - 1, 1)] :
          List Load)) ∧
      (4 ≤ s.length → s.length < 8 → t = [(0, 4), ((s.length : Int) - 4, 4)]) ∧
      (8 ≤ s.length → t = [(0, 8), ((s.length : Int) - 8, 8)]) := by
  unfold HashLen0to16
  by_cases h8 : s.length ≥ 8
  · rw [if_pos h8]
    simp (disch := omega) only [Fetch64_eq, bind, Loads_bind_ok, Loads_prepend_ok, pure,
      Loads.pure, List.cons_append, List.nil_append, List.append_nil, zero_add]
    exact ⟨_, _, rfl, fun hh => by omega, fun _ hh => by omega, fun _ hh => by omega,
      fun _ => rfl⟩
  · rw [if_neg h8]
    by_cases h4 : s.length ≥ 4
    · rw [if_pos h4]
      simp (disch := omega) only [Fetch32_eq, bind, Loads_bind_ok, Loads_prepend_ok, pure,
        Loads.pure, List.cons_append, List.nil_append, List.append_nil, zero_add]
      exact ⟨_, _, rfl, fun hh => by omega, fun _ hh => by omega, fun _ _ => rfl,
        fun hh => by omega⟩
    · rw [if_neg h4]
      by_cases h0 : s.length > 0
      · rw [if_pos h0, shiftRight_one]
        simp (disch := omega) only [charAt_eq, bind, Loads_bind_ok, Loads_prepend_ok, pure,
          Loads.pure, List.cons_append, List.nil_append, List.append_nil]
        exact ⟨_, _, rfl, fun hh => by omega, fun _ _ => rfl, fun hh => by omega,
          fun hh => by omega⟩
      · rw [if_neg h0]
        exact ⟨_, _, rfl, fun _ => rfl, fun hh => by omega, fun hh => by omega,
          fun hh => by omega⟩

theorem HashLen17to32_ok (s : List Byte) (h1 : 17 ≤ s.length) :
    ∃ h, HashLen17to32 s s.length = .ok (h,
      [(0, 8), (8, 8), ((s.length : Int) - 8, 8), ((s.length : Int) - 16, 8)]) := by
  unfold HashLen17to32
  simp (disch := omega) only [Fetch64_eq, bind, Loads_bind_ok, Loads_prepend_ok, pure,
    Loads.pure, List.cons_append, List.nil_append, List.append_nil, zero_add]
  exact ⟨_, rfl⟩

theorem HashLen33to64_ok (s : List Byte) (h1 : 33 ≤ s.length) :
    ∃ h, HashLen33to64 s s.length = .ok (h,
      [(0, 8), (8, 8), ((s.length : Int) - 24, 8), ((s.length : Int) - 32, 8), (16, 8), (24, 8),
        ((s.length : Int) - 8, 8), ((s.length : Int) - 16, 8)]) := by
  unfold HashLen33to64
  simp (disch := omega) only [Fetch64_eq, bind, Loads_bind_ok, Loads_prepend_ok, pure,
    Loads.pure, List.cons_append, List.nil_append, List.append_nil, zero_add]
  exact ⟨_, rfl⟩

theorem sub32_sixtyfour (k : Nat) (h1 : 1 ≤ k) (h2 : 64 * k < 4294967296) :
    sub32 (64 * k) 64 = 64 * (k - 1) := by
  unfold sub32
  omega

/-- Clearing the six low bits of a 32-bit value rounds it down to a multiple of 64. -/
theorem and_not_63 (x : Nat) (hx : x < 4294967296) : x &&& 4294967232 = 64 * (x / 64) := by
  have hm : (4294967232 : Nat) = (2 ^ 26 - 1) <<< 6 := by decide
  have hd : 64 * (x / 64) = (x >>> 6) <<< 6 := by
    rw [Nat.shiftRight_eq_div_pow, Nat.shiftLeft_eq]
    omega
  rw [hm, hd]
  apply Nat.eq_of_testBit_eq
  intro i
  simp only [Nat.testBit_and, Nat.testBit_shiftLeft, Nat.testBit_shiftRight,
    Nat.testBit_two_pow_sub_one]
  by_cases h6 : 6 ≤ i
  · have e : 6 + (i - 6) = i := by omega
    simp only [ge_iff_le, h6, decide_True, Bool.true_and, e]
    by_cases h32 : i < 32
    · have : i - 6 < 26 := by omega
      simp only [this, decide_True, Bool.and_true]
    · have hlt : x < 2 ^ i :=
        Nat.lt_of_lt_of_le hx (by
          have : (4294967296 : Nat) = 2 ^ 32 := by decide
          rw [this]
          exact Nat.pow_le_pow_right (by decide) (by omega))
      rw [Nat.testBit_lt_two_pow hlt]
      rfl
  · simp only [ge_iff_le, h6, decide_False, Bool.false_and, Bool.and_false]

/-- The block loop of `CityHash64`, entered with a counter `64 * k` for `k` between 1 and the
fuel and with `64 * k` bytes left from `p`, returns after exactly `k` iterations; iteration
`j` loads twelve words, all inside the 64 bytes at `p + 64 * j`. -/
theorem CityHash64_loop_ok (s : List Byte) :
    ∀ (fuel : Nat) (p : Int) (k : Nat) (st : CityHash64State) (count : Nat),
      1 ≤ k → k ≤ fuel → 64 * k < 4294967296 → 0 ≤ p →
      p + 64 * (k : Int) ≤ (s.length : Int) →
      ∃ st1, CityHash64_loop s fuel p (64 * k) st count
        = .ok ((st1, count + k),
          (List.range k).flatMap (fun j =>
            ([(p + 64 * (j : Int) + 8, 8), (p + 64 * (j : Int) + 48, 8),
              (p + 64 * (j : Int) + 40, 8), (p + 64 * (j : Int), 8),
              (p + 64 * (j : Int) + 8, 8), (p + 64 * (j : Int) + 16, 8),
              (p + 64 * (j : Int) + 24, 8), (p + 64 * (j : Int) + 16, 8),
              (p + 64 * (j : Int) + 32, 8), (p + 64 * (j : Int) + 32 + 8, 8),
              (p + 64 * (j : Int) + 32 + 16, 8), (p + 64 * (j : Int) + 32 + 24, 8)] :
              List Load))) := by
  intro fuel
  induction fuel with
  | zero =>
    intro p k st count h1 h2
    omega
  | succ n ih =>
    intro p k st count h1 h2 h3 h4 h5
    obtain ⟨m, rfl⟩ : ∃ m, k = m + 1 := ⟨k - 1, by omega⟩
    have hb := range_succ_bind (fun q => [(q + 8, 8), (q + 48, 8), (q + 40, 8), (q, 8),
      (q + 8, 8), (q + 16, 8), (q + 24, 8), (q + 16, 8), (q + 32, 8), (q + 32 + 8, 8),
      (q + 32 + 16, 8), (q + 32 + 24, 8)]) p 64 m
    simp only [] at hb
    rw [hb]
    unfold CityHash64_loop
    have hs : sub32 (64 * (m + 1)) 64 = 64 * m := by rw [sub32_sixtyfour (m + 1) h1 h3]; rfl
    simp (disch := omega) only [Fetch64_eq, WeakHashLen32WithSeeds_eq, bind, Loads_bind_ok,
      Loads_prepend_ok, pure, Loads.pure, hs, List.cons_append, List.nil_append,
      List.append_nil]
    by_cases hz : m = 0
    · subst hz
      simp only [Nat.mul_zero, ne_eq, not_true_eq_false, if_false, List.range_zero,
        List.flatMap_nil, List.append_nil]
      exact ⟨_, rfl⟩
    · have hz1 : 64 * m ≠ 0 := by omega
      simp only [ne_eq, hz1, not_false_eq_true, if_true]
      generalize hL : CityHash64_loop s n _ _ _ _ = L
      obtain ⟨st1, e⟩ : ∃ st1, L = .ok ((st1, count + 1 + m),
          (List.range m).flatMap (fun j =>
            ([(p + 64 + 64 * (j : Int) + 8, 8), (p + 64 + 64 * (j : Int) + 48, 8),
              (p + 64 + 64 * (j : Int) + 40, 8), (p + 64 + 64 * (j : Int), 8),
              (p + 64 + 64 * (j : Int) + 8, 8), (p + 64 + 64 * (j : Int) + 16, 8),
              (p + 64 + 64 * (j : Int) + 24, 8), (p + 64 + 64 * (j : Int) + 16, 8),
              (p + 64 + 64 * (j : Int) + 32, 8), (p + 64 + 64 * (j : Int) + 32 + 8, 8),
              (p + 64 + 64 * (j : Int) + 32 + 16, 8), (p + 64 + 64 * (j : Int) + 32 + 24, 8)] :
              List Load))) := by
        rw [← hL]
        exact ih (p + 64) m _ (count + 1) (by omega) (by omega) (by omega) (by omega)
          (by omega)
      subst e
      have hc : count + (m + 1) = count + 1 + m := by omega
      rw [hc]
      exact ⟨_, rfl⟩

theorem CityHash64_ok (CityHash128to64 : Nat → Nat → Nat) (s : List Byte)
    (h32 : s.length < 4294967296) :
    ∃ (h n : Nat) (t : List Load), CityHash64 CityHash128to64 s s.length = .ok ((h, n), t) ∧
      (s.length = 0 → n = 0 ∧ t = []) ∧
      (0 < s.length → s.length < 4 → n = 0 ∧
        t = ([(0, 1), (((s.length >>> 1 : Nat) : Int), 1), ((s.length : Int) - 1, 1)] :
          List Load)) ∧
      (4 ≤ s.length → s.length < 8 → n = 0 ∧ t = [(0, 4), ((s.length : Int) - 4, 4)]) ∧
      (8 ≤ s.length → s.length ≤ 16 → n = 0 ∧ t = [(0, 8), ((s.length : Int) - 8, 8)]) ∧
      (16 < s.length → s.length ≤ 32 → n = 0 ∧
        t = [(0, 8), (8, 8), ((s.length : Int) - 8, 8), ((s.length : Int) - 16, 8)]) ∧
      (32 < s.length → s.length ≤ 64 → n = 0 ∧
        t = [(0, 8), (8, 8), ((s.length : Int) - 24, 8), ((s.length : Int) - 32, 8), (16, 8),
          (24, 8), ((s.length : Int) - 8, 8), ((s.length : Int) - 16, 8)]) ∧
      (64 < s.length → n = ((s.length - 1) &&& 4294967232) / 64 ∧ 0 < n ∧
        t = [((s.length : Int) - 40, 8), ((s.length : Int) - 16, 8), ((s.length : Int) - 56, 8),
            ((s.length : Int) - 48, 8), ((s.length : Int) - 24, 8),
            ((s.length : Int) - 64, 8), ((s.length : Int) - 56, 8), ((s.length : Int) - 48, 8),
            ((s.length : Int) - 40, 8),
            ((s.length : Int) - 32, 8), ((s.length : Int) - 24, 8), ((s.length : Int) - 16, 8),
            ((s.length : Int) - 8, 8), (0, 8)] ++
          (List.range n).flatMap (fun j =>
            ([(64 * (j : Int) + 8, 8), (64 * (j : Int) + 48, 8), (64 * (j : Int) + 40, 8),
              (64 * (j : Int), 8), (64 * (j : Int) + 8, 8), (64 * (j : Int) + 16, 8),
              (64 * (j : Int) + 24, 8), (64 * (j : Int) + 16, 8),
              (64 * (j : Int) + 32, 8), (64 * (j : Int) + 40, 8), (64 * (j : Int) + 48, 8),
              (64 * (j : Int) + 56, 8)] : List Load))) := by
  unfold CityHash64
  by_cases h32a : s.length ≤ 32
  · rw [if_pos h32a]
    by_cases h16 : s.length ≤ 16
    · rw [if_pos h16]
      obtain ⟨h, t, e, c0, c1, c2, c3⟩ := HashLen0to16_ok s h16
      simp only [bind, Loads_bind_ok, Loads_prepend_ok, pure, Loads.pure, e, List.append_nil]
      exact ⟨h, 0, t, rfl, fun hh => ⟨rfl, c0 hh⟩, fun a b => ⟨rfl, c1 a b⟩,
        fun a b => ⟨rfl, c2 a b⟩, fun a _ => ⟨rfl, c3 a⟩, fun hh => by omega,
        fun hh => by omega, fun hh => by omega⟩
    · rw [if_neg h16]
      obtain ⟨h, e⟩ := HashLen17to32_ok s (by omega)
      simp only [bind, Loads_bind_ok, Loads_prepend_ok, pure, Loads.pure, e, List.append_nil]
      exact ⟨h, 0, _, rfl, fun hh => by omega, fun _ hh => by omega, fun _ hh => by omega,
        fun _ hh => by omega, fun _ _ => ⟨rfl, rfl⟩, fun hh => by omega, fun hh => by omega⟩
  · rw [if_neg h32a]
    by_cases h64 : s.length ≤ 64
    · rw [if_pos h64]
      obtain ⟨h, e⟩ := HashLen33to64_ok s (by omega)
      simp only [bind, Loads_bind_ok, Loads_prepend_ok, pure, Loads.pure, e, List.append_nil]
      exact ⟨h, 0, _, rfl, fun hh => by omega, fun _ hh => by omega, fun _ hh => by omega,
        fun _ hh => by omega, fun _ hh => by omega, fun _ _ => ⟨rfl, rfl⟩, fun hh => by omega⟩
    · rw [if_neg h64]
      simp (disch := omega) only [Fetch64_eq, WeakHashLen32WithSeeds_eq, bind, Loads_bind_ok,
        Loads_prepend_ok, pure, Loads.pure, List.cons_append, List.nil_append, List.append_nil]
      rw [sub32_one s.length (by omega) h32, and_not_63 (s.length - 1) (by omega)]
      have key : ∀ st, ∃ st1,
          CityHash64_loop s 4294967296 0 (64 * ((s.length - 1) / 64)) st 0
            = .ok ((st1, 0 + (s.length - 1) / 64),
              (List.range ((s.length - 1) / 64)).flatMap (fun j =>
                ([((0 : Int) + 64 * (j : Int) + 8, 8), ((0 : Int) + 64 * (j : Int) + 48, 8),
                  ((0 : Int) + 64 * (j : Int) + 40, 8), ((0 : Int) + 64 * (j : Int), 8),
                  ((0 : Int) + 64 * (j : Int) + 8, 8), ((0 : Int) + 64 * (j : Int) + 16, 8),
                  ((0 : Int) + 64 * (j : Int) + 24, 8), ((0 : Int) + 64 * (j : Int) + 16, 8),
                  ((0 : Int) + 64 * (j : Int) + 32, 8),
                  ((0 : Int) + 64 * (j : Int) + 32 + 8, 8),
                  ((0 : Int) + 64 * (j : Int) + 32 + 16, 8),
                  ((0 : Int) + 64 * (j : Int) + 32 + 24, 8)] : List Load))) :=
        fun st => CityHash64_loop_ok s 4294967296 0 ((s.length - 1) / 64) st 0 (by omega)
          (by omega) (by omega) (Int.le_refl 0) (by omega)
      generalize hL : CityHash64_loop s _ _ _ _ _ = L
      obtain ⟨st1, e⟩ : ∃ st1, L = .ok ((st1, 0 + (s.length - 1) / 64),
          (List.range ((s.length - 1) / 64)).flatMap (fun j =>
            ([((0 : Int) + 64 * (j : Int) + 8, 8), ((0 : Int) + 64 * (j : Int) + 48, 8),
              ((0 : Int) + 64 * (j : Int) + 40, 8), ((0 : Int) + 64 * (j : Int), 8),
              ((0 : Int) + 64 * (j : Int) + 8, 8), ((0 : Int) + 64 * (j : Int) + 16, 8),
              ((0 : Int) + 64 * (j : Int) + 24, 8), ((0 : Int) + 64 * (j : Int) + 16, 8),
              ((0 : Int) + 64 * (j : Int) + 32, 8),
              ((0 : Int) + 64 * (j : Int) + 32 + 8, 8),
              ((0 : Int) + 64 * (j : Int) + 32 + 16, 8),
              ((0 : Int) + 64 * (j : Int) + 32 + 24, 8)] : List Load))) := by
        rw [← hL]
        exact key _
      subst e
      simp only [Loads_bind_ok, Loads_prepend_ok, List.cons_append, List.nil_append,
        List.append_nil, zero_add]
      have hn : 64 * ((s.length - 1) / 64) / 64 = (s.length - 1) / 64 := by omega
      refine ⟨_, _, _, rfl, fun hh => by omega, fun _ hh => by omega, fun _ hh => by omega,
        fun _ hh => by omega, fun _ hh => by omega, fun _ hh => by omega,
        fun _ => ⟨hn.symm, ?_, ?_⟩⟩
      · show 0 < (s.length - 1) / 64
        omega
      · simp only [List.cons_append, List.nil_append, List.cons.injEq, Prod.mk.injEq, and_true,
          true_and]
        repeat' apply And.intro
        all_goals first
          | omega
          | congr 1

/-- Every load of `CityHash32` lies inside the buffer. -/
theorem CityHash32_inside (s : List Byte) (h32 : s.length < 4294967296) (r : Nat × Nat)
    (t : List Load) (e : CityHash32 s s.length = .ok (r, t)) :
    ∀ l ∈ t, 0 ≤ l.1 ∧ l.1 + (l.2 : Int) ≤ (s.length : Int) := by
  obtain ⟨h, n, t1, e1, c0, c1, c2, c3⟩ := CityHash32_ok s h32
  rw [e1] at e
  cases e
  intro l hl
  obtain ⟨a, w⟩ := l
  by_cases h24 : s.length ≤ 24
  · by_cases h12 : s.length ≤ 12
    · by_cases h4 : s.length ≤ 4
      · rw [(c0 h4).2] at hl
        simp only [List.mem_map, List.mem_range, Prod.mk.injEq] at hl
        obtain ⟨i, hi, rfl, rfl⟩ := hl
        show (0 : Int) ≤ (i : Int) ∧ (i : Int) + ((1 : Nat) : Int) ≤ (s.length : Int)
        omega
      · rw [(c1 (by omega) h12).2] at hl
        have hb := and_four_bound s.length (by omega) h12
        simp only [List.mem_cons, List.mem_singleton, List.not_mem_nil, or_false,
          Prod.mk.injEq] at hl
        show (0 : Int) ≤ a ∧ a + (w : Int) ≤ (s.length : Int)
        omega
    · rw [(c2 (by omega) h24).2, shiftRight_one] at hl
      simp only [List.mem_cons, List.mem_singleton, List.not_mem_nil, or_false,
        Prod.mk.injEq] at hl
      show (0 : Int) ≤ a ∧ a + (w : Int) ≤ (s.length : Int)
      omega
  · obtain ⟨hn, -, ht⟩ := c3 (by omega)
    rw [ht, hn] at hl
    simp only [List.mem_cons, List.mem_singleton, List.not_mem_nil, or_false, List.mem_append,
      List.mem_flatMap, List.mem_range, Prod.mk.injEq] at hl
    show (0 : Int) ≤ a ∧ a + (w : Int) ≤ (s.length : Int)
    rcases hl with hl | ⟨j, hj, hl⟩ <;> omega

/-- Every load of `CityHash64` lies inside the buffer. -/
theorem CityHash64_inside (CityHash128to64 : Nat → Nat → Nat) (s : List Byte)
    (h32 : s.length < 4294967296) (r : Nat × Nat) (t : List Load)
    (e : CityHash64 CityHash128to64 s s.length = .ok (r, t)) :
    ∀ l ∈ t, 0 ≤ l.1 ∧ l.1 + (l.2 : Int) ≤ (s.length : Int) := by
  obtain ⟨h, n, t1, e1, c0, c1, c2, c3, c4, c5, c6⟩ := CityHash64_ok CityHash128to64 s h32
  rw [e1] at e
  cases e
  intro l hl
  obtain ⟨a, w⟩ := l
  have key : (a, w) ∈ t → (0 : Int) ≤ a ∧ a + (w : Int) ≤ (s.length : Int) := by
    intro hl
    by_cases h64 : s.length ≤ 64
    · by_cases h32a : s.length ≤ 32
      · by_cases h16 : s.length ≤ 16
        · by_cases h8 : 8 ≤ s.length
          · rw [(c3 h8 h16).2] at hl
            simp only [List.mem_cons, List.mem_singleton, List.not_mem_nil, or_false,
              Prod.mk.injEq] at hl
            omega
          · by_cases h4 : 4 ≤ s.length
            · rw [(c2 h4 (by omega)).2] at hl
              simp only [List.mem_cons, List.mem_singleton, List.not_mem_nil, or_false,
                Prod.mk.injEq] at hl
              omega
            · by_cases h0 : 0 < s.length
              · rw [(c1 h0 (by omega)).2, shiftRight_one] at hl
                simp only [List.mem_cons, List.mem_singleton, List.not_mem_nil, or_false,
                  Prod.mk.injEq] at hl
                omega
              · rw [(c0 (by omega)).2] at hl
                cases hl
        · rw [(c4 (by omega) h32a).2] at hl
          simp only [List.mem_cons, List.mem_singleton, List.not_mem_nil, or_false,
            Prod.mk.injEq] at hl
          omega
      · rw [(c5 (by omega) h64).2] at hl
        simp only [List.mem_cons, List.mem_singleton, List.not_mem_nil, or_false,
          Prod.mk.injEq] at hl
        omega
    · obtain ⟨hn, -, ht⟩ := c6 (by omega)
      have hm := and_not_63 (s.length - 1) (by omega)
      rw [ht, hn] at hl
      simp only [List.mem_cons, List.mem_singleton, List.not_mem_nil, or_false,
        List.mem_append, List.mem_flatMap, List.mem_range, Prod.mk.injEq] at hl
      rcases hl with hl | ⟨j, hj, hl⟩ <;> omega
  exact key hl

set_option maxRecDepth 100000 in
/-- The value of `CityHash64` on the sample buffer of 130 bytes, after 2 iterations. -/
theorem CityHash64_sampleBuffer_130 :
    (Except.toOption (CityHash64 sampleCityHash128to64 (sampleBuffer 130) 130)).map
      (fun r => r.1) = some (16357706991484565740, 2) := by
  rfl

/-- C26: for every buffer of `len` bytes with `len` a 32-bit unsigned value, `CityHash32` and
`CityHash64` return, and the loads they made are exactly the ones listed, each inside
`[0, len)`: offset at least 0 and offset plus width at most `len`. For `len > 24` the block
loop of `CityHash32` runs exactly `(len - 1) / 20` iterations, at least one, and iteration `j`
loads the five 4-byte words at `20 * j`; for `len > 64` the block loop of `CityHash64` runs
exactly `((len - 1) & ~63) / 64` iterations, at least one, and iteration `j` makes twelve
8-byte loads inside the 64 bytes at `64 * j`; before the loop each function loads from the
tail of the buffer. For shorter buffers no block loop runs and the loads are those of the
helper selected by `len`. -/
theorem CityHash_loads_in_bounds (CityHash128to64 : Nat → Nat → Nat) (s : List Byte)
    (len : Nat) (hlen : s.length = len) (h32 : len < 4294967296) :
    (∃ (h n : Nat) (t : List Load), CityHash32 s len = .ok ((h, n), t) ∧
      (∀ l ∈ t, 0 ≤ l.1 ∧ l.1 + (l.2 : Int) ≤ (len : Int)) ∧
      (len ≤ 4 → n = 0 ∧ t = (List.range len).map (fun (i : Nat) => ((i : Int), 1))) ∧
      (4 < len → len ≤ 12 → n = 0 ∧
        t = [(0, 4), ((len : Int) - 4, 4), ((((len >>> 1) &&& 4 : Nat) : Int), 4)]) ∧
      (12 < len → len ≤ 24 → n = 0 ∧
        t = [(((len >>> 1 : Nat) : Int) - 4, 4), (4, 4), ((len : Int) - 8, 4),
          (((len >>> 1 : Nat) : Int), 4), (0, 4), ((len : Int) - 4, 4)]) ∧
      (24 < len → n = (len - 1) / 20 ∧ 0 < n ∧
        t = [((len : Int) - 4, 4), ((len : Int) - 8, 4), ((len : Int) - 16, 4), ((len : Int) - 12, 4),
            ((len : Int) - 20, 4)] ++
          (List.range n).flatMap (fun j =>
            ([(20 * (j : Int), 4), (20 * (j : Int) + 4, 4), (20 * (j : Int) + 8, 4),
              (20 * (j : Int) + 12, 4), (20 * (j : Int) + 16, 4)] : List Load)))) ∧
    (∃ (h n : Nat) (t : List Load), CityHash64 CityHash128to64 s len = .ok ((h, n), t) ∧
      (∀ l ∈ t, 0 ≤ l.1 ∧ l.1 + (l.2 : Int) ≤ (len : Int)) ∧
      (len = 0 → n = 0 ∧ t = []) ∧
      (0 < len → len < 4 → n = 0 ∧
        t = ([(0, 1), (((len >>> 1 : Nat) : Int), 1), ((len : Int) - 1, 1)] : List Load)) ∧
      (4 ≤ len → len < 8 → n = 0 ∧ t = [(0, 4), ((len : Int) - 4, 4)]) ∧
      (8 ≤ len → len ≤ 16 → n = 0 ∧ t = [(0, 8), ((len : Int) - 8, 8)]) ∧
      (16 < len → len ≤ 32 → n = 0 ∧
        t = [(0, 8), (8, 8), ((len : Int) - 8, 8), ((len : Int) - 16, 8)]) ∧
      (32 < len → len ≤ 64 → n = 0 ∧
        t = [(0, 8), (8, 8), ((len : Int) - 24, 8), ((len : Int) - 32, 8), (16, 8), (24, 8),
          ((len : Int) - 8, 8), ((len : Int) - 16, 8)]) ∧
      (64 < len → n = ((len - 1) &&& 4294967232) / 64 ∧ 0 < n ∧
        t = [((len : Int) - 40, 8), ((len : Int) - 16, 8), ((len : Int) - 56, 8), ((len : Int) - 48, 8),
            ((len : Int) - 24, 8), ((len : Int) - 64, 8), ((len : Int) - 56, 8), ((len : Int) - 48, 8),
            ((len : Int) - 40, 8), ((len : Int) - 32, 8), ((len : Int) - 24, 8), ((len : Int) - 16, 8),
            ((len : Int) - 8, 8), (0, 8)] ++
          (List.range n).flatMap (fun j =>
            ([(64 * (j : Int) + 8, 8), (64 * (j : Int) + 48, 8), (64 * (j : Int) + 40, 8),
              (64 * (j : Int), 8), (64 * (j : Int) + 8, 8), (64 * (j : Int) + 16, 8),
              (64 * (j : Int) + 24, 8), (64 * (j : Int) + 16, 8), (64 * (j : Int) + 32, 8),
              (64 * (j : Int) + 40, 8), (64 * (j : Int) + 48, 8), (64 * (j : Int) + 56, 8)] :
              List Load)))) := by
  subst hlen
  obtain ⟨h, n, t, e, c0, c1, c2, c3⟩ := CityHash32_ok s h32
  obtain ⟨h1, n1, t1, e1, d0, d1, d2, d3, d4, d5, d6⟩ := CityHash64_ok CityHash128to64 s h32
  exact ⟨⟨h, n, t, e, CityHash32_inside s h32 _ _ e, c0, c1, c2, c3⟩,
    ⟨h1, n1, t1, e1, CityHash64_inside CityHash128to64 s h32 _ _ e1, d0, d1, d2, d3, d4, d5,
      d6⟩⟩

/-- Witness for C26 on the sample buffer of 70 bytes. `CityHash32` makes 3 iterations and
`CityHash64` makes 1; the hash values are those of the compiled source with the published
`CityHash128to64`, here and on sample buffers that select each helper and on one of 130
bytes (2 iterations of `CityHash64`). With one byte less than the length passed, the first
load of either function is outside the buffer and the call faults. -/
theorem CityHash_loads_in_bounds_witness :
    Except.toOption (CityHash32 (sampleBuffer 70) 70)
      = some ((2408850946, 3), [(66, 4), (62, 4), (54, 4), (58, 4), (50, 4),
          (0, 4), (4, 4), (8, 4), (12, 4), (16, 4), (20, 4), (24, 4), (28, 4), (32, 4), (36, 4),
          (40, 4), (44, 4), (48, 4), (52, 4), (56, 4)]) ∧
    Except.toOption (CityHash64 sampleCityHash128to64 (sampleBuffer 70) 70)
      = some ((4308677322904658798, 1), [(30, 8), (54, 8), (14, 8), (22, 8), (46, 8),
          (6, 8), (14, 8), (22, 8), (30, 8), (38, 8), (46, 8), (54, 8), (62, 8), (0, 8),
          (8, 8), (48, 8), (40, 8), (0, 8), (8, 8), (16, 8), (24, 8), (16, 8), (32, 8), (40, 8),
          (48, 8), (56, 8)]) ∧
    ([3, 9, 20].map (fun n => (Except.toOption (CityHash32 (sampleBuffer n) n)).map
      (fun r => r.1))) = [some (2233951227, 0), some (55471172, 0), some (3833896638, 0)] ∧
    ([0, 2, 6, 12, 24, 50].map (fun n =>
      (Except.toOption (CityHash64 sampleCityHash128to64 (sampleBuffer n) n)).map
        (fun r => r.1))) = [some (11160318154034397263, 0), some (10566365721646990634, 0),
        some (13924039168137207695, 0), some (10212515983963011122, 0),
        some (4904281855780817358, 0), some (7722647597813076578, 0)] ∧
    (Except.toOption (CityHash64 sampleCityHash128to64 (sampleBuffer 130) 130)).map
      (fun r => r.1) = some (16357706991484565740, 2) ∧
    CityHash32 (sampleBuffer 69) 70 = .error Fault.OutOfBounds ∧
    CityHash64 sampleCityHash128to64 (sampleBuffer 69) 70 = .error Fault.OutOfBounds ∧
    (sampleBuffer 70).length = 70 ∧
    (∃ (h n : Nat) (t : List Load), CityHash32 (sampleBuffer 70) 70 = .ok ((h, n), t) ∧
      (∀ l ∈ t, 0 ≤ l.1 ∧ l.1 + (l.2 : Int) ≤ ((70 : Nat) : Int)) ∧
      (70 ≤ 4 → n = 0 ∧ t = (List.range 70).map (fun (i : Nat) => ((i : Int), 1))) ∧
      (4 < 70 → 70 ≤ 12 → n = 0 ∧
        t = [(0, 4), (((70 : Nat) : Int) - 4, 4), ((((70 >>> 1) &&& 4 : Nat) : Int), 4)]) ∧
      (12 < 70 → 70 ≤ 24 → n = 0 ∧
        t = [(((70 >>> 1 : Nat) : Int) - 4, 4), (4, 4), (((70 : Nat) : Int) - 8, 4),
          (((70 >>> 1 : Nat) : Int), 4), (0, 4), (((70 : Nat) : Int) - 4, 4)]) ∧
      (24 < 70 → n = (70 - 1) / 20 ∧ 0 < n ∧
        t = [(((70 : Nat) : Int) - 4, 4), (((70 : Nat) : Int) - 8, 4), (((70 : Nat) : Int) - 16, 4), (((70 : Nat) : Int) - 12, 4),
            (((70 : Nat) : Int) - 20, 4)] ++
          (List.range n).flatMap (fun j =>
            ([(20 * (j : Int), 4), (20 * (j : Int) + 4, 4), (20 * (j : Int) + 8, 4),
              (20 * (j : Int) + 12, 4), (20 * (j : Int) + 16, 4)] : List Load)))) ∧
    (∃ (h n : Nat) (t : List Load), CityHash64 sampleCityHash128to64 (sampleBuffer 70) 70 = .ok ((h, n), t) ∧
      (∀ l ∈ t, 0 ≤ l.1 ∧ l.1 + (l.2 : Int) ≤ ((70 : Nat) : Int)) ∧
      (70 = 0 → n = 0 ∧ t = []) ∧
      (0 < 70 → 70 < 4 → n = 0 ∧
        t = ([(0, 1), (((70 >>> 1 : Nat) : Int), 1), (((70 : Nat) : Int) - 1, 1)] : List Load)) ∧
      (4 ≤ 70 → 70 < 8 → n = 0 ∧ t = [(0, 4), (((70 : Nat) : Int) - 4, 4)]) ∧
      (8 ≤ 70 → 70 ≤ 16 → n = 0 ∧ t = [(0, 8), (((70 : Nat) : Int) - 8, 8)]) ∧
      (16 < 70 → 70 ≤ 32 → n = 0 ∧
        t = [(0, 8), (8, 8), (((70 : Nat) : Int) - 8, 8), (((70 : Nat) : Int) - 16, 8)]) ∧
      (32 < 70 → 70 ≤ 64 → n = 0 ∧
        t = [(0, 8), (8, 8), (((70 : Nat) : Int) - 24, 8), (((70 : Nat) : Int) - 32, 8), (16, 8), (24, 8),
          (((70 : Nat) : Int) - 8, 8), (((70 : Nat) : Int) - 16, 8)]) ∧
      (64 < 70 → n = ((70 - 1) &&& 4294967232) / 64 ∧ 0 < n ∧
        t = [(((70 : Nat) : Int) - 40, 8), (((70 : Nat) : Int) - 16, 8), (((70 : Nat) : Int) - 56, 8), (((70 : Nat) : Int) - 48, 8),
            (((70 : Nat) : Int) - 24, 8), (((70 : Nat) : Int) - 64, 8), (((70 : Nat) : Int) - 56, 8), (((70 : Nat) : Int) - 48, 8),
            (((70 : Nat) : Int) - 40, 8), (((70 : Nat) : Int) - 32, 8), (((70 : Nat) : Int) - 24, 8), (((70 : Nat) : Int) - 16, 8),
            (((70 : Nat) : Int) - 8, 8), (0, 8)] ++
          (List.range n).flatMap (fun j =>
            ([(64 * (j : Int) + 8, 8), (64 * (j : Int) + 48, 8), (64 * (j : Int) + 40, 8),
              (64 * (j : Int), 8), (64 * (j : Int) + 8, 8), (64 * (j : Int) + 16, 8),
              (64 * (j : Int) + 24, 8), (64 * (j : Int) + 16, 8), (64 * (j : Int) + 32, 8),
              (64 * (j : Int) + 40, 8), (64 * (j : Int) + 48, 8), (64 * (j : Int) + 56, 8)] :
              List Load)))) :=
  ⟨by decide, by decide, by decide, by decide, CityHash64_sampleBuffer_130, rfl, rfl,
    by decide,
    CityHash_loads_in_bounds sampleCityHash128to64 (sampleBuffer 70) 70 (by decide)
      (by decide)⟩

/-! ## Where the dedup law of script imports fails -/

theorem CreateScriptObject_cyclic :
    ∀ (fuel : Nat) (T : EObjectKind) (s : LoadState),
      CreateScriptObject fuel T cyclicContext (FPackageObjectIndex.ScriptImport 7) s
        = .error Fault.OutOfFuel := by
  intro fuel
  induction fuel with
  | zero =>
    intro T s
    rfl
  | succ n ih =>
    intro T s
    have hl : cyclicContext.GlobalToc.ScriptObjectByGlobalIdMap.lookup
        (FPackageObjectIndex.ScriptImport 7)
        = some ⟨⟨0, 0⟩, FPackageObjectIndex.ScriptImport 7⟩ := by decide
    have hr : ∀ name, cyclicContext.ObjectArray.lookup name = none := fun _ => rfl
    simp only [CreateScriptObject, hl, hr, FPackageObjectIndex.IsNull, Bool.not_false, if_true,
      ih]

end Saturn
